import Mathlib

/-
Verification of the control-flow-graph construction core of
libsolidity/analysis/ControlFlowGraph.  The data model (ControlFlowBlock,
CFGNode, FunctionFlow, ModifierFlow) is translated from the header
src/libsolidity/analysis/ControlFlowGraph.h.  The repository ships only the
header; the bodies of CFG::constructFlow, CFG::newNode, CFG::addEdge and the
CFG::visit overloads are declared there but their translation unit is not part
of the source tree, so those operations are modelled from the specification
(spec.md sections 4 to 7), as noted on each definition.
Nodes live in an index-based arena (a list of nodes owned by the builder);
edges are stored as indices into that arena.
-/

namespace ControlFlow

/-- Severity of a diagnostic reported through the external diagnostic
collaborator (spec section 6). -/
inductive Severity where
  | error
  | warning
deriving DecidableEq

/-- A diagnostic accepted by the external diagnostic collaborator:
a severity together with a message code standing for location and text. -/
structure Diagnostic where
  severity : Severity
  message : Nat
deriving DecidableEq

/-- Classification of a call expression (spec sections 4.4, 4.5 and the design
note of section 9: whether a call has an implicit failure path is a
configurable predicate over call expressions, here carried on the AST node).
`normal` calls cannot fail; `canFail` calls (value-bearing assertion
primitives, uncaught external calls) may abort to the exception anchor while
control may also continue; `reverting` calls (revert/throw-like primitives)
always divert control to the exception anchor. -/
inductive CallKind where
  | normal
  | canFail
  | reverting
deriving DecidableEq

/-- Binary operators as far as control flow cares: the two short-circuiting
boolean operators and everything else (spec section 4.2). -/
inductive BOp where
  | logicalAnd
  | logicalOr
  | other
deriving DecidableEq

/-- Expressions of the AST collaborator (spec section 6), with stable `Nat`
identities usable as keys.  Subexpression structure is what the builder
traverses; `atom` stands for any expression without control-flow-relevant
subexpressions (identifiers, literals, member accesses). -/
inductive Expr where
  | atom (id : Nat)
  | binop (id : Nat) (op : BOp) (lhs rhs : Expr)
  | call (id : Nat) (kind : CallKind) (args : List Expr)

/-- Statements of the AST collaborator.  A source-level block is a sequence of
statements, represented by `seq`/`skip` nesting.  `ifStmt` has no false body
(its false node is the merge point directly, spec section 4.2);
`ifElseStmt` has both branches. -/
inductive Stmt where
  | skip
  | seq (a b : Stmt)
  | exprStmt (e : Expr)
  | varDecl (id : Nat) (initVal : Option Expr)
  | inlineAsm (id : Nat)
  | ret (id : Nat) (val : Option Expr)
  | breakStmt
  | continueStmt
  | throwStmt
  | ifStmt (cond : Expr) (thenS : Stmt)
  | ifElseStmt (cond : Expr) (thenS elseS : Stmt)
  | whileStmt (cond : Expr) (body : Stmt)
  | placeholder

/-- Basic control flow block, from ControlFlowGraph.h lines 38-49: the linear
contents of one basic block.  References to AST nodes are their `Nat`
identities.  All sequences default to empty and `returnStatement` to `none`
(the header's `nullptr`). -/
structure ControlFlowBlock where
  variableDeclarations : List Nat := []
  expressions : List Nat := []
  inlineAssemblyStatements : List Nat := []
  returnStatement : Option Nat := none
deriving DecidableEq

/-- Node of the control flow graph, from ControlFlowGraph.h lines 55-64.
`entries` and `exits` are non-owning edge lists, stored as arena indices. -/
structure CFGNode where
  entries : List Nat := []
  exits : List Nat := []
  block : ControlFlowBlock := {}
deriving DecidableEq

/-- Describes the control flow of a function, from ControlFlowGraph.h lines
67-83: three anchor node references into the arena. -/
structure FunctionFlow where
  entry : Nat
  exit : Nat
  exception : Nat
deriving DecidableEq

/-- Describes the control flow of a modifier, from ControlFlowGraph.h lines
87-99: a FunctionFlow plus the ordered list of placeholder cuts, each a pair
of disconnected nodes. -/
structure ModifierFlow extends FunctionFlow where
  placeholders : List (Nat × Nat)
deriving DecidableEq

/-- Transient construction state of the CFG builder, from ControlFlowGraph.h
lines 136-150: the node arena `nodes`, the per-subprogram jump anchors
`returnJump`/`exceptionJump`, the `breakJumps`/`continueJumps` stacks, the
node `currentNode` that newly visited content attaches to, the flag
`unreachable` recording that `currentNode` is the unreachable sentinel of
spec section 4.1, the placeholder cut list of the modifier under
construction, and the diagnostics reported so far. -/
structure CFGState where
  nodes : List CFGNode
  returnJump : Nat
  exceptionJump : Nat
  breakJumps : List Nat
  continueJumps : List Nat
  currentNode : Nat
  unreachable : Bool
  placeholders : List (Nat × Nat)
  diagnostics : List Diagnostic
deriving DecidableEq

/-- Reads the node stored at arena index `i` (an out-of-range index yields the
default node; under the builder's invariant every stored index is in range). -/
def nodeAt (s : CFGState) (i : Nat) : CFGNode := s.nodes.getD i {}

/-- Modelled from the spec: arena allocation behind `CFG::newNode` (declared
at ControlFlowGraph.h line 133; its body is not in the source tree).  A node
is allocated exactly once at the end of the arena, default-initialized. -/
def pushNode (s : CFGState) : CFGState :=
  { s with nodes := s.nodes ++ [{}] }

/-- Modelled from the spec: `CFG::newNode` (ControlFlowGraph.h line 133)
returns the freshly allocated node, here its arena index, together with the
grown state. -/
def newNode (s : CFGState) : Nat × CFGState :=
  (s.nodes.length, pushNode s)

/-- Replaces the node at index `i` by `f` applied to it; out-of-range indices
leave the arena unchanged (`List.set` semantics). -/
def updateNode (s : CFGState) (i : Nat) (f : CFGNode → CFGNode) : CFGState :=
  { s with nodes := s.nodes.set i (f (nodeAt s i)) }

/-- Modelled from the spec: `CFG::addEdge` (ControlFlowGraph.h line 134; body
not in the source tree).  Edges are always added as a pair: the target is
appended to the source's `exits` and the source to the target's `entries`
(spec section 3, CFGNode invariant). -/
def addEdge (s : CFGState) (f t : Nat) : CFGState :=
  let s1 := updateNode s f (fun n => { n with exits := n.exits ++ [t] })
  updateNode s1 t (fun n => { n with entries := n.entries ++ [f] })

/-- Applies `f` to the ControlFlowBlock of the current node (the dispatch rule
of spec section 4.1: visited content is appended to `currentNode.block`). -/
def updCur (s : CFGState) (f : ControlFlowBlock → ControlFlowBlock) : CFGState :=
  updateNode s s.currentNode (fun n => { n with block := f n.block })

/-- Appends a visited expression to the current node's block. -/
def appendExpr (s : CFGState) (i : Nat) : CFGState :=
  updCur s (fun b => { b with expressions := b.expressions ++ [i] })

/-- Appends a visited variable declaration to the current node's block. -/
def appendVarDecl (s : CFGState) (i : Nat) : CFGState :=
  updCur s (fun b => { b with variableDeclarations := b.variableDeclarations ++ [i] })

/-- Appends a visited inline assembly statement to the current node's block. -/
def appendAsm (s : CFGState) (i : Nat) : CFGState :=
  updCur s (fun b => { b with inlineAssemblyStatements := b.inlineAssemblyStatements ++ [i] })

/-- Records the return statement terminating the current node's block. -/
def setReturn (s : CFGState) (i : Nat) : CFGState :=
  updCur s (fun b => { b with returnStatement := some i })

/-- Reports a diagnostic through the external diagnostic collaborator; the
traversal is never unwound (spec sections 6 and 7). -/
def report (s : CFGState) (sev : Severity) (msg : Nat) : CFGState :=
  { s with diagnostics := s.diagnostics ++ [⟨sev, msg⟩] }

/-- Moves the builder to the unreachable sentinel: a fresh disconnected node
that nothing flows into, receiving any subsequent content of the current
lexical scope (spec sections 4.1 and 4.4). -/
def diverge (s : CFGState) : CFGState :=
  { pushNode s with currentNode := s.nodes.length, unreachable := true }

mutual

/-- Modelled from the spec: the expression-visiting part of the CFG builder
(overloads `CFG::visit(BinaryOperation const&)` and
`CFG::visit(FunctionCall const&)` declared at ControlFlowGraph.h lines 108 and
124; bodies not in the source tree).  Plain expressions are appended to the
current node with subexpressions flattened in evaluation order (spec sections
3 and 4.1).  Short-circuit AND/OR build a fork with an evaluate-right edge and
a skip edge into a merge node (spec section 4.2).  Calls with an implicit
failure path gain an exit to the exception anchor besides the
normal-continuation exit (spec section 4.5); reverting calls divert to the
exception anchor and make the following code unreachable (spec section 4.4). -/
def visitExpr : CFGState → Expr → CFGState
  | s, .atom i => appendExpr s i
  | s, .binop i op l r =>
    match op with
    | .other => appendExpr (visitExpr (visitExpr s l) r) i
    | _ =>
      let s1 := visitExpr s l
      let fork := s1.currentNode
      let u := s1.unreachable
      let rn := s1.nodes.length
      let s2 := pushNode s1
      let mn := s2.nodes.length
      let s3 := pushNode s2
      let s4 := addEdge (addEdge s3 fork rn) fork mn
      let s5 := visitExpr { s4 with currentNode := rn, unreachable := false } r
      let s6 := if s5.unreachable then s5 else addEdge s5 s5.currentNode mn
      appendExpr { s6 with currentNode := mn, unreachable := u } i
  | s, .call i k args =>
    let s1 := appendExpr (visitExprList s args) i
    match k with
    | .normal => s1
    | .canFail =>
      let n := s1.currentNode
      let cn := s1.nodes.length
      let s2 := addEdge (pushNode s1) n cn
      let s3 := addEdge s2 n s2.exceptionJump
      { s3 with currentNode := cn }
    | .reverting =>
      diverge (addEdge s1 s1.currentNode s1.exceptionJump)

/-- Visits a list of argument expressions left to right. -/
def visitExprList : CFGState → List Expr → CFGState
  | s, [] => s
  | s, e :: es => visitExprList (visitExpr s e) es

end

/-- Modelled from the spec: the statement-visiting part of the CFG builder
(the `CFG::visit` overloads for statements declared at ControlFlowGraph.h
lines 114-123; bodies not in the source tree).  Branching follows spec section
4.2, loops section 4.3, jumps and divergence section 4.4, placeholders section
4.6, and break/continue outside a loop is reported through the diagnostic
collaborator and treated as contributing no edge (spec sections 4.4 and 7). -/
def visitStmt : CFGState → Stmt → CFGState
  | s, .skip => s
  | s, .seq a b => visitStmt (visitStmt s a) b
  | s, .exprStmt e => visitExpr s e
  | s, .varDecl i iv =>
    let s1 := match iv with
    | none => s
    | some e => visitExpr s e
    appendVarDecl s1 i
  | s, .inlineAsm i => appendAsm s i
  | s, .ret i v =>
    let s1 := match v with
    | none => s
    | some e => visitExpr s e
    let s2 := addEdge s1 s1.currentNode s1.returnJump
    diverge (setReturn s2 i)
  | s, .breakStmt =>
    match s.breakJumps with
    | [] => report s .error 1
    | t :: _ => diverge (addEdge s s.currentNode t)
  | s, .continueStmt =>
    match s.continueJumps with
    | [] => report s .error 2
    | t :: _ => diverge (addEdge s s.currentNode t)
  | s, .throwStmt =>
    diverge (addEdge s s.currentNode s.exceptionJump)
  | s, .ifStmt c t =>
    let s1 := visitExpr s c
    let cond := s1.currentNode
    let u := s1.unreachable
    let tn := s1.nodes.length
    let s2 := pushNode s1
    let mn := s2.nodes.length
    let s3 := pushNode s2
    let s4 := addEdge (addEdge s3 cond tn) cond mn
    let s5 := visitStmt { s4 with currentNode := tn, unreachable := false } t
    let s6 := if s5.unreachable then s5 else addEdge s5 s5.currentNode mn
    { s6 with currentNode := mn, unreachable := u }
  | s, .ifElseStmt c t f =>
    let s1 := visitExpr s c
    let cond := s1.currentNode
    let u := s1.unreachable
    let tn := s1.nodes.length
    let s2 := pushNode s1
    let fn := s2.nodes.length
    let s3 := pushNode s2
    let mn := s3.nodes.length
    let s4 := pushNode s3
    let s5 := addEdge (addEdge s4 cond tn) cond fn
    let s6 := visitStmt { s5 with currentNode := tn, unreachable := false } t
    let s7 := if s6.unreachable then s6 else addEdge s6 s6.currentNode mn
    let s8 := visitStmt { s7 with currentNode := fn, unreachable := false } f
    let s9 := if s8.unreachable then s8 else addEdge s8 s8.currentNode mn
    { s9 with currentNode := mn,
              unreachable := u || (nodeAt s9 mn).entries.isEmpty }
  | s, .whileStmt c body =>
    let u := s.unreachable
    let cn := s.nodes.length
    let s1 := addEdge (pushNode s) s.currentNode cn
    let s2 := visitExpr { s1 with currentNode := cn } c
    let fork := s2.currentNode
    let xn := s2.nodes.length
    let s3 := pushNode s2
    let bn := s3.nodes.length
    let s4 := pushNode s3
    let s5 := addEdge (addEdge s4 fork xn) fork bn
    let s6 := { s5 with breakJumps := xn :: s5.breakJumps,
                        continueJumps := cn :: s5.continueJumps,
                        currentNode := bn, unreachable := false }
    let s7 := visitStmt s6 body
    let s8 := if s7.unreachable then s7 else addEdge s7 s7.currentNode cn
    { s8 with breakJumps := s8.breakJumps.tail,
              continueJumps := s8.continueJumps.tail,
              currentNode := xn, unreachable := u }
  | s, .placeholder =>
    let an := s.nodes.length
    { pushNode s with
      placeholders := s.placeholders ++ [(s.currentNode, an)],
      currentNode := an }

/-- Modelled from the spec: per-subprogram construction shared by function and
modifier definitions (spec section 4.6; `CFG::visit(FunctionDefinition
const&)` and `CFG::endVisit(FunctionDefinition const&)` are declared at
ControlFlowGraph.h lines 112-113 with bodies not in the source tree).  A fresh
entry/exit/exception anchor triple is allocated, the per-subprogram transient
state is reset, the body is traversed from the entry node, and if the end of
the body is still live it is connected to the exit anchor (the implicit
valueless return). -/
def runSubprogram (s : CFGState) (body : Stmt) : FunctionFlow × CFGState :=
  let en := s.nodes.length
  let s1 := pushNode s
  let ex := s1.nodes.length
  let s2 := pushNode s1
  let exc := s2.nodes.length
  let s3 := pushNode s2
  let s4 := { s3 with returnJump := ex, exceptionJump := exc,
                      breakJumps := [], continueJumps := [],
                      currentNode := en, unreachable := false,
                      placeholders := [] }
  let s5 := visitStmt s4 body
  let s6 := if s5.unreachable then s5 else addEdge s5 s5.currentNode ex
  (⟨en, ex, exc⟩, s6)

/-- Modelled from the spec: visiting a function definition (spec section 4.6)
produces its FunctionFlow. -/
def runFunction (s : CFGState) (body : Stmt) : FunctionFlow × CFGState :=
  runSubprogram s body

/-- Modelled from the spec: visiting a modifier definition (spec section 4.6)
behaves like a function definition except that the placeholder cuts recorded
in encounter order are harvested into the ModifierFlow. -/
def runModifier (s : CFGState) (body : Stmt) : ModifierFlow × CFGState :=
  let (ff, s1) := runSubprogram s body
  (⟨ff, s1.placeholders⟩, s1)

/-- A top-level definition of the AST root: a function or modifier definition
with a stable identity and a body. -/
inductive Definition where
  | functionDef (id : Nat) (body : Stmt)
  | modifierDef (id : Nat) (body : Stmt)

/-- Result of a construction run: the lookup tables from definition identity
to flow descriptor (ControlFlowGraph.h lines 143-147) and the final builder
state owning the node arena. -/
structure CFGResult where
  functionFlows : List (Nat × FunctionFlow)
  modifierFlows : List (Nat × ModifierFlow)
  state : CFGState

/-- Modelled from the spec: the traversal over the top-level declarations of
the AST root, constructing one flow per function/modifier definition and
populating the lookup tables (spec section 2, data flow). -/
def runDefs : CFGState → List Definition →
    List (Nat × FunctionFlow) × List (Nat × ModifierFlow) × CFGState
  | s, [] => ([], [], s)
  | s, .functionDef i b :: ds =>
    let (ff, s1) := runFunction s b
    let (fs, ms, s2) := runDefs s1 ds
    ((i, ff) :: fs, ms, s2)
  | s, .modifierDef i b :: ds =>
    let (mf, s1) := runModifier s b
    let (fs, ms, s2) := runDefs s1 ds
    (fs, (i, mf) :: ms, s2)

/-- The pristine builder state of a freshly constructed CFG object. -/
def initialState : CFGState :=
  { nodes := [], returnJump := 0, exceptionJump := 0, breakJumps := [],
    continueJumps := [], currentNode := 0, unreachable := false,
    placeholders := [], diagnostics := [] }

/-- Modelled from the spec: `CFG::constructFlow` (ControlFlowGraph.h line 106;
body not in the source tree).  Walks the AST root once, populates the graph
data and lookup tables, and returns false exactly when a diagnostic of error
severity was reported during the call (spec section 6, entry point). -/
def constructFlow (root : List Definition) : Bool × CFGResult :=
  let (fs, ms, s) := runDefs initialState root
  (!(s.diagnostics.any (fun d => d.severity == Severity.error)), ⟨fs, ms, s⟩)

/-- Constructs the flow of a single function definition from a pristine
builder, as `constructFlow` does for each function it encounters. -/
def constructFunctionFlow (body : Stmt) : FunctionFlow × CFGState :=
  runFunction initialState body

/-- Constructs the flow of a single modifier definition from a pristine
builder, as `constructFlow` does for each modifier it encounters. -/
def constructModifierFlow (body : Stmt) : ModifierFlow × CFGState :=
  runModifier initialState body

/-- Counts the placeholder statements contained in a statement, in source
order. -/
def countPlaceholders : Stmt → Nat
  | .seq a b => countPlaceholders a + countPlaceholders b
  | .ifStmt _ t => countPlaceholders t
  | .ifElseStmt _ t f => countPlaceholders t + countPlaceholders f
  | .whileStmt _ b => countPlaceholders b
  | .placeholder => 1
  | _ => 0

/-- Tests whether a statement contains a return statement. -/
def containsRet : Stmt → Bool
  | .seq a b => containsRet a || containsRet b
  | .ifStmt _ t => containsRet t
  | .ifElseStmt _ t f => containsRet t || containsRet f
  | .whileStmt _ b => containsRet b
  | .ret _ _ => true
  | _ => false

/-- Well-formedness of a placeholder cut with respect to the current builder
state: both nodes are in the arena, the before-node is retired (it is not the
current node, not a jump anchor and on no jump stack, so no further edge ever
leaves it), the after-node is no edge target (not a jump anchor, on no jump
stack, and its entry list is empty), and the two nodes are not connected in
either direction. -/
structure CutOK (s : CFGState) (p : Nat × Nat) : Prop where
  b_lt : p.1 < s.nodes.length
  a_lt : p.2 < s.nodes.length
  b_ne_cur : p.1 ≠ s.currentNode
  b_ne_rj : p.1 ≠ s.returnJump
  b_ne_ej : p.1 ≠ s.exceptionJump
  a_ne_rj : p.2 ≠ s.returnJump
  a_ne_ej : p.2 ≠ s.exceptionJump
  b_nin_bj : p.1 ∉ s.breakJumps
  b_nin_cj : p.1 ∉ s.continueJumps
  a_nin_bj : p.2 ∉ s.breakJumps
  a_nin_cj : p.2 ∉ s.continueJumps
  a_entries : (nodeAt s p.2).entries = []
  no_edge_ba : p.2 ∉ (nodeAt s p.1).exits
  no_edge_ab : p.1 ∉ (nodeAt s p.2).exits

/-- The builder invariant maintained throughout a subprogram traversal: all
edge indices and all state indices are inside the arena, edges are symmetric
(spec section 3: `A ∈ B.entries` exactly when `B ∈ A.exits`), the current
node is never an exit or exception anchor nor a pending jump target, and
every recorded placeholder cut is well formed and disconnected. -/
structure Inv (s : CFGState) : Prop where
  bounded : ∀ i, i < s.nodes.length →
    (∀ j ∈ (nodeAt s i).entries, j < s.nodes.length) ∧
    (∀ j ∈ (nodeAt s i).exits, j < s.nodes.length)
  symm : ∀ i, i < s.nodes.length → ∀ j, j < s.nodes.length →
    (j ∈ (nodeAt s i).exits ↔ i ∈ (nodeAt s j).entries)
  cur_lt : s.currentNode < s.nodes.length
  rj_lt : s.returnJump < s.nodes.length
  ej_lt : s.exceptionJump < s.nodes.length
  bj_lt : ∀ t ∈ s.breakJumps, t < s.nodes.length
  cj_lt : ∀ t ∈ s.continueJumps, t < s.nodes.length
  cur_ne_rj : s.currentNode ≠ s.returnJump
  cur_ne_ej : s.currentNode ≠ s.exceptionJump
  cur_nin_bj : s.currentNode ∉ s.breakJumps
  cur_nin_cj : s.currentNode ∉ s.continueJumps
  cuts : ∀ p ∈ s.placeholders, CutOK s p

/-- Stability facts relating the builder state before and after visiting an
AST fragment: the arena only grows, the jump anchors and jump stacks are
restored, the current node is either unchanged or freshly allocated, entry
lists of nodes that are neither jump anchors nor pending jump targets are
unchanged, exit lists and blocks of nodes other than the current node are
unchanged, and every new placeholder cut starts at the old current node or at
a fresh node, with a fresh after-node. -/
structure Steps (s s' : CFGState) : Prop where
  len_le : s.nodes.length ≤ s'.nodes.length
  rj_eq : s'.returnJump = s.returnJump
  ej_eq : s'.exceptionJump = s.exceptionJump
  bj_eq : s'.breakJumps = s.breakJumps
  cj_eq : s'.continueJumps = s.continueJumps
  cur_evo : s'.currentNode = s.currentNode ∨ s.nodes.length ≤ s'.currentNode
  entries_stable : ∀ i, i < s.nodes.length → i ≠ s.returnJump →
    i ≠ s.exceptionJump → i ∉ s.breakJumps → i ∉ s.continueJumps →
    (nodeAt s' i).entries = (nodeAt s i).entries
  exits_stable : ∀ i, i < s.nodes.length → i ≠ s.currentNode →
    (nodeAt s' i).exits = (nodeAt s i).exits
  block_stable : ∀ i, i < s.nodes.length → i ≠ s.currentNode →
    (nodeAt s' i).block = (nodeAt s i).block
  cuts_mono : ∀ p ∈ s'.placeholders, p ∈ s.placeholders ∨
    ((p.1 = s.currentNode ∨ s.nodes.length ≤ p.1) ∧ s.nodes.length ≤ p.2)

/-- Arena well-formedness independent of the per-subprogram transient state:
every stored edge index is inside the arena, and edges are symmetric: `A` is
among `B`'s entries exactly when `B` is among `A`'s exits (the CFGNode
invariant of spec section 3). -/
def ArenaWF (s : CFGState) : Prop :=
  (∀ i, i < s.nodes.length →
    (∀ j ∈ (nodeAt s i).entries, j < s.nodes.length) ∧
    (∀ j ∈ (nodeAt s i).exits, j < s.nodes.length)) ∧
  (∀ i, i < s.nodes.length → ∀ j, j < s.nodes.length →
    (j ∈ (nodeAt s i).exits ↔ i ∈ (nodeAt s j).entries))

/-- The anchor shape of a constructed flow descriptor in a builder state: all
three anchors are inside the arena, the entry anchor has no entries, and the
exit and exception anchors have no exits (spec section 3, FunctionFlow). -/
def FlowOK (s : CFGState) (f : FunctionFlow) : Prop :=
  f.entry < s.nodes.length ∧ f.exit < s.nodes.length ∧
  f.exception < s.nodes.length ∧
  (nodeAt s f.entry).entries = [] ∧
  (nodeAt s f.exit).exits = [] ∧
  (nodeAt s f.exception).exits = []

/-- The function body of the total-divergence example of spec section 5:
`if (a) then return; else revert();` followed by a further statement. -/
def c3Body : Stmt :=
  .seq (.ifElseStmt (.atom 1) (.ret 9 none) (.exprStmt (.call 10 .reverting [])))
       (.exprStmt (.atom 3))

/-- The function body of the break-routing example of spec section 5:
`while (cond) { if (x) break; stmtA; }`. -/
def c6Body : Stmt :=
  .whileStmt (.atom 1) (.seq (.ifStmt (.atom 2) .breakStmt) (.exprStmt (.atom 3)))

/-- The function body of the short-circuit example of spec section 5: the
expression statement `a && f()`. -/
def c7Body : Stmt := .exprStmt (.binop 5 .logicalAnd (.atom 1) (.call 2 .normal []))

/-- A modifier body with two placeholder statements separated by ordinary
statements, exercising encounter-order recording of placeholder cuts. -/
def c4Body2 : Stmt :=
  .seq (.exprStmt (.atom 7)) (.seq .placeholder (.seq (.exprStmt (.atom 8)) .placeholder))

/-- The function body of the call-failure example of spec section 5: a
statement calling a primitive with an implicit failure path, then another
statement. -/
def c8Body : Stmt :=
  .seq (.exprStmt (.call 4 .canFail [.atom 6])) (.exprStmt (.atom 7))

/-- A minimal well-formed builder state for exercising a lone can-fail call:
a three-node arena holding a fresh subprogram's entry/exit/exception anchors,
with the entry as the current node. -/
def c8State : CFGState :=
  { nodes := [{}, {}, {}], returnJump := 1, exceptionJump := 2,
    breakJumps := [], continueJumps := [], currentNode := 0,
    unreachable := false, placeholders := [], diagnostics := [] }

theorem getD_set {α : Type _} (l : List α) (v d : α) (i j : Nat) :
    (l.set i v).getD j d = if i = j ∧ i < l.length then v else l.getD j d := by
  induction l generalizing i j with
  | nil => simp
  | cons a t ih =>
    cases i with
    | zero =>
      cases j with
      | zero => simp
      | succ j1 => simp [List.getD_cons_succ]
    | succ i1 =>
      cases j with
      | zero => simp [List.getD_cons_zero]
      | succ j1 =>
        simp only [List.set_cons_succ, List.getD_cons_succ, ih, List.length_cons]
        congr 1
        simp only [eq_iff_iff]
        constructor
        · rintro ⟨h1, h2⟩
          exact ⟨by omega, by omega⟩
        · rintro ⟨h1, h2⟩
          exact ⟨by omega, by omega⟩

theorem length_pushNode (s : CFGState) :
    (pushNode s).nodes.length = s.nodes.length + 1 := by
  simp [pushNode]

theorem nodeAt_pushNode (s : CFGState) (i : Nat) :
    nodeAt (pushNode s) i = if i = s.nodes.length then {} else nodeAt s i := by
  unfold nodeAt pushNode
  rcases lt_trichotomy i s.nodes.length with h | h | h
  · rw [List.getD_append _ _ _ _ h, if_neg (by omega)]
  · subst h
    rw [List.getD_append_right _ _ _ _ (le_refl _), if_pos rfl]
    simp
  · rw [List.getD_append_right _ _ _ _ (by omega), if_neg (by omega)]
    rw [List.getD_eq_default _ _ (by simp; omega), List.getD_eq_default _ _ (by omega)]

theorem length_updateNode (s : CFGState) (i : Nat) (f : CFGNode → CFGNode) :
    (updateNode s i f).nodes.length = s.nodes.length := by
  simp [updateNode]

theorem nodeAt_updateNode (s : CFGState) (i : Nat) (f : CFGNode → CFGNode) (j : Nat) :
    nodeAt (updateNode s i f) j =
      if i = j ∧ i < s.nodes.length then f (nodeAt s i) else nodeAt s j := by
  unfold updateNode nodeAt
  exact getD_set _ _ _ _ _

theorem length_addEdge (s : CFGState) (f t : Nat) :
    (addEdge s f t).nodes.length = s.nodes.length := by
  simp [addEdge, length_updateNode]

theorem exits_addEdge_aux (s : CFGState) (f t j : Nat) :
    (nodeAt (addEdge s f t) j).exits =
      (nodeAt (updateNode s f (fun n => { n with exits := n.exits ++ [t] })) j).exits := by
  show (nodeAt (updateNode _ t _) j).exits = _
  rw [nodeAt_updateNode]
  split
  · rename_i h
    rw [h.1]
  · rfl

theorem block_addEdge_aux (s : CFGState) (f t j : Nat) :
    (nodeAt (addEdge s f t) j).block =
      (nodeAt (updateNode s f (fun n => { n with exits := n.exits ++ [t] })) j).block := by
  show (nodeAt (updateNode _ t _) j).block = _
  rw [nodeAt_updateNode]
  split
  · rename_i h
    rw [h.1]
  · rfl

theorem block_addEdge (s : CFGState) (f t i : Nat) :
    (nodeAt (addEdge s f t) i).block = (nodeAt s i).block := by
  rw [block_addEdge_aux, nodeAt_updateNode]
  split
  · rename_i h
    rw [h.1]
  · rfl

theorem entries_addEdge (s : CFGState) (f t : Nat) (ht : t < s.nodes.length) (i : Nat) :
    (nodeAt (addEdge s f t) i).entries =
      (nodeAt s i).entries ++ if i = t then [f] else [] := by
  have base : ∀ j, (nodeAt (updateNode s f
      (fun n => { n with exits := n.exits ++ [t] })) j).entries = (nodeAt s j).entries := by
    intro j
    rw [nodeAt_updateNode]
    split
    · rename_i h
      rw [h.1]
    · rfl
  show (nodeAt (updateNode _ t _) i).entries = _
  rw [nodeAt_updateNode]
  split
  · rename_i h
    obtain ⟨h1, _⟩ := h
    subst h1
    rw [if_pos rfl]
    simp only [base]
  · rename_i h
    rw [length_updateNode] at h
    rw [if_neg (fun he => h ⟨he.symm, ht⟩), base, List.append_nil]

theorem exits_addEdge (s : CFGState) (f t : Nat) (hf : f < s.nodes.length) (i : Nat) :
    (nodeAt (addEdge s f t) i).exits =
      (nodeAt s i).exits ++ if i = f then [t] else [] := by
  rw [exits_addEdge_aux, nodeAt_updateNode]
  split
  · rename_i h
    rw [if_pos h.1.symm, ← h.1]
  · rename_i h
    rw [if_neg (fun he => h ⟨he.symm, hf⟩), List.append_nil]

theorem entries_addEdge_of_ne (s : CFGState) (f t i : Nat) (h : i ≠ t) :
    (nodeAt (addEdge s f t) i).entries = (nodeAt s i).entries := by
  have base : ∀ j, (nodeAt (updateNode s f
      (fun n => { n with exits := n.exits ++ [t] })) j).entries = (nodeAt s j).entries := by
    intro j
    rw [nodeAt_updateNode]
    split
    · rename_i hx
      rw [hx.1]
    · rfl
  show (nodeAt (updateNode _ t _) i).entries = _
  rw [nodeAt_updateNode]
  split
  · rename_i hx
    exact absurd hx.1.symm h
  · exact base i

theorem exits_addEdge_of_ne (s : CFGState) (f t i : Nat) (h : i ≠ f) :
    (nodeAt (addEdge s f t) i).exits = (nodeAt s i).exits := by
  rw [exits_addEdge_aux, nodeAt_updateNode]
  split
  · rename_i hx
    exact absurd hx.1.symm h
  · rfl

@[simp] theorem pushNode_returnJump (s : CFGState) : (pushNode s).returnJump = s.returnJump := rfl
@[simp] theorem pushNode_exceptionJump (s : CFGState) : (pushNode s).exceptionJump = s.exceptionJump := rfl
@[simp] theorem pushNode_breakJumps (s : CFGState) : (pushNode s).breakJumps = s.breakJumps := rfl
@[simp] theorem pushNode_continueJumps (s : CFGState) : (pushNode s).continueJumps = s.continueJumps := rfl
@[simp] theorem pushNode_currentNode (s : CFGState) : (pushNode s).currentNode = s.currentNode := rfl
@[simp] theorem pushNode_unreachable (s : CFGState) : (pushNode s).unreachable = s.unreachable := rfl
@[simp] theorem pushNode_placeholders (s : CFGState) : (pushNode s).placeholders = s.placeholders := rfl
@[simp] theorem pushNode_diagnostics (s : CFGState) : (pushNode s).diagnostics = s.diagnostics := rfl

@[simp] theorem updateNode_returnJump (s : CFGState) (i f) : (updateNode s i f).returnJump = s.returnJump := rfl
@[simp] theorem updateNode_exceptionJump (s : CFGState) (i f) : (updateNode s i f).exceptionJump = s.exceptionJump := rfl
@[simp] theorem updateNode_breakJumps (s : CFGState) (i f) : (updateNode s i f).breakJumps = s.breakJumps := rfl
@[simp] theorem updateNode_continueJumps (s : CFGState) (i f) : (updateNode s i f).continueJumps = s.continueJumps := rfl
@[simp] theorem updateNode_currentNode (s : CFGState) (i f) : (updateNode s i f).currentNode = s.currentNode := rfl
@[simp] theorem updateNode_unreachable (s : CFGState) (i f) : (updateNode s i f).unreachable = s.unreachable := rfl
@[simp] theorem updateNode_placeholders (s : CFGState) (i f) : (updateNode s i f).placeholders = s.placeholders := rfl
@[simp] theorem updateNode_diagnostics (s : CFGState) (i f) : (updateNode s i f).diagnostics = s.diagnostics := rfl

@[simp] theorem addEdge_returnJump (s : CFGState) (f t) : (addEdge s f t).returnJump = s.returnJump := rfl
@[simp] theorem addEdge_exceptionJump (s : CFGState) (f t) : (addEdge s f t).exceptionJump = s.exceptionJump := rfl
@[simp] theorem addEdge_breakJumps (s : CFGState) (f t) : (addEdge s f t).breakJumps = s.breakJumps := rfl
@[simp] theorem addEdge_continueJumps (s : CFGState) (f t) : (addEdge s f t).continueJumps = s.continueJumps := rfl
@[simp] theorem addEdge_currentNode (s : CFGState) (f t) : (addEdge s f t).currentNode = s.currentNode := rfl
@[simp] theorem addEdge_unreachable (s : CFGState) (f t) : (addEdge s f t).unreachable = s.unreachable := rfl
@[simp] theorem addEdge_placeholders (s : CFGState) (f t) : (addEdge s f t).placeholders = s.placeholders := rfl
@[simp] theorem addEdge_diagnostics (s : CFGState) (f t) : (addEdge s f t).diagnostics = s.diagnostics := rfl

@[simp] theorem updCur_returnJump (s : CFGState) (f) : (updCur s f).returnJump = s.returnJump := rfl
@[simp] theorem updCur_exceptionJump (s : CFGState) (f) : (updCur s f).exceptionJump = s.exceptionJump := rfl
@[simp] theorem updCur_breakJumps (s : CFGState) (f) : (updCur s f).breakJumps = s.breakJumps := rfl
@[simp] theorem updCur_continueJumps (s : CFGState) (f) : (updCur s f).continueJumps = s.continueJumps := rfl
@[simp] theorem updCur_currentNode (s : CFGState) (f) : (updCur s f).currentNode = s.currentNode := rfl
@[simp] theorem updCur_unreachable (s : CFGState) (f) : (updCur s f).unreachable = s.unreachable := rfl
@[simp] theorem updCur_placeholders (s : CFGState) (f) : (updCur s f).placeholders = s.placeholders := rfl
@[simp] theorem updCur_diagnostics (s : CFGState) (f) : (updCur s f).diagnostics = s.diagnostics := rfl
@[simp] theorem length_updCur (s : CFGState) (f) : (updCur s f).nodes.length = s.nodes.length := by
  simp [updCur, length_updateNode]

@[simp] theorem report_returnJump (s : CFGState) (sev m) : (report s sev m).returnJump = s.returnJump := rfl
@[simp] theorem report_exceptionJump (s : CFGState) (sev m) : (report s sev m).exceptionJump = s.exceptionJump := rfl
@[simp] theorem report_breakJumps (s : CFGState) (sev m) : (report s sev m).breakJumps = s.breakJumps := rfl
@[simp] theorem report_continueJumps (s : CFGState) (sev m) : (report s sev m).continueJumps = s.continueJumps := rfl
@[simp] theorem report_currentNode (s : CFGState) (sev m) : (report s sev m).currentNode = s.currentNode := rfl
@[simp] theorem report_unreachable (s : CFGState) (sev m) : (report s sev m).unreachable = s.unreachable := rfl
@[simp] theorem report_placeholders (s : CFGState) (sev m) : (report s sev m).placeholders = s.placeholders := rfl
@[simp] theorem report_nodes (s : CFGState) (sev m) : (report s sev m).nodes = s.nodes := rfl
@[simp] theorem nodeAt_report (s : CFGState) (sev m i) : nodeAt (report s sev m) i = nodeAt s i := rfl

theorem nodeAt_withCur (s : CFGState) (x i : Nat) :
    nodeAt { s with currentNode := x } i = nodeAt s i := rfl

theorem nodeAt_withCurUnreach (s : CFGState) (x : Nat) (u : Bool) (i : Nat) :
    nodeAt { s with currentNode := x, unreachable := u } i = nodeAt s i := rfl

theorem nodeAt_withJumps (s : CFGState) (bj cj : List Nat) (x : Nat) (u : Bool) (i : Nat) :
    nodeAt { s with breakJumps := bj, continueJumps := cj,
                    currentNode := x, unreachable := u } i = nodeAt s i := rfl

theorem nodeAt_withPh (s : CFGState) (ph : List (Nat × Nat)) (x i : Nat) :
    nodeAt { s with placeholders := ph, currentNode := x } i = nodeAt s i := rfl

theorem nodeAt_withReset (s : CFGState) (rj ej : Nat) (bj cj : List Nat) (x : Nat)
    (u : Bool) (ph : List (Nat × Nat)) (i : Nat) :
    nodeAt { s with returnJump := rj, exceptionJump := ej, breakJumps := bj,
                    continueJumps := cj, currentNode := x, unreachable := u,
                    placeholders := ph } i = nodeAt s i := rfl

@[simp] theorem diverge_returnJump (s : CFGState) : (diverge s).returnJump = s.returnJump := rfl
@[simp] theorem diverge_exceptionJump (s : CFGState) : (diverge s).exceptionJump = s.exceptionJump := rfl
@[simp] theorem diverge_breakJumps (s : CFGState) : (diverge s).breakJumps = s.breakJumps := rfl
@[simp] theorem diverge_continueJumps (s : CFGState) : (diverge s).continueJumps = s.continueJumps := rfl
@[simp] theorem diverge_currentNode (s : CFGState) : (diverge s).currentNode = s.nodes.length := rfl
@[simp] theorem diverge_unreachable (s : CFGState) : (diverge s).unreachable = true := rfl
@[simp] theorem diverge_placeholders (s : CFGState) : (diverge s).placeholders = s.placeholders := rfl
@[simp] theorem diverge_diagnostics (s : CFGState) : (diverge s).diagnostics = s.diagnostics := rfl
@[simp] theorem length_diverge (s : CFGState) : (diverge s).nodes.length = s.nodes.length + 1 := by
  simp [diverge, pushNode]

theorem nodeAt_diverge (s : CFGState) (i : Nat) :
    nodeAt (diverge s) i = if i = s.nodes.length then {} else nodeAt s i := by
  show nodeAt { pushNode s with currentNode := _, unreachable := _ } i = _
  have : nodeAt { pushNode s with currentNode := s.nodes.length, unreachable := true } i
      = nodeAt (pushNode s) i := rfl
  rw [this, nodeAt_pushNode]

theorem entries_updCur (s : CFGState) (f i) :
    (nodeAt (updCur s f) i).entries = (nodeAt s i).entries := by
  unfold updCur
  rw [nodeAt_updateNode]
  split
  · rename_i h
    rw [h.1]
  · rfl

theorem exits_updCur (s : CFGState) (f i) :
    (nodeAt (updCur s f) i).exits = (nodeAt s i).exits := by
  unfold updCur
  rw [nodeAt_updateNode]
  split
  · rename_i h
    rw [h.1]
  · rfl

theorem block_updCur_of_ne (s : CFGState) (f) {i} (h : i ≠ s.currentNode) :
    (nodeAt (updCur s f) i).block = (nodeAt s i).block := by
  unfold updCur
  rw [nodeAt_updateNode]
  split
  · rename_i hx
    exact absurd hx.1.symm h
  · rfl

theorem block_updCur_self (s : CFGState) (f) (h : s.currentNode < s.nodes.length) :
    (nodeAt (updCur s f) s.currentNode).block = f (nodeAt s s.currentNode).block := by
  unfold updCur
  rw [nodeAt_updateNode, if_pos ⟨rfl, h⟩]

theorem Inv.pushNode (h : Inv s) : Inv (pushNode s) := by
  obtain ⟨hb, hs, hc, hr, he, hbj, hcj, hcr, hce, hcb, hcc, hcp⟩ := h
  refine ⟨?_, ?_, ?_, ?_, ?_, ?_, ?_, ?_, ?_, ?_, ?_, ?_⟩ <;>
    simp only [length_pushNode, pushNode_returnJump, pushNode_exceptionJump,
      pushNode_breakJumps, pushNode_continueJumps, pushNode_currentNode,
      pushNode_placeholders]
  · intro i hi
    rw [nodeAt_pushNode]
    split
    · simp
    · rename_i hne
      have hi2 : i < s.nodes.length := by omega
      exact ⟨fun j hj => by have := (hb i hi2).1 j hj; omega,
             fun j hj => by have := (hb i hi2).2 j hj; omega⟩
  · intro i hi j hj
    rw [nodeAt_pushNode, nodeAt_pushNode]
    by_cases h1 : i = s.nodes.length <;> by_cases h2 : j = s.nodes.length
    · subst h1
      rw [if_pos rfl, if_pos h2]
      simp
    · subst h1
      rw [if_pos rfl, if_neg h2]
      have hj2 : j < s.nodes.length := by omega
      simp only [CFGNode.mk.injEq]
      constructor
      · intro hx
        simp at hx
      · intro hx
        exact absurd ((hb j hj2).1 _ hx) (by omega)
    · subst h2
      rw [if_neg h1, if_pos rfl]
      have hi2 : i < s.nodes.length := by omega
      constructor
      · intro hx
        exact absurd ((hb i hi2).2 _ hx) (by omega)
      · intro hx
        simp at hx
    · rw [if_neg h1, if_neg h2]
      exact hs i (by omega) j (by omega)
  · omega
  · omega
  · omega
  · intro t ht
    have := hbj t ht
    omega
  · intro t ht
    have := hcj t ht
    omega
  · exact hcr
  · exact hce
  · exact hcb
  · exact hcc
  · intro p hp
    obtain ⟨c1, c2, c3, c4, c5, c6, c7, c8, c9, c10, c11, c12, c13, c14⟩ := hcp p hp
    refine ⟨by simp [length_pushNode]; omega, by simp [length_pushNode]; omega,
      c3, c4, c5, c6, c7, c8, c9, c10, c11, ?_, ?_, ?_⟩ <;>
      rw [nodeAt_pushNode] <;> try rw [nodeAt_pushNode]
    · rw [if_neg (by omega)]
      exact c12
    · rw [if_neg (by omega)]
      exact c13
    · rw [if_neg (by omega)]
      exact c14

theorem Inv.updCur (h : Inv s) (f : ControlFlowBlock → ControlFlowBlock) :
    Inv (updCur s f) := by
  obtain ⟨hb, hs, hc, hr, he, hbj, hcj, hcr, hce, hcb, hcc, hcp⟩ := h
  refine ⟨?_, ?_, ?_, ?_, ?_, ?_, ?_, ?_, ?_, ?_, ?_, ?_⟩ <;>
    simp only [length_updCur, updCur_returnJump, updCur_exceptionJump,
      updCur_breakJumps, updCur_continueJumps, updCur_currentNode,
      updCur_placeholders]
  · intro i hi
    rw [entries_updCur, exits_updCur]
    exact hb i hi
  · intro i hi j hj
    rw [exits_updCur, entries_updCur]
    exact hs i hi j hj
  · exact hc
  · exact hr
  · exact he
  · exact hbj
  · exact hcj
  · exact hcr
  · exact hce
  · exact hcb
  · exact hcc
  · intro p hp
    obtain ⟨c1, c2, c3, c4, c5, c6, c7, c8, c9, c10, c11, c12, c13, c14⟩ := hcp p hp
    exact ⟨by simpa [length_updCur] using c1, by simpa [length_updCur] using c2,
      c3, c4, c5, c6, c7, c8, c9, c10, c11,
      by rw [entries_updCur]; exact c12,
      by rw [exits_updCur]; exact c13,
      by rw [exits_updCur]; exact c14⟩

theorem Inv.report (h : Inv s) (sev : Severity) (m : Nat) : Inv (report s sev m) := by
  obtain ⟨hb, hs, hc, hr, he, hbj, hcj, hcr, hce, hcb, hcc, hcp⟩ := h
  refine ⟨hb, hs, hc, hr, he, hbj, hcj, hcr, hce, hcb, hcc, ?_⟩
  intro p hp
  obtain ⟨c1, c2, c3, c4, c5, c6, c7, c8, c9, c10, c11, c12, c13, c14⟩ := hcp p hp
  exact ⟨c1, c2, c3, c4, c5, c6, c7, c8, c9, c10, c11, c12, c13, c14⟩

theorem Inv.addEdge (h : Inv s) {f t : Nat} (hf : f < s.nodes.length)
    (ht : t < s.nodes.length)
    (hfp : ∀ p ∈ s.placeholders, f ≠ p.1)
    (htp : ∀ p ∈ s.placeholders, t ≠ p.1 ∧ t ≠ p.2) :
    Inv (addEdge s f t) := by
  obtain ⟨hb, hs, hc, hr, he, hbj, hcj, hcr, hce, hcb, hcc, hcp⟩ := h
  refine ⟨?_, ?_, ?_, ?_, ?_, ?_, ?_, ?_, ?_, ?_, ?_, ?_⟩ <;>
    simp only [length_addEdge, addEdge_returnJump, addEdge_exceptionJump,
      addEdge_breakJumps, addEdge_continueJumps, addEdge_currentNode,
      addEdge_placeholders]
  · intro i hi
    rw [entries_addEdge s f t ht, exits_addEdge s f t hf]
    constructor
    · intro j hj
      rcases List.mem_append.mp hj with hj1 | hj2
      · exact (hb i hi).1 j hj1
      · split at hj2 <;> simp_all
    · intro j hj
      rcases List.mem_append.mp hj with hj1 | hj2
      · exact (hb i hi).2 j hj1
      · split at hj2 <;> simp_all
  · intro i hi j hj
    rw [entries_addEdge s f t ht, exits_addEdge s f t hf]
    have old := hs i hi j hj
    rcases eq_or_ne i f with h1 | h1 <;> rcases eq_or_ne j t with h2 | h2
    · subst h1
      subst h2
      simp [List.mem_append]
    · subst h1
      rw [if_pos rfl, if_neg h2]
      simp only [List.append_nil, List.mem_append, List.mem_singleton]
      constructor
      · rintro (hx | hx)
        · exact old.mp hx
        · exact absurd hx h2
      · intro hx
        exact Or.inl (old.mpr hx)
    · subst h2
      rw [if_neg h1, if_pos rfl]
      simp only [List.append_nil, List.mem_append, List.mem_singleton]
      constructor
      · intro hx
        exact Or.inl (old.mp hx)
      · rintro (hx | hx)
        · exact old.mpr hx
        · exact absurd hx h1
    · rw [if_neg h1, if_neg h2]
      simpa using old
  · exact hc
  · exact hr
  · exact he
  · exact hbj
  · exact hcj
  · exact hcr
  · exact hce
  · exact hcb
  · exact hcc
  · intro p hp
    obtain ⟨c1, c2, c3, c4, c5, c6, c7, c8, c9, c10, c11, c12, c13, c14⟩ := hcp p hp
    refine ⟨by rwa [length_addEdge], by rwa [length_addEdge],
      c3, c4, c5, c6, c7, c8, c9, c10, c11, ?_, ?_, ?_⟩
    · rw [entries_addEdge_of_ne s f t p.2 (fun hx => (htp p hp).2 (hx.symm))]
      exact c12
    · rw [exits_addEdge_of_ne s f t p.1 (fun hx => hfp p hp (hx.symm))]
      exact c13
    · rw [exits_addEdge s f t hf]
      intro hmem
      rcases List.mem_append.mp hmem with hcase | hcase
      · exact c14 hcase
      · by_cases hpf : p.2 = f
        · rw [if_pos hpf] at hcase
          exact (htp p hp).1 (List.mem_singleton.mp hcase).symm
        · rw [if_neg hpf] at hcase
          simp at hcase

theorem Inv.retarget (h : Inv s) (x : Nat) (u : Bool) (hx : x < s.nodes.length)
    (h1 : x ≠ s.returnJump) (h2 : x ≠ s.exceptionJump)
    (h3 : x ∉ s.breakJumps) (h4 : x ∉ s.continueJumps)
    (h5 : ∀ p ∈ s.placeholders, p.1 ≠ x) :
    Inv { s with currentNode := x, unreachable := u } := by
  obtain ⟨hb, hs, hc, hr, he, hbj, hcj, hcr, hce, hcb, hcc, hcp⟩ := h
  refine ⟨hb, hs, hx, hr, he, hbj, hcj, h1, h2, h3, h4, ?_⟩
  intro p hp
  obtain ⟨c1, c2, c3, c4, c5, c6, c7, c8, c9, c10, c11, c12, c13, c14⟩ := hcp p hp
  exact ⟨c1, c2, h5 p hp, c4, c5, c6, c7, c8, c9, c10, c11, c12, c13, c14⟩

theorem Inv.diverge (h : Inv s) : Inv (ControlFlow.diverge s) := by
  have h2 := h.pushNode
  have heq : ControlFlow.diverge s =
      { ControlFlow.pushNode s with currentNode := s.nodes.length, unreachable := true } := rfl
  rw [heq]
  refine h2.retarget _ _ (by simp [length_pushNode]) ?_ ?_ ?_ ?_ ?_
  · simp only [pushNode_returnJump]
    have := h.rj_lt
    omega
  · simp only [pushNode_exceptionJump]
    have := h.ej_lt
    omega
  · simp only [pushNode_breakJumps]
    intro hmem
    have := h.bj_lt _ hmem
    omega
  · simp only [pushNode_continueJumps]
    intro hmem
    have := h.cj_lt _ hmem
    omega
  · simp only [pushNode_placeholders]
    intro p hp
    have := (h.cuts p hp).b_lt
    omega

theorem nodeAt_default (s : CFGState) {i : Nat} (h : s.nodes.length ≤ i) :
    nodeAt s i = {} :=
  List.getD_eq_default _ _ h

theorem block_updCur (s : CFGState) (f) (i : Nat) :
    (nodeAt (updCur s f) i).block =
      if i = s.currentNode ∧ s.currentNode < s.nodes.length
      then f (nodeAt s i).block else (nodeAt s i).block := by
  unfold updCur
  rw [nodeAt_updateNode]
  split
  · rename_i h
    rw [if_pos ⟨h.1.symm, h.2⟩, h.1]
  · rename_i h
    rw [if_neg (fun hx => h ⟨hx.1.symm, hx.2⟩)]

theorem retStmt_pushNode (s : CFGState) (i : Nat) :
    (nodeAt (pushNode s) i).block.returnStatement =
      (nodeAt s i).block.returnStatement := by
  rw [nodeAt_pushNode]
  split
  · rename_i h
    rw [h, nodeAt_default s (le_refl _)]
  · rfl

theorem retStmt_diverge (s : CFGState) (i : Nat) :
    (nodeAt (ControlFlow.diverge s) i).block.returnStatement =
      (nodeAt s i).block.returnStatement := by
  rw [nodeAt_diverge]
  split
  · rename_i h
    rw [h, nodeAt_default s (le_refl _)]
  · rfl

theorem retStmt_addEdge (s : CFGState) (f t i : Nat) :
    (nodeAt (addEdge s f t) i).block.returnStatement =
      (nodeAt s i).block.returnStatement := by
  rw [block_addEdge]

theorem retStmt_appendExpr (s : CFGState) (j i : Nat) :
    (nodeAt (appendExpr s j) i).block.returnStatement =
      (nodeAt s i).block.returnStatement := by
  show (nodeAt (updCur s _) i).block.returnStatement = _
  rw [block_updCur]
  split <;> rfl

theorem retStmt_appendVarDecl (s : CFGState) (j i : Nat) :
    (nodeAt (appendVarDecl s j) i).block.returnStatement =
      (nodeAt s i).block.returnStatement := by
  show (nodeAt (updCur s _) i).block.returnStatement = _
  rw [block_updCur]
  split <;> rfl

theorem retStmt_appendAsm (s : CFGState) (j i : Nat) :
    (nodeAt (appendAsm s j) i).block.returnStatement =
      (nodeAt s i).block.returnStatement := by
  show (nodeAt (updCur s _) i).block.returnStatement = _
  rw [block_updCur]
  split <;> rfl

theorem steps_refl (s : CFGState) : Steps s s :=
  ⟨le_refl _, rfl, rfl, rfl, rfl, Or.inl rfl,
   fun _ _ _ _ _ _ => rfl, fun _ _ _ => rfl, fun _ _ _ => rfl,
   fun _ hp => Or.inl hp⟩

theorem Steps.trans {s s1 s2 : CFGState} (h1 : Steps s s1) (h2 : Steps s1 s2) :
    Steps s s2 := by
  refine ⟨le_trans h1.len_le h2.len_le,
    h2.rj_eq.trans h1.rj_eq, h2.ej_eq.trans h1.ej_eq,
    h2.bj_eq.trans h1.bj_eq, h2.cj_eq.trans h1.cj_eq, ?_, ?_, ?_, ?_, ?_⟩
  · rcases h2.cur_evo with he | he
    · rcases h1.cur_evo with hf | hf
      · exact Or.inl (he.trans hf)
      · exact Or.inr (by omega)
    · exact Or.inr (le_trans h1.len_le he)
  · intro i hi hr hej hb hc
    have e2 := h2.entries_stable i (lt_of_lt_of_le hi h1.len_le)
      (by rw [h1.rj_eq]; exact hr) (by rw [h1.ej_eq]; exact hej)
      (by rw [h1.bj_eq]; exact hb) (by rw [h1.cj_eq]; exact hc)
    exact e2.trans (h1.entries_stable i hi hr hej hb hc)
  · intro i hi hc
    have hne : i ≠ s1.currentNode := by
      rcases h1.cur_evo with he | he
      · rw [he]
        exact hc
      · omega
    exact (h2.exits_stable i (lt_of_lt_of_le hi h1.len_le) hne).trans
      (h1.exits_stable i hi hc)
  · intro i hi hc
    have hne : i ≠ s1.currentNode := by
      rcases h1.cur_evo with he | he
      · rw [he]
        exact hc
      · omega
    exact (h2.block_stable i (lt_of_lt_of_le hi h1.len_le) hne).trans
      (h1.block_stable i hi hc)
  · intro p hp
    rcases h2.cuts_mono p hp with hin | ⟨hl, hr⟩
    · exact h1.cuts_mono p hin
    · refine Or.inr ⟨?_, le_trans h1.len_le hr⟩
      rcases hl with he | he
      · rcases h1.cur_evo with hf | hf
        · exact Or.inl (he.trans hf)
        · exact Or.inr (by omega)
      · exact Or.inr (le_trans h1.len_le he)

theorem steps_updCur (s : CFGState) (f) : Steps s (updCur s f) := by
  refine ⟨by simp, rfl, rfl, rfl, rfl, Or.inl rfl, ?_, ?_, ?_, ?_⟩
  · intro i _ _ _ _ _
    rw [entries_updCur]
  · intro i _ _
    rw [exits_updCur]
  · intro i _ hc
    rw [block_updCur_of_ne s f hc]
  · intro p hp
    simp only [updCur_placeholders] at hp
    exact Or.inl hp

theorem steps_report (s : CFGState) (sev m) : Steps s (report s sev m) := by
  refine ⟨by simp, rfl, rfl, rfl, rfl, Or.inl rfl, ?_, ?_, ?_, ?_⟩
  · intro i _ _ _ _ _
    rw [nodeAt_report]
  · intro i _ _
    rw [nodeAt_report]
  · intro i _ _
    rw [nodeAt_report]
  · intro p hp
    simp only [report_placeholders] at hp
    exact Or.inl hp

mutual

theorem visitExpr_ph : ∀ (e : Expr) (s : CFGState),
    (visitExpr s e).placeholders = s.placeholders
  | .atom i, s => by
    simp [visitExpr, appendExpr]
  | .binop i .other l r, s => by
    simp only [visitExpr, appendExpr, updCur_placeholders]
    rw [visitExpr_ph r _, visitExpr_ph l s]
  | .binop i .logicalAnd l r, s => by
    simp only [visitExpr, appendExpr, updCur_placeholders, addEdge_placeholders,
      pushNode_placeholders]
    rw [apply_ite CFGState.placeholders]
    simp only [addEdge_placeholders, ite_self]
    rw [visitExpr_ph r _]
    simp only [addEdge_placeholders, pushNode_placeholders]
    rw [visitExpr_ph l s]
  | .binop i .logicalOr l r, s => by
    simp only [visitExpr, appendExpr, updCur_placeholders, addEdge_placeholders,
      pushNode_placeholders]
    rw [apply_ite CFGState.placeholders]
    simp only [addEdge_placeholders, ite_self]
    rw [visitExpr_ph r _]
    simp only [addEdge_placeholders, pushNode_placeholders]
    rw [visitExpr_ph l s]
  | .call i .normal args, s => by
    simp only [visitExpr, appendExpr, updCur_placeholders]
    rw [visitExprList_ph args s]
  | .call i .canFail args, s => by
    simp only [visitExpr, appendExpr, updCur_placeholders, addEdge_placeholders,
      pushNode_placeholders]
    rw [visitExprList_ph args s]
  | .call i .reverting args, s => by
    simp only [visitExpr, appendExpr, diverge_placeholders, addEdge_placeholders,
      updCur_placeholders]
    rw [visitExprList_ph args s]

theorem visitExprList_ph : ∀ (l : List Expr) (s : CFGState),
    (visitExprList s l).placeholders = s.placeholders
  | [], s => rfl
  | e :: es, s => by
    show (visitExprList (visitExpr s e) es).placeholders = s.placeholders
    rw [visitExprList_ph es _, visitExpr_ph e s]

end

mutual

theorem visitExpr_retStmt : ∀ (e : Expr) (s : CFGState) (i : Nat),
    (nodeAt (visitExpr s e) i).block.returnStatement =
      (nodeAt s i).block.returnStatement
  | .atom j, s, i => by
    simp only [visitExpr]
    rw [retStmt_appendExpr]
  | .binop j .other l r, s, i => by
    simp only [visitExpr]
    rw [retStmt_appendExpr, visitExpr_retStmt r _ i, visitExpr_retStmt l s i]
  | .binop j .logicalAnd l r, s, i => by
    simp only [visitExpr]
    rw [retStmt_appendExpr, nodeAt_withCurUnreach]
    split
    · rw [visitExpr_retStmt r _ i, nodeAt_withCurUnreach, retStmt_addEdge,
        retStmt_addEdge, retStmt_pushNode, retStmt_pushNode, visitExpr_retStmt l s i]
    · rw [retStmt_addEdge, visitExpr_retStmt r _ i, nodeAt_withCurUnreach,
        retStmt_addEdge, retStmt_addEdge, retStmt_pushNode, retStmt_pushNode,
        visitExpr_retStmt l s i]
  | .binop j .logicalOr l r, s, i => by
    simp only [visitExpr]
    rw [retStmt_appendExpr, nodeAt_withCurUnreach]
    split
    · rw [visitExpr_retStmt r _ i, nodeAt_withCurUnreach, retStmt_addEdge,
        retStmt_addEdge, retStmt_pushNode, retStmt_pushNode, visitExpr_retStmt l s i]
    · rw [retStmt_addEdge, visitExpr_retStmt r _ i, nodeAt_withCurUnreach,
        retStmt_addEdge, retStmt_addEdge, retStmt_pushNode, retStmt_pushNode,
        visitExpr_retStmt l s i]
  | .call j .normal args, s, i => by
    simp only [visitExpr]
    rw [retStmt_appendExpr, visitExprList_retStmt args s i]
  | .call j .canFail args, s, i => by
    simp only [visitExpr]
    rw [nodeAt_withCur, retStmt_addEdge, retStmt_addEdge, retStmt_pushNode,
      retStmt_appendExpr, visitExprList_retStmt args s i]
  | .call j .reverting args, s, i => by
    simp only [visitExpr]
    rw [retStmt_diverge, retStmt_addEdge, retStmt_appendExpr,
      visitExprList_retStmt args s i]

theorem visitExprList_retStmt : ∀ (l : List Expr) (s : CFGState) (i : Nat),
    (nodeAt (visitExprList s l) i).block.returnStatement =
      (nodeAt s i).block.returnStatement
  | [], s, i => rfl
  | e :: es, s, i => by
    show (nodeAt (visitExprList (visitExpr s e) es) i).block.returnStatement = _
    rw [visitExprList_retStmt es _ i, visitExpr_retStmt e s i]

end

theorem visitStmt_placeholder_eq (s : CFGState) :
    (visitStmt s .placeholder).placeholders
        = s.placeholders ++ [(s.currentNode, s.nodes.length)] ∧
      (visitStmt s .placeholder).currentNode = s.nodes.length ∧
      (visitStmt s .placeholder).nodes = s.nodes ++ [({} : CFGNode)] :=
  ⟨rfl, rfl, rfl⟩

theorem visitStmt_ph_len : ∀ (st : Stmt) (s : CFGState),
    (visitStmt s st).placeholders.length =
      s.placeholders.length + countPlaceholders st := by
  intro st
  induction st with
  | skip =>
    intro s
    simp [visitStmt, countPlaceholders]
  | seq a b iha ihb =>
    intro s
    show (visitStmt (visitStmt s a) b).placeholders.length = _
    rw [ihb, iha]
    simp only [countPlaceholders]
    omega
  | exprStmt e =>
    intro s
    show (visitExpr s e).placeholders.length = _
    rw [visitExpr_ph]
    simp [countPlaceholders]
  | varDecl j iv =>
    intro s
    cases iv with
    | none => simp [visitStmt, appendVarDecl, countPlaceholders]
    | some e =>
      simp only [visitStmt, appendVarDecl, updCur_placeholders]
      rw [visitExpr_ph]
      simp [countPlaceholders]
  | inlineAsm j =>
    intro s
    simp [visitStmt, appendAsm, countPlaceholders]
  | ret j v =>
    intro s
    cases v with
    | none =>
      simp only [visitStmt, setReturn, diverge_placeholders, addEdge_placeholders,
        updCur_placeholders]
      simp [countPlaceholders]
    | some e =>
      simp only [visitStmt, setReturn, diverge_placeholders, addEdge_placeholders,
        updCur_placeholders]
      rw [visitExpr_ph]
      simp [countPlaceholders]
  | breakStmt =>
    intro s
    cases h : s.breakJumps with
    | nil => simp [visitStmt, h, report, countPlaceholders]
    | cons t ts => simp [visitStmt, h, countPlaceholders]
  | continueStmt =>
    intro s
    cases h : s.continueJumps with
    | nil => simp [visitStmt, h, report, countPlaceholders]
    | cons t ts => simp [visitStmt, h, countPlaceholders]
  | throwStmt =>
    intro s
    simp [visitStmt, countPlaceholders]
  | ifStmt c t iht =>
    intro s
    simp only [visitStmt]
    rw [apply_ite CFGState.placeholders]
    simp only [addEdge_placeholders, ite_self]
    rw [iht]
    simp only [addEdge_placeholders, pushNode_placeholders]
    rw [visitExpr_ph]
    simp [countPlaceholders]
  | ifElseStmt c t f iht ihf =>
    intro s
    simp only [visitStmt]
    rw [apply_ite CFGState.placeholders]
    simp only [addEdge_placeholders, ite_self]
    rw [ihf]
    rw [apply_ite CFGState.placeholders]
    simp only [addEdge_placeholders, ite_self]
    rw [iht]
    simp only [addEdge_placeholders, pushNode_placeholders]
    rw [visitExpr_ph]
    simp only [countPlaceholders]
    omega
  | whileStmt c b ihb =>
    intro s
    simp only [visitStmt]
    rw [apply_ite CFGState.placeholders]
    simp only [addEdge_placeholders, ite_self]
    rw [ihb]
    simp only [addEdge_placeholders, pushNode_placeholders]
    rw [visitExpr_ph]
    simp [countPlaceholders]
  | placeholder =>
    intro s
    simp [visitStmt, countPlaceholders]

theorem visitStmt_retStmt : ∀ (st : Stmt) (s : CFGState) (i : Nat),
    containsRet st = false →
    (nodeAt (visitStmt s st) i).block.returnStatement =
      (nodeAt s i).block.returnStatement := by
  intro st
  induction st with
  | skip =>
    intro s i _
    rfl
  | seq a b iha ihb =>
    intro s i h
    simp only [containsRet, Bool.or_eq_false_iff] at h
    show (nodeAt (visitStmt (visitStmt s a) b) i).block.returnStatement = _
    rw [ihb _ i h.2, iha s i h.1]
  | exprStmt e =>
    intro s i _
    exact visitExpr_retStmt e s i
  | varDecl j iv =>
    intro s i _
    cases iv with
    | none =>
      show (nodeAt (appendVarDecl s j) i).block.returnStatement = _
      rw [retStmt_appendVarDecl]
    | some e =>
      show (nodeAt (appendVarDecl (visitExpr s e) j) i).block.returnStatement = _
      rw [retStmt_appendVarDecl, visitExpr_retStmt e s i]
  | inlineAsm j =>
    intro s i _
    exact retStmt_appendAsm s j i
  | ret j v =>
    intro s i h
    simp [containsRet] at h
  | breakStmt =>
    intro s i _
    cases h : s.breakJumps with
    | nil => simp [visitStmt, h]
    | cons t ts =>
      simp only [visitStmt, h]
      rw [retStmt_diverge, retStmt_addEdge]
  | continueStmt =>
    intro s i _
    cases h : s.continueJumps with
    | nil => simp [visitStmt, h]
    | cons t ts =>
      simp only [visitStmt, h]
      rw [retStmt_diverge, retStmt_addEdge]
  | throwStmt =>
    intro s i _
    simp only [visitStmt]
    rw [retStmt_diverge, retStmt_addEdge]
  | ifStmt c t iht =>
    intro s i h
    simp only [containsRet] at h
    simp only [visitStmt]
    rw [nodeAt_withCurUnreach]
    split
    · rw [iht _ i h, nodeAt_withCurUnreach, retStmt_addEdge, retStmt_addEdge,
        retStmt_pushNode, retStmt_pushNode, visitExpr_retStmt c s i]
    · rw [retStmt_addEdge, iht _ i h, nodeAt_withCurUnreach, retStmt_addEdge,
        retStmt_addEdge, retStmt_pushNode, retStmt_pushNode, visitExpr_retStmt c s i]
  | ifElseStmt c t f iht ihf =>
    intro s i h
    simp only [containsRet, Bool.or_eq_false_iff] at h
    simp only [visitStmt]
    rw [nodeAt_withCurUnreach]
    split <;> split
    · rw [ihf _ i h.2, nodeAt_withCurUnreach, iht _ i h.1, nodeAt_withCurUnreach,
        retStmt_addEdge, retStmt_addEdge, retStmt_pushNode, retStmt_pushNode,
        retStmt_pushNode, visitExpr_retStmt c s i]
    · rw [retStmt_addEdge, ihf _ i h.2, nodeAt_withCurUnreach, iht _ i h.1,
        nodeAt_withCurUnreach, retStmt_addEdge, retStmt_addEdge, retStmt_pushNode,
        retStmt_pushNode, retStmt_pushNode, visitExpr_retStmt c s i]
    · rw [ihf _ i h.2, nodeAt_withCurUnreach, retStmt_addEdge, iht _ i h.1,
        nodeAt_withCurUnreach, retStmt_addEdge, retStmt_addEdge, retStmt_pushNode,
        retStmt_pushNode, retStmt_pushNode, visitExpr_retStmt c s i]
    · rw [retStmt_addEdge, ihf _ i h.2, nodeAt_withCurUnreach, retStmt_addEdge,
        iht _ i h.1, nodeAt_withCurUnreach, retStmt_addEdge, retStmt_addEdge,
        retStmt_pushNode, retStmt_pushNode, retStmt_pushNode, visitExpr_retStmt c s i]
  | whileStmt c b ihb =>
    intro s i h
    simp only [containsRet] at h
    simp only [visitStmt]
    rw [nodeAt_withJumps]
    split
    · rw [ihb _ i h, nodeAt_withJumps, retStmt_addEdge, retStmt_addEdge,
        retStmt_pushNode, retStmt_pushNode, visitExpr_retStmt c _ i,
        nodeAt_withCur, retStmt_addEdge, retStmt_pushNode]
    · rw [retStmt_addEdge, ihb _ i h, nodeAt_withJumps, retStmt_addEdge,
        retStmt_addEdge, retStmt_pushNode, retStmt_pushNode, visitExpr_retStmt c _ i,
        nodeAt_withCur, retStmt_addEdge, retStmt_pushNode]
  | placeholder =>
    intro s i _
    show (nodeAt { pushNode s with placeholders := _, currentNode := _ } i).block.returnStatement = _
    rw [nodeAt_withPh, retStmt_pushNode]

theorem divergeEdgeCore (s1 : CFGState) (h1 : Inv s1) (t : Nat)
    (ht : t = s1.returnJump ∨ t = s1.exceptionJump ∨
          t ∈ s1.breakJumps ∨ t ∈ s1.continueJumps) :
    Inv (diverge (addEdge s1 s1.currentNode t)) ∧
      Steps s1 (diverge (addEdge s1 s1.currentNode t)) := by
  have htl : t < s1.nodes.length := by
    rcases ht with h | h | h | h
    · rw [h]
      exact h1.rj_lt
    · rw [h]
      exact h1.ej_lt
    · exact h1.bj_lt t h
    · exact h1.cj_lt t h
  have htp : ∀ p ∈ s1.placeholders, t ≠ p.1 ∧ t ≠ p.2 := by
    intro p hp
    obtain ⟨_, _, _, c4, c5, c6, c7, c8, c9, c10, c11, _, _, _⟩ := h1.cuts p hp
    rcases ht with h | h | h | h
    · exact ⟨fun hx => c4 (hx.symm.trans h), fun hx => c6 (hx.symm.trans h)⟩
    · exact ⟨fun hx => c5 (hx.symm.trans h), fun hx => c7 (hx.symm.trans h)⟩
    · exact ⟨fun hx => c8 (hx ▸ h), fun hx => c10 (hx ▸ h)⟩
    · exact ⟨fun hx => c9 (hx ▸ h), fun hx => c11 (hx ▸ h)⟩
  have hfp : ∀ p ∈ s1.placeholders, s1.currentNode ≠ p.1 :=
    fun p hp => fun hx => (h1.cuts p hp).b_ne_cur hx.symm
  have hInv : Inv (diverge (addEdge s1 s1.currentNode t)) :=
    (h1.addEdge h1.cur_lt htl hfp htp).diverge
  refine ⟨hInv, ?_, by simp, by simp, by simp, by simp, ?_, ?_, ?_, ?_, ?_⟩
  · simp [length_diverge, length_addEdge]
  · refine Or.inr ?_
    simp [length_addEdge]
  · intro i hi hr he hb hc
    rw [nodeAt_diverge, length_addEdge, if_neg (by omega),
      entries_addEdge_of_ne s1 _ t i ?_]
    rcases ht with h | h | h | h
    · rw [h]
      exact hr
    · rw [h]
      exact he
    · exact fun hx => hb (hx ▸ h)
    · exact fun hx => hc (hx ▸ h)
  · intro i hi hcur
    rw [nodeAt_diverge, length_addEdge, if_neg (by omega),
      exits_addEdge_of_ne s1 _ t i hcur]
  · intro i hi hcur
    rw [nodeAt_diverge, length_addEdge, if_neg (by omega), block_addEdge]
  · intro p hp
    simp only [diverge_placeholders, addEdge_placeholders] at hp
    exact Or.inl hp

theorem retCore (s1 : CFGState) (h1 : Inv s1) (j : Nat) :
    Inv (diverge (setReturn (addEdge s1 s1.currentNode s1.returnJump) j)) ∧
      Steps s1 (diverge (setReturn (addEdge s1 s1.currentNode s1.returnJump) j)) := by
  have htp : ∀ p ∈ s1.placeholders, s1.returnJump ≠ p.1 ∧ s1.returnJump ≠ p.2 := by
    intro p hp
    obtain ⟨_, _, _, c4, _, c6, _, _, _, _, _, _, _, _⟩ := h1.cuts p hp
    exact ⟨fun hx => c4 hx.symm, fun hx => c6 hx.symm⟩
  have hfp : ∀ p ∈ s1.placeholders, s1.currentNode ≠ p.1 :=
    fun p hp => fun hx => (h1.cuts p hp).b_ne_cur hx.symm
  have hadd : Inv (addEdge s1 s1.currentNode s1.returnJump) :=
    h1.addEdge h1.cur_lt h1.rj_lt hfp htp
  have hInv : Inv (diverge (setReturn (addEdge s1 s1.currentNode s1.returnJump) j)) :=
    (hadd.updCur _).diverge
  refine ⟨hInv, ?_, by simp [setReturn], by simp [setReturn], by simp [setReturn],
    by simp [setReturn], ?_, ?_, ?_, ?_, ?_⟩
  · simp [setReturn, length_diverge, length_updCur, length_addEdge]
  · refine Or.inr ?_
    simp [setReturn, length_updCur, length_addEdge]
  · intro i hi hr he hb hc
    show (nodeAt (ControlFlow.diverge (updCur _ _)) i).entries = _
    rw [nodeAt_diverge, length_updCur, length_addEdge, if_neg (by omega),
      entries_updCur, entries_addEdge_of_ne s1 _ _ i hr]
  · intro i hi hcur
    show (nodeAt (ControlFlow.diverge (updCur _ _)) i).exits = _
    rw [nodeAt_diverge, length_updCur, length_addEdge, if_neg (by omega),
      exits_updCur, exits_addEdge_of_ne s1 _ _ i hcur]
  · intro i hi hcur
    show (nodeAt (ControlFlow.diverge (updCur _ _)) i).block = _
    rw [nodeAt_diverge, length_updCur, length_addEdge, if_neg (by omega),
      block_updCur_of_ne _ _ (by simpa using hcur), block_addEdge]
  · intro p hp
    simp only [setReturn, diverge_placeholders, updCur_placeholders,
      addEdge_placeholders] at hp
    exact Or.inl hp

theorem canFailCore (s1 : CFGState) (h1 : Inv s1) :
    Inv ({ addEdge (addEdge (pushNode s1) s1.currentNode s1.nodes.length)
             s1.currentNode
             (addEdge (pushNode s1) s1.currentNode s1.nodes.length).exceptionJump
           with currentNode := s1.nodes.length }) ∧
      Steps s1 ({ addEdge (addEdge (pushNode s1) s1.currentNode s1.nodes.length)
             s1.currentNode
             (addEdge (pushNode s1) s1.currentNode s1.nodes.length).exceptionJump
           with currentNode := s1.nodes.length }) := by
  have hp1 : Inv (pushNode s1) := h1.pushNode
  have h2 : Inv (addEdge (pushNode s1) s1.currentNode s1.nodes.length) := by
    refine hp1.addEdge ?_ ?_ ?_ ?_
    · rw [length_pushNode]
      have := h1.cur_lt
      omega
    · rw [length_pushNode]
      omega
    · intro p hp
      simp only [pushNode_placeholders] at hp
      exact fun hx => (h1.cuts p hp).b_ne_cur hx.symm
    · intro p hp
      simp only [pushNode_placeholders] at hp
      have hb := (h1.cuts p hp).b_lt
      have ha := (h1.cuts p hp).a_lt
      omega
  have h3 : Inv (addEdge (addEdge (pushNode s1) s1.currentNode s1.nodes.length)
      s1.currentNode
      (addEdge (pushNode s1) s1.currentNode s1.nodes.length).exceptionJump) := by
    refine h2.addEdge ?_ ?_ ?_ ?_
    · exact h2.cur_lt
    · exact h2.ej_lt
    · intro p hp
      exact fun hx => (h2.cuts p hp).b_ne_cur hx.symm
    · intro p hp
      exact ⟨fun hx => (h2.cuts p hp).b_ne_ej hx.symm,
             fun hx => (h2.cuts p hp).a_ne_ej hx.symm⟩
  have hInv : Inv ({ addEdge (addEdge (pushNode s1) s1.currentNode s1.nodes.length)
      s1.currentNode
      (addEdge (pushNode s1) s1.currentNode s1.nodes.length).exceptionJump
      with currentNode := s1.nodes.length }) := by
    refine h3.retarget _ _ ?_ ?_ ?_ ?_ ?_ ?_
    · simp only [length_addEdge, length_pushNode]
      omega
    · simp only [addEdge_returnJump, pushNode_returnJump]
      have := h1.rj_lt
      omega
    · simp only [addEdge_exceptionJump, pushNode_exceptionJump]
      have := h1.ej_lt
      omega
    · simp only [addEdge_breakJumps, pushNode_breakJumps]
      intro hmem
      have := h1.bj_lt _ hmem
      omega
    · simp only [addEdge_continueJumps, pushNode_continueJumps]
      intro hmem
      have := h1.cj_lt _ hmem
      omega
    · simp only [addEdge_placeholders, pushNode_placeholders]
      intro p hp
      have := (h1.cuts p hp).b_lt
      omega
  refine ⟨hInv, ?_, by simp, by simp, by simp, by simp, Or.inr (by simp), ?_, ?_, ?_, ?_⟩
  · simp [length_addEdge, length_pushNode]
  · intro i hi hr he hb hc
    show (nodeAt (addEdge (addEdge (pushNode s1) _ _) _ _) i).entries = _
    rw [entries_addEdge_of_ne _ _ _ i (by simpa using he),
      entries_addEdge_of_ne _ _ _ i (by omega),
      nodeAt_pushNode, if_neg (by omega)]
  · intro i hi hcur
    show (nodeAt (addEdge (addEdge (pushNode s1) _ _) _ _) i).exits = _
    rw [exits_addEdge_of_ne _ _ _ i (by simpa using hcur),
      exits_addEdge_of_ne _ _ _ i (by simpa using hcur),
      nodeAt_pushNode, if_neg (by omega)]
  · intro i hi hcur
    show (nodeAt (addEdge (addEdge (pushNode s1) _ _) _ _) i).block = _
    rw [block_addEdge, block_addEdge, nodeAt_pushNode, if_neg (by omega)]
  · intro p hp
    simp only [addEdge_placeholders, pushNode_placeholders] at hp
    exact Or.inl hp

theorem mergeCore (s5 : CFGState) (h5 : Inv s5) (mn : Nat) (u : Bool)
    (hmn : mn < s5.nodes.length)
    (hr : mn ≠ s5.returnJump) (he : mn ≠ s5.exceptionJump)
    (hb : mn ∉ s5.breakJumps) (hc : mn ∉ s5.continueJumps)
    (hph : ∀ p ∈ s5.placeholders, p.1 ≠ mn ∧ p.2 ≠ mn) :
    Inv ({ (if s5.unreachable = true then s5 else addEdge s5 s5.currentNode mn) with
           currentNode := mn, unreachable := u }) := by
  split
  · exact h5.retarget mn u hmn hr he hb hc (fun p hp => (hph p hp).1)
  · have hadd : Inv (addEdge s5 s5.currentNode mn) := by
      refine h5.addEdge h5.cur_lt hmn ?_ ?_
      · intro p hp
        exact fun hx => (h5.cuts p hp).b_ne_cur hx.symm
      · intro p hp
        exact ⟨fun hx => (hph p hp).1 hx.symm, fun hx => (hph p hp).2 hx.symm⟩
    refine hadd.retarget mn u ?_ ?_ ?_ ?_ ?_ ?_
    · rwa [length_addEdge]
    · simpa using hr
    · simpa using he
    · simpa using hb
    · simpa using hc
    · simp only [addEdge_placeholders]
      intro p hp
      exact (hph p hp).1

theorem scPrefixInv (s1 : CFGState) (h1 : Inv s1) :
    Inv ({ addEdge (addEdge (pushNode (pushNode s1)) s1.currentNode s1.nodes.length)
           s1.currentNode (pushNode s1).nodes.length
           with currentNode := s1.nodes.length, unreachable := false }) := by
  have p2 : Inv (pushNode (pushNode s1)) := (h1.pushNode).pushNode
  have a1 : Inv (addEdge (pushNode (pushNode s1)) s1.currentNode s1.nodes.length) := by
    refine p2.addEdge ?_ ?_ ?_ ?_
    · simp only [length_pushNode]
      have := h1.cur_lt
      omega
    · simp only [length_pushNode]
      omega
    · simp only [pushNode_placeholders]
      intro p hp
      exact fun hx => (h1.cuts p hp).b_ne_cur hx.symm
    · simp only [pushNode_placeholders]
      intro p hp
      have := (h1.cuts p hp).b_lt
      have := (h1.cuts p hp).a_lt
      omega
  have a2 : Inv (addEdge (addEdge (pushNode (pushNode s1)) s1.currentNode
      s1.nodes.length) s1.currentNode (pushNode s1).nodes.length) := by
    refine a1.addEdge ?_ ?_ ?_ ?_
    · simp only [length_addEdge, length_pushNode]
      have := h1.cur_lt
      omega
    · simp only [length_addEdge, length_pushNode]
      omega
    · simp only [addEdge_placeholders, pushNode_placeholders]
      intro p hp
      exact fun hx => (h1.cuts p hp).b_ne_cur hx.symm
    · simp only [addEdge_placeholders, pushNode_placeholders, length_pushNode]
      intro p hp
      have := (h1.cuts p hp).b_lt
      have := (h1.cuts p hp).a_lt
      omega
  refine a2.retarget _ _ ?_ ?_ ?_ ?_ ?_ ?_
  · simp only [length_addEdge, length_pushNode]
    omega
  · simp only [addEdge_returnJump, pushNode_returnJump]
    have := h1.rj_lt
    omega
  · simp only [addEdge_exceptionJump, pushNode_exceptionJump]
    have := h1.ej_lt
    omega
  · simp only [addEdge_breakJumps, pushNode_breakJumps]
    intro hmem
    have := h1.bj_lt _ hmem
    omega
  · simp only [addEdge_continueJumps, pushNode_continueJumps]
    intro hmem
    have := h1.cj_lt _ hmem
    omega
  · simp only [addEdge_placeholders, pushNode_placeholders]
    intro p hp
    have := (h1.cuts p hp).b_lt
    omega

theorem scCore (s s1 s5 : CFGState) (i : Nat)
    (h1 : Inv s1) (st1 : Steps s s1) (h5 : Inv s5)
    (st5 : Steps ({ addEdge (addEdge (pushNode (pushNode s1)) s1.currentNode
        s1.nodes.length) s1.currentNode (pushNode s1).nodes.length
        with currentNode := s1.nodes.length, unreachable := false }) s5) :
    Inv (appendExpr { (if s5.unreachable = true then s5
          else addEdge s5 s5.currentNode (pushNode s1).nodes.length)
        with currentNode := (pushNode s1).nodes.length,
             unreachable := s1.unreachable } i) ∧
      Steps s (appendExpr { (if s5.unreachable = true then s5
          else addEdge s5 s5.currentNode (pushNode s1).nodes.length)
        with currentNode := (pushNode s1).nodes.length,
             unreachable := s1.unreachable } i) := by
  have hlen4 : ({ addEdge (addEdge (pushNode (pushNode s1)) s1.currentNode
      s1.nodes.length) s1.currentNode (pushNode s1).nodes.length
      with currentNode := s1.nodes.length, unreachable := false } :
      CFGState).nodes.length = s1.nodes.length + 2 := by
    simp [length_addEdge, length_pushNode]
  have hlen5 : s1.nodes.length + 2 ≤ s5.nodes.length := by
    have := st5.len_le
    rwa [hlen4] at this
  have hrj5 : s5.returnJump = s1.returnJump := by
    have := st5.rj_eq
    simpa using this
  have hej5 : s5.exceptionJump = s1.exceptionJump := by
    have := st5.ej_eq
    simpa using this
  have hbj5 : s5.breakJumps = s1.breakJumps := by
    have := st5.bj_eq
    simpa using this
  have hcj5 : s5.continueJumps = s1.continueJumps := by
    have := st5.cj_eq
    simpa using this
  have hph5 : ∀ p ∈ s5.placeholders, p.1 ≠ (pushNode s1).nodes.length ∧
      p.2 ≠ (pushNode s1).nodes.length := by
    intro p hp
    rw [length_pushNode]
    rcases st5.cuts_mono p hp with hin | ⟨hl, hr2⟩
    · simp only [pushNode_placeholders] at hin
      have hb := (h1.cuts p hin).b_lt
      have ha := (h1.cuts p hin).a_lt
      exact ⟨by omega, by omega⟩
    · rw [hlen4] at hr2
      have hl2 : p.1 = s1.nodes.length ∨ s1.nodes.length + 2 ≤ p.1 := by
        rcases hl with he | he
        · exact Or.inl (by simpa using he)
        · exact Or.inr (by rwa [hlen4] at he)
      exact ⟨by omega, by omega⟩
  have hlen6 : (if s5.unreachable = true then s5
      else addEdge s5 s5.currentNode (pushNode s1).nodes.length).nodes.length
      = s5.nodes.length := by
    split
    · rfl
    · rw [length_addEdge]
  have hInv6 : Inv ({ (if s5.unreachable = true then s5
      else addEdge s5 s5.currentNode (pushNode s1).nodes.length)
      with currentNode := (pushNode s1).nodes.length,
           unreachable := s1.unreachable }) := by
    refine mergeCore s5 h5 _ _ ?_ ?_ ?_ ?_ ?_ hph5
    · rw [length_pushNode]
      omega
    · rw [hrj5, length_pushNode]
      have := h1.rj_lt
      omega
    · rw [hej5, length_pushNode]
      have := h1.ej_lt
      omega
    · rw [hbj5, length_pushNode]
      intro hmem
      have := h1.bj_lt _ hmem
      omega
    · rw [hcj5, length_pushNode]
      intro hmem
      have := h1.cj_lt _ hmem
      omega
  have hs1c : s1.nodes.length ≤ (pushNode s1).nodes.length := by
    rw [length_pushNode]
    omega
  refine ⟨hInv6.updCur _, ?_, ?_, ?_, ?_, ?_, ?_, ?_, ?_, ?_, ?_⟩
  · show s.nodes.length ≤ (updCur _ _).nodes.length
    rw [length_updCur]
    show s.nodes.length ≤ (if s5.unreachable = true then s5
      else addEdge s5 s5.currentNode (pushNode s1).nodes.length).nodes.length
    rw [hlen6]
    have := st1.len_le
    omega
  · show (updCur _ _).returnJump = _
    rw [updCur_returnJump]
    show (if s5.unreachable = true then s5
      else addEdge s5 s5.currentNode (pushNode s1).nodes.length).returnJump = _
    rw [apply_ite CFGState.returnJump]
    simp only [addEdge_returnJump, ite_self]
    rw [hrj5]
    exact st1.rj_eq
  · show (updCur _ _).exceptionJump = _
    rw [updCur_exceptionJump]
    show (if s5.unreachable = true then s5
      else addEdge s5 s5.currentNode (pushNode s1).nodes.length).exceptionJump = _
    rw [apply_ite CFGState.exceptionJump]
    simp only [addEdge_exceptionJump, ite_self]
    rw [hej5]
    exact st1.ej_eq
  · show (updCur _ _).breakJumps = _
    rw [updCur_breakJumps]
    show (if s5.unreachable = true then s5
      else addEdge s5 s5.currentNode (pushNode s1).nodes.length).breakJumps = _
    rw [apply_ite CFGState.breakJumps]
    simp only [addEdge_breakJumps, ite_self]
    rw [hbj5]
    exact st1.bj_eq
  · show (updCur _ _).continueJumps = _
    rw [updCur_continueJumps]
    show (if s5.unreachable = true then s5
      else addEdge s5 s5.currentNode (pushNode s1).nodes.length).continueJumps = _
    rw [apply_ite CFGState.continueJumps]
    simp only [addEdge_continueJumps, ite_self]
    rw [hcj5]
    exact st1.cj_eq
  · refine Or.inr ?_
    show s.nodes.length ≤ (updCur _ _).currentNode
    rw [updCur_currentNode]
    show s.nodes.length ≤ (pushNode s1).nodes.length
    have := st1.len_le
    omega
  · intro j hj hjr hje hjb hjc
    have hj1 : j < s1.nodes.length := lt_of_lt_of_le hj st1.len_le
    have hrs1 : j ≠ s1.returnJump := fun hx => hjr (hx.trans st1.rj_eq)
    have hes1 : j ≠ s1.exceptionJump := fun hx => hje (hx.trans st1.ej_eq)
    have hbs1 : j ∉ s1.breakJumps := by
      rw [st1.bj_eq]
      exact hjb
    have hcs1 : j ∉ s1.continueJumps := by
      rw [st1.cj_eq]
      exact hjc
    show (nodeAt (updCur _ _) j).entries = _
    rw [entries_updCur, nodeAt_withCurUnreach]
    have h6j : (nodeAt (if s5.unreachable = true then s5
        else addEdge s5 s5.currentNode (pushNode s1).nodes.length) j).entries
        = (nodeAt s5 j).entries := by
      split
      · rfl
      · exact entries_addEdge_of_ne _ _ _ j (by rw [length_pushNode]; omega)
    rw [h6j]
    rw [st5.entries_stable j (by rw [hlen4]; omega)
      (by simpa using hrs1) (by simpa using hes1)
      (by simpa using hbs1) (by simpa using hcs1)]
    rw [nodeAt_withCurUnreach,
      entries_addEdge_of_ne _ _ _ j (by rw [length_pushNode]; omega),
      entries_addEdge_of_ne _ _ _ j (by omega),
      nodeAt_pushNode, length_pushNode, if_neg (by omega),
      nodeAt_pushNode, if_neg (by omega)]
    exact st1.entries_stable j hj hjr hje hjb hjc
  · intro j hj hcur
    have hj1 : j < s1.nodes.length := lt_of_lt_of_le hj st1.len_le
    have hcur1 : j ≠ s1.currentNode := by
      rcases st1.cur_evo with hc1 | hc1
      · rw [hc1]
        exact hcur
      · omega
    have hcur5 : j ≠ s5.currentNode := by
      rcases st5.cur_evo with hc5 | hc5
      · rw [hc5]
        show j ≠ s1.nodes.length
        omega
      · rw [hlen4] at hc5
        omega
    show (nodeAt (updCur _ _) j).exits = _
    rw [exits_updCur, nodeAt_withCurUnreach]
    have h6j : (nodeAt (if s5.unreachable = true then s5
        else addEdge s5 s5.currentNode (pushNode s1).nodes.length) j).exits
        = (nodeAt s5 j).exits := by
      split
      · rfl
      · exact exits_addEdge_of_ne _ _ _ j hcur5
    rw [h6j]
    rw [st5.exits_stable j (by rw [hlen4]; omega) (by show j ≠ s1.nodes.length; omega)]
    rw [nodeAt_withCurUnreach,
      exits_addEdge_of_ne _ _ _ j hcur1,
      exits_addEdge_of_ne _ _ _ j hcur1,
      nodeAt_pushNode, length_pushNode, if_neg (by omega),
      nodeAt_pushNode, if_neg (by omega)]
    exact st1.exits_stable j hj hcur
  · intro j hj hcur
    have hj1 : j < s1.nodes.length := lt_of_lt_of_le hj st1.len_le
    have hcur1 : j ≠ s1.currentNode := by
      rcases st1.cur_evo with hc1 | hc1
      · rw [hc1]
        exact hcur
      · omega
    show (nodeAt (updCur _ _) j).block = _
    rw [block_updCur_of_ne _ _ (show j ≠ (pushNode s1).nodes.length by
      rw [length_pushNode]; omega)]
    rw [nodeAt_withCurUnreach]
    have h6j : (nodeAt (if s5.unreachable = true then s5
        else addEdge s5 s5.currentNode (pushNode s1).nodes.length) j).block
        = (nodeAt s5 j).block := by
      split
      · rfl
      · exact block_addEdge _ _ _ j
    rw [h6j]
    rw [st5.block_stable j (by rw [hlen4]; omega) (by show j ≠ s1.nodes.length; omega)]
    rw [nodeAt_withCurUnreach, block_addEdge, block_addEdge,
      nodeAt_pushNode, length_pushNode, if_neg (by omega),
      nodeAt_pushNode, if_neg (by omega)]
    exact st1.block_stable j hj hcur
  · intro p hp
    have hp5 : p ∈ s5.placeholders := by
      revert hp
      show p ∈ (if s5.unreachable = true then s5
        else addEdge s5 s5.currentNode (pushNode s1).nodes.length).placeholders → _
      rw [apply_ite CFGState.placeholders]
      simp only [addEdge_placeholders, ite_self]
      exact id
    rcases st5.cuts_mono p hp5 with hin | ⟨hl, hr2⟩
    · simp only [pushNode_placeholders] at hin
      rcases st1.cuts_mono p hin with hin2 | ⟨hl2, hr3⟩
      · exact Or.inl hin2
      · exact Or.inr ⟨hl2, hr3⟩
    · refine Or.inr ⟨?_, ?_⟩
      · rcases hl with he | he
        · have : p.1 = s1.nodes.length := by simpa using he
          refine Or.inr ?_
          have := st1.len_le
          omega
        · rw [hlen4] at he
          have := st1.len_le
          exact Or.inr (by omega)
      · rw [hlen4] at hr2
        have := st1.len_le
        omega

theorem ifElsePrefixInv (s1 : CFGState) (h1 : Inv s1) :
    Inv ({ addEdge (addEdge (pushNode (pushNode (pushNode s1))) s1.currentNode
           s1.nodes.length) s1.currentNode (pushNode s1).nodes.length
           with currentNode := s1.nodes.length, unreachable := false }) := by
  have p3 : Inv (pushNode (pushNode (pushNode s1))) :=
    ((h1.pushNode).pushNode).pushNode
  have a1 : Inv (addEdge (pushNode (pushNode (pushNode s1))) s1.currentNode
      s1.nodes.length) := by
    refine p3.addEdge ?_ ?_ ?_ ?_
    · simp only [length_pushNode]
      have := h1.cur_lt
      omega
    · simp only [length_pushNode]
      omega
    · simp only [pushNode_placeholders]
      intro p hp
      exact fun hx => (h1.cuts p hp).b_ne_cur hx.symm
    · simp only [pushNode_placeholders]
      intro p hp
      have := (h1.cuts p hp).b_lt
      have := (h1.cuts p hp).a_lt
      omega
  have a2 : Inv (addEdge (addEdge (pushNode (pushNode (pushNode s1)))
      s1.currentNode s1.nodes.length) s1.currentNode (pushNode s1).nodes.length) := by
    refine a1.addEdge ?_ ?_ ?_ ?_
    · simp only [length_addEdge, length_pushNode]
      have := h1.cur_lt
      omega
    · simp only [length_addEdge, length_pushNode]
      omega
    · simp only [addEdge_placeholders, pushNode_placeholders]
      intro p hp
      exact fun hx => (h1.cuts p hp).b_ne_cur hx.symm
    · simp only [addEdge_placeholders, pushNode_placeholders, length_pushNode]
      intro p hp
      have := (h1.cuts p hp).b_lt
      have := (h1.cuts p hp).a_lt
      omega
  refine a2.retarget _ _ ?_ ?_ ?_ ?_ ?_ ?_
  · simp only [length_addEdge, length_pushNode]
    omega
  · simp only [addEdge_returnJump, pushNode_returnJump]
    have := h1.rj_lt
    omega
  · simp only [addEdge_exceptionJump, pushNode_exceptionJump]
    have := h1.ej_lt
    omega
  · simp only [addEdge_breakJumps, pushNode_breakJumps]
    intro hmem
    have := h1.bj_lt _ hmem
    omega
  · simp only [addEdge_continueJumps, pushNode_continueJumps]
    intro hmem
    have := h1.cj_lt _ hmem
    omega
  · simp only [addEdge_placeholders, pushNode_placeholders]
    intro p hp
    have := (h1.cuts p hp).b_lt
    omega

theorem mergeCore2 (s5 : CFGState) (h5 : Inv s5) (mn x : Nat) (u : Bool)
    (hmn : mn < s5.nodes.length) (hx : x < s5.nodes.length)
    (hxr : x ≠ s5.returnJump) (hxe : x ≠ s5.exceptionJump)
    (hxb : x ∉ s5.breakJumps) (hxc : x ∉ s5.continueJumps)
    (hph : ∀ p ∈ s5.placeholders, p.1 ≠ mn ∧ p.2 ≠ mn ∧ p.1 ≠ x) :
    Inv ({ (if s5.unreachable = true then s5
           else addEdge s5 s5.currentNode mn) with
           currentNode := x, unreachable := u }) := by
  split
  · exact h5.retarget x u hx hxr hxe hxb hxc (fun p hp => (hph p hp).2.2)
  · have hadd : Inv (addEdge s5 s5.currentNode mn) := by
      refine h5.addEdge h5.cur_lt hmn ?_ ?_
      · intro p hp
        exact fun hy => (h5.cuts p hp).b_ne_cur hy.symm
      · intro p hp
        exact ⟨fun hy => (hph p hp).1 hy.symm, fun hy => (hph p hp).2.1 hy.symm⟩
    refine hadd.retarget x u ?_ ?_ ?_ ?_ ?_ ?_
    · rwa [length_addEdge]
    · simpa using hxr
    · simpa using hxe
    · simpa using hxb
    · simpa using hxc
    · simp only [addEdge_placeholders]
      intro p hp
      exact (hph p hp).2.2

theorem ifCore (s s1 s5 : CFGState)
    (h1 : Inv s1) (st1 : Steps s s1) (h5 : Inv s5)
    (st5 : Steps ({ addEdge (addEdge (pushNode (pushNode s1)) s1.currentNode
        s1.nodes.length) s1.currentNode (pushNode s1).nodes.length
        with currentNode := s1.nodes.length, unreachable := false }) s5) :
    Inv ({ (if s5.unreachable = true then s5
          else addEdge s5 s5.currentNode (pushNode s1).nodes.length)
        with currentNode := (pushNode s1).nodes.length,
             unreachable := s1.unreachable }) ∧
      Steps s ({ (if s5.unreachable = true then s5
          else addEdge s5 s5.currentNode (pushNode s1).nodes.length)
        with currentNode := (pushNode s1).nodes.length,
             unreachable := s1.unreachable }) := by
  have hlen4 : ({ addEdge (addEdge (pushNode (pushNode s1)) s1.currentNode
      s1.nodes.length) s1.currentNode (pushNode s1).nodes.length
      with currentNode := s1.nodes.length, unreachable := false } :
      CFGState).nodes.length = s1.nodes.length + 2 := by
    simp [length_addEdge, length_pushNode]
  have hlen5 : s1.nodes.length + 2 ≤ s5.nodes.length := by
    have := st5.len_le
    rwa [hlen4] at this
  have hrj5 : s5.returnJump = s1.returnJump := by
    have := st5.rj_eq
    simpa using this
  have hej5 : s5.exceptionJump = s1.exceptionJump := by
    have := st5.ej_eq
    simpa using this
  have hbj5 : s5.breakJumps = s1.breakJumps := by
    have := st5.bj_eq
    simpa using this
  have hcj5 : s5.continueJumps = s1.continueJumps := by
    have := st5.cj_eq
    simpa using this
  have hph5 : ∀ p ∈ s5.placeholders, p.1 ≠ (pushNode s1).nodes.length ∧
      p.2 ≠ (pushNode s1).nodes.length := by
    intro p hp
    rw [length_pushNode]
    rcases st5.cuts_mono p hp with hin | ⟨hl, hr2⟩
    · simp only [pushNode_placeholders] at hin
      have hb := (h1.cuts p hin).b_lt
      have ha := (h1.cuts p hin).a_lt
      exact ⟨by omega, by omega⟩
    · rw [hlen4] at hr2
      have hl2 : p.1 = s1.nodes.length ∨ s1.nodes.length + 2 ≤ p.1 := by
        rcases hl with he | he
        · exact Or.inl (by simpa using he)
        · exact Or.inr (by rwa [hlen4] at he)
      exact ⟨by omega, by omega⟩
  have hlen6 : (if s5.unreachable = true then s5
      else addEdge s5 s5.currentNode (pushNode s1).nodes.length).nodes.length
      = s5.nodes.length := by
    split
    · rfl
    · rw [length_addEdge]
  have hInv6 : Inv ({ (if s5.unreachable = true then s5
      else addEdge s5 s5.currentNode (pushNode s1).nodes.length)
      with currentNode := (pushNode s1).nodes.length,
           unreachable := s1.unreachable }) := by
    refine mergeCore s5 h5 _ _ ?_ ?_ ?_ ?_ ?_ hph5
    · rw [length_pushNode]
      omega
    · rw [hrj5, length_pushNode]
      have := h1.rj_lt
      omega
    · rw [hej5, length_pushNode]
      have := h1.ej_lt
      omega
    · rw [hbj5, length_pushNode]
      intro hmem
      have := h1.bj_lt _ hmem
      omega
    · rw [hcj5, length_pushNode]
      intro hmem
      have := h1.cj_lt _ hmem
      omega
  refine ⟨hInv6, ?_, ?_, ?_, ?_, ?_, ?_, ?_, ?_, ?_, ?_⟩
  · show s.nodes.length ≤ (if s5.unreachable = true then s5
      else addEdge s5 s5.currentNode (pushNode s1).nodes.length).nodes.length
    rw [hlen6]
    have := st1.len_le
    omega
  · show (if s5.unreachable = true then s5
      else addEdge s5 s5.currentNode (pushNode s1).nodes.length).returnJump = _
    rw [apply_ite CFGState.returnJump]
    simp only [addEdge_returnJump, ite_self]
    rw [hrj5]
    exact st1.rj_eq
  · show (if s5.unreachable = true then s5
      else addEdge s5 s5.currentNode (pushNode s1).nodes.length).exceptionJump = _
    rw [apply_ite CFGState.exceptionJump]
    simp only [addEdge_exceptionJump, ite_self]
    rw [hej5]
    exact st1.ej_eq
  · show (if s5.unreachable = true then s5
      else addEdge s5 s5.currentNode (pushNode s1).nodes.length).breakJumps = _
    rw [apply_ite CFGState.breakJumps]
    simp only [addEdge_breakJumps, ite_self]
    rw [hbj5]
    exact st1.bj_eq
  · show (if s5.unreachable = true then s5
      else addEdge s5 s5.currentNode (pushNode s1).nodes.length).continueJumps = _
    rw [apply_ite CFGState.continueJumps]
    simp only [addEdge_continueJumps, ite_self]
    rw [hcj5]
    exact st1.cj_eq
  · refine Or.inr ?_
    show s.nodes.length ≤ (pushNode s1).nodes.length
    have := st1.len_le
    rw [length_pushNode]
    omega
  · intro j hj hjr hje hjb hjc
    have hj1 : j < s1.nodes.length := lt_of_lt_of_le hj st1.len_le
    have hrs1 : j ≠ s1.returnJump := fun hx => hjr (hx.trans st1.rj_eq)
    have hes1 : j ≠ s1.exceptionJump := fun hx => hje (hx.trans st1.ej_eq)
    have hbs1 : j ∉ s1.breakJumps := by
      rw [st1.bj_eq]
      exact hjb
    have hcs1 : j ∉ s1.continueJumps := by
      rw [st1.cj_eq]
      exact hjc
    show (nodeAt (if s5.unreachable = true then s5
      else addEdge s5 s5.currentNode (pushNode s1).nodes.length) j).entries = _
    have h6j : (nodeAt (if s5.unreachable = true then s5
        else addEdge s5 s5.currentNode (pushNode s1).nodes.length) j).entries
        = (nodeAt s5 j).entries := by
      split
      · rfl
      · exact entries_addEdge_of_ne _ _ _ j (by rw [length_pushNode]; omega)
    rw [h6j]
    rw [st5.entries_stable j (by rw [hlen4]; omega)
      (by simpa using hrs1) (by simpa using hes1)
      (by simpa using hbs1) (by simpa using hcs1)]
    rw [nodeAt_withCurUnreach,
      entries_addEdge_of_ne _ _ _ j (by rw [length_pushNode]; omega),
      entries_addEdge_of_ne _ _ _ j (by omega),
      nodeAt_pushNode, length_pushNode, if_neg (by omega),
      nodeAt_pushNode, if_neg (by omega)]
    exact st1.entries_stable j hj hjr hje hjb hjc
  · intro j hj hcur
    have hj1 : j < s1.nodes.length := lt_of_lt_of_le hj st1.len_le
    have hcur1 : j ≠ s1.currentNode := by
      rcases st1.cur_evo with hc1 | hc1
      · rw [hc1]
        exact hcur
      · omega
    have hcur5 : j ≠ s5.currentNode := by
      rcases st5.cur_evo with hc5 | hc5
      · rw [hc5]
        show j ≠ s1.nodes.length
        omega
      · rw [hlen4] at hc5
        omega
    show (nodeAt (if s5.unreachable = true then s5
      else addEdge s5 s5.currentNode (pushNode s1).nodes.length) j).exits = _
    have h6j : (nodeAt (if s5.unreachable = true then s5
        else addEdge s5 s5.currentNode (pushNode s1).nodes.length) j).exits
        = (nodeAt s5 j).exits := by
      split
      · rfl
      · exact exits_addEdge_of_ne _ _ _ j hcur5
    rw [h6j]
    rw [st5.exits_stable j (by rw [hlen4]; omega) (by show j ≠ s1.nodes.length; omega)]
    rw [nodeAt_withCurUnreach,
      exits_addEdge_of_ne _ _ _ j hcur1,
      exits_addEdge_of_ne _ _ _ j hcur1,
      nodeAt_pushNode, length_pushNode, if_neg (by omega),
      nodeAt_pushNode, if_neg (by omega)]
    exact st1.exits_stable j hj hcur
  · intro j hj hcur
    have hj1 : j < s1.nodes.length := lt_of_lt_of_le hj st1.len_le
    have hcur1 : j ≠ s1.currentNode := by
      rcases st1.cur_evo with hc1 | hc1
      · rw [hc1]
        exact hcur
      · omega
    show (nodeAt (if s5.unreachable = true then s5
      else addEdge s5 s5.currentNode (pushNode s1).nodes.length) j).block = _
    have h6j : (nodeAt (if s5.unreachable = true then s5
        else addEdge s5 s5.currentNode (pushNode s1).nodes.length) j).block
        = (nodeAt s5 j).block := by
      split
      · rfl
      · exact block_addEdge _ _ _ j
    rw [h6j]
    rw [st5.block_stable j (by rw [hlen4]; omega) (by show j ≠ s1.nodes.length; omega)]
    rw [nodeAt_withCurUnreach, block_addEdge, block_addEdge,
      nodeAt_pushNode, length_pushNode, if_neg (by omega),
      nodeAt_pushNode, if_neg (by omega)]
    exact st1.block_stable j hj hcur
  · intro p hp
    have hp5 : p ∈ s5.placeholders := by
      revert hp
      show p ∈ (if s5.unreachable = true then s5
        else addEdge s5 s5.currentNode (pushNode s1).nodes.length).placeholders → _
      rw [apply_ite CFGState.placeholders]
      simp only [addEdge_placeholders, ite_self]
      exact id
    rcases st5.cuts_mono p hp5 with hin | ⟨hl, hr2⟩
    · simp only [pushNode_placeholders] at hin
      rcases st1.cuts_mono p hin with hin2 | ⟨hl2, hr3⟩
      · exact Or.inl hin2
      · exact Or.inr ⟨hl2, hr3⟩
    · refine Or.inr ⟨?_, ?_⟩
      · rcases hl with he | he
        · have : p.1 = s1.nodes.length := by simpa using he
          refine Or.inr ?_
          have := st1.len_le
          omega
        · rw [hlen4] at he
          have := st1.len_le
          exact Or.inr (by omega)
      · rw [hlen4] at hr2
        have := st1.len_le
        omega

theorem ifElseMidInv (s1 s6 : CFGState) (h1 : Inv s1) (h6 : Inv s6)
    (st6 : Steps ({ addEdge (addEdge (pushNode (pushNode (pushNode s1)))
        s1.currentNode s1.nodes.length) s1.currentNode (pushNode s1).nodes.length
        with currentNode := s1.nodes.length, unreachable := false }) s6) :
    Inv ({ (if s6.unreachable = true then s6
          else addEdge s6 s6.currentNode (pushNode (pushNode s1)).nodes.length)
        with currentNode := (pushNode s1).nodes.length,
             unreachable := false }) := by
  have hlenT : ({ addEdge (addEdge (pushNode (pushNode (pushNode s1)))
      s1.currentNode s1.nodes.length) s1.currentNode (pushNode s1).nodes.length
      with currentNode := s1.nodes.length, unreachable := false } :
      CFGState).nodes.length = s1.nodes.length + 3 := by
    simp [length_addEdge, length_pushNode]
  have hlen6 : s1.nodes.length + 3 ≤ s6.nodes.length := by
    have := st6.len_le
    rwa [hlenT] at this
  have hrj6 : s6.returnJump = s1.returnJump := by
    have := st6.rj_eq
    simpa using this
  have hej6 : s6.exceptionJump = s1.exceptionJump := by
    have := st6.ej_eq
    simpa using this
  have hbj6 : s6.breakJumps = s1.breakJumps := by
    have := st6.bj_eq
    simpa using this
  have hcj6 : s6.continueJumps = s1.continueJumps := by
    have := st6.cj_eq
    simpa using this
  refine mergeCore2 s6 h6 _ _ _ ?_ ?_ ?_ ?_ ?_ ?_ ?_
  · rw [length_pushNode, length_pushNode]
    omega
  · rw [length_pushNode]
    omega
  · rw [hrj6, length_pushNode]
    have := h1.rj_lt
    omega
  · rw [hej6, length_pushNode]
    have := h1.ej_lt
    omega
  · rw [hbj6, length_pushNode]
    intro hmem
    have := h1.bj_lt _ hmem
    omega
  · rw [hcj6, length_pushNode]
    intro hmem
    have := h1.cj_lt _ hmem
    omega
  · intro p hp
    rw [length_pushNode, length_pushNode]
    rcases st6.cuts_mono p hp with hin | ⟨hl, hr2⟩
    · simp only [pushNode_placeholders] at hin
      have hb := (h1.cuts p hin).b_lt
      have ha := (h1.cuts p hin).a_lt
      exact ⟨by omega, by omega, by omega⟩
    · rw [hlenT] at hr2
      have hl2 : p.1 = s1.nodes.length ∨ s1.nodes.length + 3 ≤ p.1 := by
        rcases hl with he | he
        · exact Or.inl (by simpa using he)
        · exact Or.inr (by rwa [hlenT] at he)
      exact ⟨by omega, by omega, by omega⟩

theorem ifElseCore (s s1 s6 s8 : CFGState)
    (h1 : Inv s1) (st1 : Steps s s1)
    (h6 : Inv s6)
    (st6 : Steps ({ addEdge (addEdge (pushNode (pushNode (pushNode s1)))
        s1.currentNode s1.nodes.length) s1.currentNode (pushNode s1).nodes.length
        with currentNode := s1.nodes.length, unreachable := false }) s6)
    (h8 : Inv s8)
    (st8 : Steps ({ (if s6.unreachable = true then s6
        else addEdge s6 s6.currentNode (pushNode (pushNode s1)).nodes.length)
        with currentNode := (pushNode s1).nodes.length,
             unreachable := false }) s8) :
    Inv ({ (if s8.unreachable = true then s8
          else addEdge s8 s8.currentNode (pushNode (pushNode s1)).nodes.length)
        with currentNode := (pushNode (pushNode s1)).nodes.length,
             unreachable := s1.unreachable ||
               (nodeAt (if s8.unreachable = true then s8
                  else addEdge s8 s8.currentNode (pushNode (pushNode s1)).nodes.length)
                 (pushNode (pushNode s1)).nodes.length).entries.isEmpty }) ∧
      Steps s ({ (if s8.unreachable = true then s8
          else addEdge s8 s8.currentNode (pushNode (pushNode s1)).nodes.length)
        with currentNode := (pushNode (pushNode s1)).nodes.length,
             unreachable := s1.unreachable ||
               (nodeAt (if s8.unreachable = true then s8
                  else addEdge s8 s8.currentNode (pushNode (pushNode s1)).nodes.length)
                 (pushNode (pushNode s1)).nodes.length).entries.isEmpty }) := by
  have hlenT : ({ addEdge (addEdge (pushNode (pushNode (pushNode s1)))
      s1.currentNode s1.nodes.length) s1.currentNode (pushNode s1).nodes.length
      with currentNode := s1.nodes.length, unreachable := false } :
      CFGState).nodes.length = s1.nodes.length + 3 := by
    simp [length_addEdge, length_pushNode]
  have hlen6 : s1.nodes.length + 3 ≤ s6.nodes.length := by
    have := st6.len_le
    rwa [hlenT] at this
  have hrj6 : s6.returnJump = s1.returnJump := by
    have := st6.rj_eq
    simpa using this
  have hej6 : s6.exceptionJump = s1.exceptionJump := by
    have := st6.ej_eq
    simpa using this
  have hbj6 : s6.breakJumps = s1.breakJumps := by
    have := st6.bj_eq
    simpa using this
  have hcj6 : s6.continueJumps = s1.continueJumps := by
    have := st6.cj_eq
    simpa using this
  have hlen7 : (if s6.unreachable = true then s6
      else addEdge s6 s6.currentNode (pushNode (pushNode s1)).nodes.length).nodes.length
      = s6.nodes.length := by
    split
    · rfl
    · rw [length_addEdge]
  have hlenF : ({ (if s6.unreachable = true then s6
      else addEdge s6 s6.currentNode (pushNode (pushNode s1)).nodes.length)
      with currentNode := (pushNode s1).nodes.length,
           unreachable := false } : CFGState).nodes.length = s6.nodes.length := hlen7
  have hlen8 : s6.nodes.length ≤ s8.nodes.length := by
    have := st8.len_le
    rwa [hlenF] at this
  have hrj7 : (if s6.unreachable = true then s6
      else addEdge s6 s6.currentNode (pushNode (pushNode s1)).nodes.length).returnJump
      = s6.returnJump := by
    rw [apply_ite CFGState.returnJump]
    simp only [addEdge_returnJump, ite_self]
  have hej7 : (if s6.unreachable = true then s6
      else addEdge s6 s6.currentNode (pushNode (pushNode s1)).nodes.length).exceptionJump
      = s6.exceptionJump := by
    rw [apply_ite CFGState.exceptionJump]
    simp only [addEdge_exceptionJump, ite_self]
  have hbj7 : (if s6.unreachable = true then s6
      else addEdge s6 s6.currentNode (pushNode (pushNode s1)).nodes.length).breakJumps
      = s6.breakJumps := by
    rw [apply_ite CFGState.breakJumps]
    simp only [addEdge_breakJumps, ite_self]
  have hcj7 : (if s6.unreachable = true then s6
      else addEdge s6 s6.currentNode (pushNode (pushNode s1)).nodes.length).continueJumps
      = s6.continueJumps := by
    rw [apply_ite CFGState.continueJumps]
    simp only [addEdge_continueJumps, ite_self]
  have hrj8 : s8.returnJump = s1.returnJump := by
    rw [st8.rj_eq]
    show (if s6.unreachable = true then s6
      else addEdge s6 s6.currentNode (pushNode (pushNode s1)).nodes.length).returnJump = _
    rw [hrj7, hrj6]
  have hej8 : s8.exceptionJump = s1.exceptionJump := by
    rw [st8.ej_eq]
    show (if s6.unreachable = true then s6
      else addEdge s6 s6.currentNode (pushNode (pushNode s1)).nodes.length).exceptionJump = _
    rw [hej7, hej6]
  have hbj8 : s8.breakJumps = s1.breakJumps := by
    rw [st8.bj_eq]
    show (if s6.unreachable = true then s6
      else addEdge s6 s6.currentNode (pushNode (pushNode s1)).nodes.length).breakJumps = _
    rw [hbj7, hbj6]
  have hcj8 : s8.continueJumps = s1.continueJumps := by
    rw [st8.cj_eq]
    show (if s6.unreachable = true then s6
      else addEdge s6 s6.currentNode (pushNode (pushNode s1)).nodes.length).continueJumps = _
    rw [hcj7, hcj6]
  have hphAll : ∀ p ∈ s8.placeholders, (p ∈ s1.placeholders ∧
      p.1 < s1.nodes.length ∧ p.2 < s1.nodes.length) ∨
      ((p.1 = s1.nodes.length ∨ p.1 = s1.nodes.length + 1 ∨
        s1.nodes.length + 3 ≤ p.1) ∧ s1.nodes.length + 3 ≤ p.2) := by
    intro p hp
    rcases st8.cuts_mono p hp with hin | ⟨hl, hr2⟩
    · have hp6 : p ∈ s6.placeholders := by
        revert hin
        show p ∈ (if s6.unreachable = true then s6
          else addEdge s6 s6.currentNode (pushNode (pushNode s1)).nodes.length).placeholders → _
        rw [apply_ite CFGState.placeholders]
        simp only [addEdge_placeholders, ite_self]
        exact id
      rcases st6.cuts_mono p hp6 with hin2 | ⟨hl2, hr3⟩
      · have hp1 : p ∈ s1.placeholders := by simpa using hin2
        exact Or.inl ⟨hp1, (h1.cuts p hp1).b_lt, (h1.cuts p hp1).a_lt⟩
      · refine Or.inr ⟨?_, by rwa [hlenT] at hr3⟩
        rcases hl2 with he | he
        · exact Or.inl (by simpa using he)
        · exact Or.inr (Or.inr (by rwa [hlenT] at he))
    · refine Or.inr ⟨?_, ?_⟩
      · rcases hl with he | he
        · refine Or.inr (Or.inl ?_)
          have hx : p.1 = (pushNode s1).nodes.length := by simpa using he
          rwa [length_pushNode] at hx
        · refine Or.inr (Or.inr ?_)
          rw [hlenF] at he
          omega
      · rw [hlenF] at hr2
        omega
  have hph8 : ∀ p ∈ s8.placeholders, p.1 ≠ (pushNode (pushNode s1)).nodes.length ∧
      p.2 ≠ (pushNode (pushNode s1)).nodes.length := by
    intro p hp
    rw [length_pushNode, length_pushNode]
    rcases hphAll p hp with ⟨_, hb, ha⟩ | ⟨hb, ha⟩
    · exact ⟨by omega, by omega⟩
    · rcases hb with h | h | h <;> exact ⟨by omega, by omega⟩
  have hrjT : ({ addEdge (addEdge (pushNode (pushNode (pushNode s1)))
      s1.currentNode s1.nodes.length) s1.currentNode (pushNode s1).nodes.length
      with currentNode := s1.nodes.length, unreachable := false } :
      CFGState).returnJump = s1.returnJump := by
    simp
  have hejT : ({ addEdge (addEdge (pushNode (pushNode (pushNode s1)))
      s1.currentNode s1.nodes.length) s1.currentNode (pushNode s1).nodes.length
      with currentNode := s1.nodes.length, unreachable := false } :
      CFGState).exceptionJump = s1.exceptionJump := by
    simp
  have hbjT : ({ addEdge (addEdge (pushNode (pushNode (pushNode s1)))
      s1.currentNode s1.nodes.length) s1.currentNode (pushNode s1).nodes.length
      with currentNode := s1.nodes.length, unreachable := false } :
      CFGState).breakJumps = s1.breakJumps := by
    simp
  have hcjT : ({ addEdge (addEdge (pushNode (pushNode (pushNode s1)))
      s1.currentNode s1.nodes.length) s1.currentNode (pushNode s1).nodes.length
      with currentNode := s1.nodes.length, unreachable := false } :
      CFGState).continueJumps = s1.continueJumps := by
    simp
  have hlen9 : (if s8.unreachable = true then s8
      else addEdge s8 s8.currentNode (pushNode (pushNode s1)).nodes.length).nodes.length
      = s8.nodes.length := by
    split
    · rfl
    · rw [length_addEdge]
  have hInvF : Inv ({ (if s8.unreachable = true then s8
      else addEdge s8 s8.currentNode (pushNode (pushNode s1)).nodes.length)
      with currentNode := (pushNode (pushNode s1)).nodes.length,
           unreachable := s1.unreachable ||
             (nodeAt (if s8.unreachable = true then s8
                else addEdge s8 s8.currentNode (pushNode (pushNode s1)).nodes.length)
               (pushNode (pushNode s1)).nodes.length).entries.isEmpty }) := by
    refine mergeCore s8 h8 _ _ ?_ ?_ ?_ ?_ ?_ hph8
    · rw [length_pushNode, length_pushNode]
      omega
    · rw [hrj8, length_pushNode, length_pushNode]
      have := h1.rj_lt
      omega
    · rw [hej8, length_pushNode, length_pushNode]
      have := h1.ej_lt
      omega
    · rw [hbj8, length_pushNode, length_pushNode]
      intro hmem
      have := h1.bj_lt _ hmem
      omega
    · rw [hcj8, length_pushNode, length_pushNode]
      intro hmem
      have := h1.cj_lt _ hmem
      omega
  refine ⟨hInvF, ?_, ?_, ?_, ?_, ?_, ?_, ?_, ?_, ?_, ?_⟩
  · show s.nodes.length ≤ (if s8.unreachable = true then s8
      else addEdge s8 s8.currentNode (pushNode (pushNode s1)).nodes.length).nodes.length
    rw [hlen9]
    have := st1.len_le
    omega
  · show (if s8.unreachable = true then s8
      else addEdge s8 s8.currentNode (pushNode (pushNode s1)).nodes.length).returnJump = _
    rw [apply_ite CFGState.returnJump]
    simp only [addEdge_returnJump, ite_self]
    rw [hrj8]
    exact st1.rj_eq
  · show (if s8.unreachable = true then s8
      else addEdge s8 s8.currentNode (pushNode (pushNode s1)).nodes.length).exceptionJump = _
    rw [apply_ite CFGState.exceptionJump]
    simp only [addEdge_exceptionJump, ite_self]
    rw [hej8]
    exact st1.ej_eq
  · show (if s8.unreachable = true then s8
      else addEdge s8 s8.currentNode (pushNode (pushNode s1)).nodes.length).breakJumps = _
    rw [apply_ite CFGState.breakJumps]
    simp only [addEdge_breakJumps, ite_self]
    rw [hbj8]
    exact st1.bj_eq
  · show (if s8.unreachable = true then s8
      else addEdge s8 s8.currentNode (pushNode (pushNode s1)).nodes.length).continueJumps = _
    rw [apply_ite CFGState.continueJumps]
    simp only [addEdge_continueJumps, ite_self]
    rw [hcj8]
    exact st1.cj_eq
  · refine Or.inr ?_
    show s.nodes.length ≤ (pushNode (pushNode s1)).nodes.length
    have := st1.len_le
    rw [length_pushNode, length_pushNode]
    omega
  · intro j hj hjr hje hjb hjc
    have hj1 : j < s1.nodes.length := lt_of_lt_of_le hj st1.len_le
    have hrs1 : j ≠ s1.returnJump := fun hx => hjr (hx.trans st1.rj_eq)
    have hes1 : j ≠ s1.exceptionJump := fun hx => hje (hx.trans st1.ej_eq)
    have hbs1 : j ∉ s1.breakJumps := by
      rw [st1.bj_eq]
      exact hjb
    have hcs1 : j ∉ s1.continueJumps := by
      rw [st1.cj_eq]
      exact hjc
    show (nodeAt (if s8.unreachable = true then s8
      else addEdge s8 s8.currentNode (pushNode (pushNode s1)).nodes.length) j).entries = _
    have h9j : (nodeAt (if s8.unreachable = true then s8
        else addEdge s8 s8.currentNode (pushNode (pushNode s1)).nodes.length) j).entries
        = (nodeAt s8 j).entries := by
      split
      · rfl
      · exact entries_addEdge_of_ne _ _ _ j
          (by rw [length_pushNode, length_pushNode]; omega)
    rw [h9j]
    rw [st8.entries_stable j (by rw [hlenF]; omega)
      (fun hx => hrs1 (hx.trans (hrj7.trans hrj6)))
      (fun hx => hes1 (hx.trans (hej7.trans hej6)))
      (by show j ∉ (if s6.unreachable = true then s6
            else addEdge s6 s6.currentNode (pushNode (pushNode s1)).nodes.length).breakJumps
          rw [hbj7, hbj6]
          exact hbs1)
      (by show j ∉ (if s6.unreachable = true then s6
            else addEdge s6 s6.currentNode (pushNode (pushNode s1)).nodes.length).continueJumps
          rw [hcj7, hcj6]
          exact hcs1)]
    rw [nodeAt_withCurUnreach]
    have h7j : (nodeAt (if s6.unreachable = true then s6
        else addEdge s6 s6.currentNode (pushNode (pushNode s1)).nodes.length) j).entries
        = (nodeAt s6 j).entries := by
      split
      · rfl
      · exact entries_addEdge_of_ne _ _ _ j
          (by rw [length_pushNode, length_pushNode]; omega)
    rw [h7j]
    rw [st6.entries_stable j (by rw [hlenT]; omega)
      (fun hx => hrs1 (hx.trans hrjT)) (fun hx => hes1 (hx.trans hejT))
      (by rw [hbjT]; exact hbs1) (by rw [hcjT]; exact hcs1)]
    rw [nodeAt_withCurUnreach,
      entries_addEdge_of_ne _ _ _ j (by rw [length_pushNode]; omega),
      entries_addEdge_of_ne _ _ _ j (by omega),
      nodeAt_pushNode, length_pushNode, length_pushNode, if_neg (by omega),
      nodeAt_pushNode, length_pushNode, if_neg (by omega),
      nodeAt_pushNode, if_neg (by omega)]
    exact st1.entries_stable j hj hjr hje hjb hjc
  · intro j hj hcur
    have hj1 : j < s1.nodes.length := lt_of_lt_of_le hj st1.len_le
    have hcur1 : j ≠ s1.currentNode := by
      rcases st1.cur_evo with hc1 | hc1
      · rw [hc1]
        exact hcur
      · omega
    have hcur6 : j ≠ s6.currentNode := by
      rcases st6.cur_evo with hc6 | hc6
      · rw [hc6]
        show j ≠ s1.nodes.length
        omega
      · rw [hlenT] at hc6
        omega
    have hcur8 : j ≠ s8.currentNode := by
      rcases st8.cur_evo with hc8 | hc8
      · rw [hc8]
        show j ≠ (pushNode s1).nodes.length
        rw [length_pushNode]
        omega
      · rw [hlenF] at hc8
        omega
    show (nodeAt (if s8.unreachable = true then s8
      else addEdge s8 s8.currentNode (pushNode (pushNode s1)).nodes.length) j).exits = _
    have h9j : (nodeAt (if s8.unreachable = true then s8
        else addEdge s8 s8.currentNode (pushNode (pushNode s1)).nodes.length) j).exits
        = (nodeAt s8 j).exits := by
      split
      · rfl
      · exact exits_addEdge_of_ne _ _ _ j hcur8
    rw [h9j]
    rw [st8.exits_stable j (by rw [hlenF]; omega)
      (by show j ≠ (pushNode s1).nodes.length
          rw [length_pushNode]
          omega)]
    rw [nodeAt_withCurUnreach]
    have h7j : (nodeAt (if s6.unreachable = true then s6
        else addEdge s6 s6.currentNode (pushNode (pushNode s1)).nodes.length) j).exits
        = (nodeAt s6 j).exits := by
      split
      · rfl
      · exact exits_addEdge_of_ne _ _ _ j hcur6
    rw [h7j]
    rw [st6.exits_stable j (by rw [hlenT]; omega)
      (by show j ≠ s1.nodes.length; omega)]
    rw [nodeAt_withCurUnreach,
      exits_addEdge_of_ne _ _ _ j hcur1,
      exits_addEdge_of_ne _ _ _ j hcur1,
      nodeAt_pushNode, length_pushNode, length_pushNode, if_neg (by omega),
      nodeAt_pushNode, length_pushNode, if_neg (by omega),
      nodeAt_pushNode, if_neg (by omega)]
    exact st1.exits_stable j hj hcur
  · intro j hj hcur
    have hj1 : j < s1.nodes.length := lt_of_lt_of_le hj st1.len_le
    have hcur1 : j ≠ s1.currentNode := by
      rcases st1.cur_evo with hc1 | hc1
      · rw [hc1]
        exact hcur
      · omega
    show (nodeAt (if s8.unreachable = true then s8
      else addEdge s8 s8.currentNode (pushNode (pushNode s1)).nodes.length) j).block = _
    have h9j : (nodeAt (if s8.unreachable = true then s8
        else addEdge s8 s8.currentNode (pushNode (pushNode s1)).nodes.length) j).block
        = (nodeAt s8 j).block := by
      split
      · rfl
      · exact block_addEdge _ _ _ j
    rw [h9j]
    rw [st8.block_stable j (by rw [hlenF]; omega)
      (by show j ≠ (pushNode s1).nodes.length
          rw [length_pushNode]
          omega)]
    rw [nodeAt_withCurUnreach]
    have h7j : (nodeAt (if s6.unreachable = true then s6
        else addEdge s6 s6.currentNode (pushNode (pushNode s1)).nodes.length) j).block
        = (nodeAt s6 j).block := by
      split
      · rfl
      · exact block_addEdge _ _ _ j
    rw [h7j]
    rw [st6.block_stable j (by rw [hlenT]; omega)
      (by show j ≠ s1.nodes.length; omega)]
    rw [nodeAt_withCurUnreach, block_addEdge, block_addEdge,
      nodeAt_pushNode, length_pushNode, length_pushNode, if_neg (by omega),
      nodeAt_pushNode, length_pushNode, if_neg (by omega),
      nodeAt_pushNode, if_neg (by omega)]
    exact st1.block_stable j hj hcur
  · intro p hp
    have hp8 : p ∈ s8.placeholders := by
      revert hp
      show p ∈ (if s8.unreachable = true then s8
        else addEdge s8 s8.currentNode (pushNode (pushNode s1)).nodes.length).placeholders → _
      rw [apply_ite CFGState.placeholders]
      simp only [addEdge_placeholders, ite_self]
      exact id
    rcases hphAll p hp8 with ⟨hp1, _, _⟩ | ⟨hb, ha⟩
    · exact st1.cuts_mono p hp1
    · have hs := st1.len_le
      refine Or.inr ⟨Or.inr ?_, ?_⟩
      · rcases hb with h | h | h <;> omega
      · omega

theorem whileStartInv (s : CFGState) (h : Inv s) :
    Inv ({ addEdge (pushNode s) s.currentNode s.nodes.length
           with currentNode := s.nodes.length }) := by
  have base : Inv (addEdge (pushNode s) s.currentNode s.nodes.length) := by
    refine (h.pushNode).addEdge ?_ ?_ ?_ ?_
    · rw [length_pushNode]
      have := h.cur_lt
      omega
    · rw [length_pushNode]
      omega
    · simp only [pushNode_placeholders]
      intro p hp
      exact fun hx => (h.cuts p hp).b_ne_cur hx.symm
    · simp only [pushNode_placeholders]
      intro p hp
      have := (h.cuts p hp).b_lt
      have := (h.cuts p hp).a_lt
      omega
  have hres := base.retarget s.nodes.length
    (addEdge (pushNode s) s.currentNode s.nodes.length).unreachable
    (by simp [length_addEdge, length_pushNode])
    (by simp only [addEdge_returnJump, pushNode_returnJump]
        have := h.rj_lt
        omega)
    (by simp only [addEdge_exceptionJump, pushNode_exceptionJump]
        have := h.ej_lt
        omega)
    (by simp only [addEdge_breakJumps, pushNode_breakJumps]
        intro hmem
        have := h.bj_lt _ hmem
        omega)
    (by simp only [addEdge_continueJumps, pushNode_continueJumps]
        intro hmem
        have := h.cj_lt _ hmem
        omega)
    (by simp only [addEdge_placeholders, pushNode_placeholders]
        intro p hp
        have := (h.cuts p hp).b_lt
        omega)
  exact hres

theorem whileMidInv (s s2 : CFGState) (h : Inv s) (h2 : Inv s2)
    (st2 : Steps ({ addEdge (pushNode s) s.currentNode s.nodes.length
        with currentNode := s.nodes.length }) s2)
    (hph2 : s2.placeholders = s.placeholders) :
    Inv ({ addEdge (addEdge (pushNode (pushNode s2)) s2.currentNode s2.nodes.length) s2.currentNode (pushNode s2).nodes.length with
           breakJumps := s2.nodes.length :: (addEdge (addEdge (pushNode (pushNode s2)) s2.currentNode s2.nodes.length) s2.currentNode (pushNode s2).nodes.length).breakJumps,
           continueJumps := s.nodes.length :: (addEdge (addEdge (pushNode (pushNode s2)) s2.currentNode s2.nodes.length) s2.currentNode (pushNode s2).nodes.length).continueJumps,
           currentNode := (pushNode s2).nodes.length,
           unreachable := false }) := by
  have hlenC : ({ addEdge (pushNode s) s.currentNode s.nodes.length
      with currentNode := s.nodes.length } : CFGState).nodes.length
      = s.nodes.length + 1 := by
    simp [length_addEdge, length_pushNode]
  have hlen2 : s.nodes.length + 1 ≤ s2.nodes.length := by
    have := st2.len_le
    rwa [hlenC] at this
  have hrj2 : s2.returnJump = s.returnJump := by
    have := st2.rj_eq
    simpa using this
  have hej2 : s2.exceptionJump = s.exceptionJump := by
    have := st2.ej_eq
    simpa using this
  have hbj2 : s2.breakJumps = s.breakJumps := by
    have := st2.bj_eq
    simpa using this
  have hcj2 : s2.continueJumps = s.continueJumps := by
    have := st2.cj_eq
    simpa using this
  have a1 : Inv (addEdge (pushNode (pushNode s2)) s2.currentNode
      s2.nodes.length) := by
    refine ((h2.pushNode).pushNode).addEdge ?_ ?_ ?_ ?_
    · simp only [length_pushNode]
      have := h2.cur_lt
      omega
    · simp only [length_pushNode]
      omega
    · simp only [pushNode_placeholders]
      intro p hp
      exact fun hx => (h2.cuts p hp).b_ne_cur hx.symm
    · simp only [pushNode_placeholders]
      intro p hp
      have := (h2.cuts p hp).b_lt
      have := (h2.cuts p hp).a_lt
      omega
  have a2 : Inv (addEdge (addEdge (pushNode (pushNode s2)) s2.currentNode
      s2.nodes.length) s2.currentNode (pushNode s2).nodes.length) := by
    refine a1.addEdge ?_ ?_ ?_ ?_
    · simp only [length_addEdge, length_pushNode]
      have := h2.cur_lt
      omega
    · simp only [length_addEdge, length_pushNode]
      omega
    · simp only [addEdge_placeholders, pushNode_placeholders]
      intro p hp
      exact fun hx => (h2.cuts p hp).b_ne_cur hx.symm
    · simp only [addEdge_placeholders, pushNode_placeholders, length_pushNode]
      intro p hp
      have := (h2.cuts p hp).b_lt
      have := (h2.cuts p hp).a_lt
      omega
  have hcutS : ∀ p ∈ s2.placeholders, CutOK s p := by
    intro p hp
    rw [hph2] at hp
    exact h.cuts p hp
  obtain ⟨hb, hs, hc, hr, he, hbj, hcj, hcr, hce, hcb, hcc, hcp⟩ := a2
  refine ⟨hb, hs, ?_, hr, he, ?_, ?_, ?_, ?_, ?_, ?_, ?_⟩
  · show (pushNode s2).nodes.length <
      (addEdge (addEdge (pushNode (pushNode s2)) s2.currentNode
        s2.nodes.length) s2.currentNode (pushNode s2).nodes.length).nodes.length
    simp only [length_addEdge, length_pushNode]
    omega
  · intro t ht
    rcases List.mem_cons.mp ht with hx | hx
    · subst hx
      simp only [length_addEdge, length_pushNode]
      omega
    · exact hbj t hx
  · intro t ht
    rcases List.mem_cons.mp ht with hx | hx
    · subst hx
      simp only [length_addEdge, length_pushNode]
      omega
    · exact hcj t hx
  · show (pushNode s2).nodes.length ≠
      (addEdge (addEdge (pushNode (pushNode s2)) s2.currentNode
        s2.nodes.length) s2.currentNode (pushNode s2).nodes.length).returnJump
    simp only [addEdge_returnJump, pushNode_returnJump, length_pushNode, hrj2]
    have := h.rj_lt
    omega
  · show (pushNode s2).nodes.length ≠
      (addEdge (addEdge (pushNode (pushNode s2)) s2.currentNode
        s2.nodes.length) s2.currentNode (pushNode s2).nodes.length).exceptionJump
    simp only [addEdge_exceptionJump, pushNode_exceptionJump, length_pushNode, hej2]
    have := h.ej_lt
    omega
  · show (pushNode s2).nodes.length ∉ s2.nodes.length :: (addEdge (addEdge (pushNode (pushNode s2)) s2.currentNode s2.nodes.length) s2.currentNode (pushNode s2).nodes.length).breakJumps
    intro hmem
    rcases List.mem_cons.mp hmem with hx | hx
    · rw [length_pushNode] at hx
      omega
    · simp only [addEdge_breakJumps, pushNode_breakJumps, hbj2] at hx
      have hlt := h.bj_lt _ hx
      rw [length_pushNode] at hlt
      omega
  · show (pushNode s2).nodes.length ∉ s.nodes.length :: (addEdge (addEdge (pushNode (pushNode s2)) s2.currentNode s2.nodes.length) s2.currentNode (pushNode s2).nodes.length).continueJumps
    intro hmem
    rcases List.mem_cons.mp hmem with hx | hx
    · rw [length_pushNode] at hx
      omega
    · simp only [addEdge_continueJumps, pushNode_continueJumps, hcj2] at hx
      have hlt := h.cj_lt _ hx
      rw [length_pushNode] at hlt
      omega
  · intro p hp
    simp only [addEdge_placeholders, pushNode_placeholders] at hp
    have C2 := h2.cuts p hp
    have CS := hcutS p hp
    have hCP := hcp p (by simpa using hp)
    refine ⟨hCP.b_lt, hCP.a_lt, ?_, ?_, ?_, ?_, ?_, ?_, ?_, ?_, ?_,
      hCP.a_entries, hCP.no_edge_ba, hCP.no_edge_ab⟩
    · show p.1 ≠ (pushNode s2).nodes.length
      have := C2.b_lt
      rw [length_pushNode]
      omega
    · show p.1 ≠ (addEdge (addEdge (pushNode (pushNode s2)) s2.currentNode
        s2.nodes.length) s2.currentNode (pushNode s2).nodes.length).returnJump
      exact hCP.b_ne_rj
    · show p.1 ≠ (addEdge (addEdge (pushNode (pushNode s2)) s2.currentNode
        s2.nodes.length) s2.currentNode (pushNode s2).nodes.length).exceptionJump
      exact hCP.b_ne_ej
    · show p.2 ≠ (addEdge (addEdge (pushNode (pushNode s2)) s2.currentNode
        s2.nodes.length) s2.currentNode (pushNode s2).nodes.length).returnJump
      exact hCP.a_ne_rj
    · show p.2 ≠ (addEdge (addEdge (pushNode (pushNode s2)) s2.currentNode
        s2.nodes.length) s2.currentNode (pushNode s2).nodes.length).exceptionJump
      exact hCP.a_ne_ej
    · intro hmem
      rcases List.mem_cons.mp hmem with hx | hx
      · have := C2.b_lt
        omega
      · exact hCP.b_nin_bj hx
    · intro hmem
      rcases List.mem_cons.mp hmem with hx | hx
      · have := CS.b_lt
        omega
      · exact hCP.b_nin_cj hx
    · intro hmem
      rcases List.mem_cons.mp hmem with hx | hx
      · have := C2.a_lt
        omega
      · exact hCP.a_nin_bj hx
    · intro hmem
      rcases List.mem_cons.mp hmem with hx | hx
      · have := CS.a_lt
        omega
      · exact hCP.a_nin_cj hx

theorem whileCore (s s2 s7 : CFGState) (h : Inv s) (h2 : Inv s2)
    (st2 : Steps ({ addEdge (pushNode s) s.currentNode s.nodes.length with currentNode := s.nodes.length }) s2)
    (hph2 : s2.placeholders = s.placeholders)
    (h7 : Inv s7)
    (st7 : Steps ({ addEdge (addEdge (pushNode (pushNode s2)) s2.currentNode s2.nodes.length) s2.currentNode (pushNode s2).nodes.length with
      breakJumps := s2.nodes.length :: (addEdge (addEdge (pushNode (pushNode s2)) s2.currentNode s2.nodes.length) s2.currentNode (pushNode s2).nodes.length).breakJumps,
      continueJumps := s.nodes.length :: (addEdge (addEdge (pushNode (pushNode s2)) s2.currentNode s2.nodes.length) s2.currentNode (pushNode s2).nodes.length).continueJumps,
      currentNode := (pushNode s2).nodes.length,
      unreachable := false }) s7) :
    Inv ({ (if s7.unreachable = true then s7 else addEdge s7 s7.currentNode s.nodes.length) with
      breakJumps := (if s7.unreachable = true then s7 else addEdge s7 s7.currentNode s.nodes.length).breakJumps.tail,
      continueJumps := (if s7.unreachable = true then s7 else addEdge s7 s7.currentNode s.nodes.length).continueJumps.tail,
      currentNode := s2.nodes.length,
      unreachable := s.unreachable }) ∧
    Steps s ({ (if s7.unreachable = true then s7 else addEdge s7 s7.currentNode s.nodes.length) with
      breakJumps := (if s7.unreachable = true then s7 else addEdge s7 s7.currentNode s.nodes.length).breakJumps.tail,
      continueJumps := (if s7.unreachable = true then s7 else addEdge s7 s7.currentNode s.nodes.length).continueJumps.tail,
      currentNode := s2.nodes.length,
      unreachable := s.unreachable }) := by
  have hlenC : ({ addEdge (pushNode s) s.currentNode s.nodes.length with currentNode := s.nodes.length } : CFGState).nodes.length = s.nodes.length + 1 := by
    simp [length_addEdge, length_pushNode]
  have hlen2 : s.nodes.length + 1 ≤ s2.nodes.length := by
    have := st2.len_le
    rwa [hlenC] at this
  have hrj2 : s2.returnJump = s.returnJump := by
    have := st2.rj_eq
    simpa using this
  have hej2 : s2.exceptionJump = s.exceptionJump := by
    have := st2.ej_eq
    simpa using this
  have hbj2 : s2.breakJumps = s.breakJumps := by
    have := st2.bj_eq
    simpa using this
  have hcj2 : s2.continueJumps = s.continueJumps := by
    have := st2.cj_eq
    simpa using this
  have hlen6 : ({ addEdge (addEdge (pushNode (pushNode s2)) s2.currentNode s2.nodes.length) s2.currentNode (pushNode s2).nodes.length with
      breakJumps := s2.nodes.length :: (addEdge (addEdge (pushNode (pushNode s2)) s2.currentNode s2.nodes.length) s2.currentNode (pushNode s2).nodes.length).breakJumps,
      continueJumps := s.nodes.length :: (addEdge (addEdge (pushNode (pushNode s2)) s2.currentNode s2.nodes.length) s2.currentNode (pushNode s2).nodes.length).continueJumps,
      currentNode := (pushNode s2).nodes.length,
      unreachable := false } : CFGState).nodes.length = s2.nodes.length + 2 := by
    simp [length_addEdge, length_pushNode]
  have hlen7 : s2.nodes.length + 2 ≤ s7.nodes.length := by
    have := st7.len_le
    rwa [hlen6] at this
  have hrj7 : s7.returnJump = s.returnJump := by
    have := st7.rj_eq
    simp only [addEdge_returnJump, pushNode_returnJump] at this
    rw [this, hrj2]
  have hej7 : s7.exceptionJump = s.exceptionJump := by
    have := st7.ej_eq
    simp only [addEdge_exceptionJump, pushNode_exceptionJump] at this
    rw [this, hej2]
  have hbj7 : s7.breakJumps = s2.nodes.length :: s.breakJumps := by
    have := st7.bj_eq
    simp only [addEdge_breakJumps, pushNode_breakJumps, hbj2] at this
    exact this
  have hcj7 : s7.continueJumps = s.nodes.length :: s.continueJumps := by
    have := st7.cj_eq
    simp only [addEdge_continueJumps, pushNode_continueJumps, hcj2] at this
    exact this
  have h8 : Inv (if s7.unreachable = true then s7
      else addEdge s7 s7.currentNode s.nodes.length) := by
    split
    · exact h7
    · refine h7.addEdge h7.cur_lt (by omega) ?_ ?_
      · intro p hp
        exact fun hx => (h7.cuts p hp).b_ne_cur hx.symm
      · intro p hp
        have hc := h7.cuts p hp
        constructor
        · intro hx
          exact hc.b_nin_cj (by rw [hcj7, ← hx]; exact List.mem_cons_self _ _)
        · intro hx
          exact hc.a_nin_cj (by rw [hcj7, ← hx]; exact List.mem_cons_self _ _)
  have hlen8 : (if s7.unreachable = true then s7
      else addEdge s7 s7.currentNode s.nodes.length).nodes.length = s7.nodes.length := by
    split
    · rfl
    · rw [length_addEdge]
  have hrj8 : (if s7.unreachable = true then s7
      else addEdge s7 s7.currentNode s.nodes.length).returnJump = s.returnJump := by
    rw [apply_ite CFGState.returnJump]
    simp only [addEdge_returnJump, ite_self]
    exact hrj7
  have hej8 : (if s7.unreachable = true then s7
      else addEdge s7 s7.currentNode s.nodes.length).exceptionJump = s.exceptionJump := by
    rw [apply_ite CFGState.exceptionJump]
    simp only [addEdge_exceptionJump, ite_self]
    exact hej7
  have hbj8 : (if s7.unreachable = true then s7
      else addEdge s7 s7.currentNode s.nodes.length).breakJumps
      = s2.nodes.length :: s.breakJumps := by
    rw [apply_ite CFGState.breakJumps]
    simp only [addEdge_breakJumps, ite_self]
    exact hbj7
  have hcj8 : (if s7.unreachable = true then s7
      else addEdge s7 s7.currentNode s.nodes.length).continueJumps
      = s.nodes.length :: s.continueJumps := by
    rw [apply_ite CFGState.continueJumps]
    simp only [addEdge_continueJumps, ite_self]
    exact hcj7
  have hphITE : (if s7.unreachable = true then s7
      else addEdge s7 s7.currentNode s.nodes.length).placeholders = s7.placeholders := by
    rw [apply_ite CFGState.placeholders]
    simp only [addEdge_placeholders, ite_self]
  have pOrigin : ∀ p ∈ s7.placeholders, p ∈ s.placeholders ∨
      ((p.1 = (pushNode s2).nodes.length ∨ s2.nodes.length + 2 ≤ p.1) ∧
       s2.nodes.length + 2 ≤ p.2) := by
    intro p hp
    rcases st7.cuts_mono p hp with hin | ⟨hl, hr⟩
    · left
      have : p ∈ s2.placeholders := by simpa using hin
      rwa [hph2] at this
    · right
      refine ⟨?_, by rwa [hlen6] at hr⟩
      rcases hl with hx | hx
      · exact Or.inl (by simpa using hx)
      · exact Or.inr (by rwa [hlen6] at hx)
  have hInvF : Inv ({ (if s7.unreachable = true then s7 else addEdge s7 s7.currentNode s.nodes.length) with
      breakJumps := (if s7.unreachable = true then s7 else addEdge s7 s7.currentNode s.nodes.length).breakJumps.tail,
      continueJumps := (if s7.unreachable = true then s7 else addEdge s7 s7.currentNode s.nodes.length).continueJumps.tail,
      currentNode := s2.nodes.length,
      unreachable := s.unreachable }) := by
    obtain ⟨hb, hsym, hclt, hrlt, helt, hbjlt, hcjlt, _, _, _, _, hcuts⟩ := h8
    refine ⟨hb, hsym, ?_, hrlt, helt, ?_, ?_, ?_, ?_, ?_, ?_, ?_⟩
    · show s2.nodes.length < (if s7.unreachable = true then s7
        else addEdge s7 s7.currentNode s.nodes.length).nodes.length
      rw [hlen8]
      omega
    · intro t ht
      exact hbjlt t (List.mem_of_mem_tail ht)
    · intro t ht
      exact hcjlt t (List.mem_of_mem_tail ht)
    · show s2.nodes.length ≠ (if s7.unreachable = true then s7
        else addEdge s7 s7.currentNode s.nodes.length).returnJump
      rw [hrj8]
      have := h.rj_lt
      omega
    · show s2.nodes.length ≠ (if s7.unreachable = true then s7
        else addEdge s7 s7.currentNode s.nodes.length).exceptionJump
      rw [hej8]
      have := h.ej_lt
      omega
    · show s2.nodes.length ∉ (if s7.unreachable = true then s7
        else addEdge s7 s7.currentNode s.nodes.length).breakJumps.tail
      rw [hbj8, List.tail_cons]
      intro hmem
      have := h.bj_lt _ hmem
      omega
    · show s2.nodes.length ∉ (if s7.unreachable = true then s7
        else addEdge s7 s7.currentNode s.nodes.length).continueJumps.tail
      rw [hcj8, List.tail_cons]
      intro hmem
      have := h.cj_lt _ hmem
      omega
    · intro p hp
      have hp7 : p ∈ s7.placeholders := by
        rw [← hphITE]
        exact hp
      have hc8 := hcuts p (by rw [hphITE]; exact hp7)
      refine ⟨hc8.b_lt, hc8.a_lt, ?_, hc8.b_ne_rj, hc8.b_ne_ej, hc8.a_ne_rj,
        hc8.a_ne_ej, ?_, ?_, ?_, ?_, hc8.a_entries, hc8.no_edge_ba, hc8.no_edge_ab⟩
      · show p.1 ≠ s2.nodes.length
        rcases pOrigin p hp7 with hin | ⟨hl, _⟩
        · have := (h.cuts p hin).b_lt
          omega
        · rcases hl with hx | hx
          · rw [hx, length_pushNode]
            omega
          · omega
      · exact fun hx => hc8.b_nin_bj (List.mem_of_mem_tail hx)
      · exact fun hx => hc8.b_nin_cj (List.mem_of_mem_tail hx)
      · exact fun hx => hc8.a_nin_bj (List.mem_of_mem_tail hx)
      · exact fun hx => hc8.a_nin_cj (List.mem_of_mem_tail hx)
  refine ⟨hInvF, ?_, ?_, ?_, ?_, ?_, ?_, ?_, ?_, ?_, ?_⟩
  · show s.nodes.length ≤ (if s7.unreachable = true then s7
      else addEdge s7 s7.currentNode s.nodes.length).nodes.length
    rw [hlen8]
    omega
  · show (if s7.unreachable = true then s7
      else addEdge s7 s7.currentNode s.nodes.length).returnJump = _
    exact hrj8
  · show (if s7.unreachable = true then s7
      else addEdge s7 s7.currentNode s.nodes.length).exceptionJump = _
    exact hej8
  · show (if s7.unreachable = true then s7
      else addEdge s7 s7.currentNode s.nodes.length).breakJumps.tail = _
    rw [hbj8, List.tail_cons]
  · show (if s7.unreachable = true then s7
      else addEdge s7 s7.currentNode s.nodes.length).continueJumps.tail = _
    rw [hcj8, List.tail_cons]
  · refine Or.inr ?_
    show s.nodes.length ≤ s2.nodes.length
    omega
  · intro j hj hjr hje hjb hjc
    have hj2 : j < s2.nodes.length := by omega
    show (nodeAt (if s7.unreachable = true then s7
      else addEdge s7 s7.currentNode s.nodes.length) j).entries = _
    have h8j : (nodeAt (if s7.unreachable = true then s7
        else addEdge s7 s7.currentNode s.nodes.length) j).entries
        = (nodeAt s7 j).entries := by
      split
      · rfl
      · exact entries_addEdge_of_ne _ _ _ j (by omega)
    rw [h8j]
    rw [st7.entries_stable j (by rw [hlen6]; omega)
      (by intro hx
          refine hjr (hx.trans ?_)
          show (addEdge (addEdge (pushNode (pushNode s2)) s2.currentNode s2.nodes.length) s2.currentNode (pushNode s2).nodes.length).returnJump = _
          simp only [addEdge_returnJump, pushNode_returnJump]
          exact hrj2)
      (by intro hx
          refine hje (hx.trans ?_)
          show (addEdge (addEdge (pushNode (pushNode s2)) s2.currentNode s2.nodes.length) s2.currentNode (pushNode s2).nodes.length).exceptionJump = _
          simp only [addEdge_exceptionJump, pushNode_exceptionJump]
          exact hej2)
      (by show j ∉ s2.nodes.length :: (addEdge (addEdge (pushNode (pushNode s2)) s2.currentNode s2.nodes.length) s2.currentNode (pushNode s2).nodes.length).breakJumps
          intro hmem
          rcases List.mem_cons.mp hmem with hx | hx
          · omega
          · simp only [addEdge_breakJumps, pushNode_breakJumps, hbj2] at hx
            exact hjb hx)
      (by show j ∉ s.nodes.length :: (addEdge (addEdge (pushNode (pushNode s2)) s2.currentNode s2.nodes.length) s2.currentNode (pushNode s2).nodes.length).continueJumps
          intro hmem
          rcases List.mem_cons.mp hmem with hx | hx
          · omega
          · simp only [addEdge_continueJumps, pushNode_continueJumps, hcj2] at hx
            exact hjc hx)]
    rw [nodeAt_withJumps,
      entries_addEdge_of_ne _ _ _ j (by rw [length_pushNode]; omega),
      entries_addEdge_of_ne _ _ _ j (by omega),
      nodeAt_pushNode, length_pushNode, if_neg (by omega),
      nodeAt_pushNode, if_neg (by omega)]
    rw [st2.entries_stable j (by rw [hlenC]; omega)
      (by intro hx
          refine hjr (hx.trans ?_)
          show (addEdge (pushNode s) s.currentNode s.nodes.length).returnJump = _
          simp)
      (by intro hx
          refine hje (hx.trans ?_)
          show (addEdge (pushNode s) s.currentNode s.nodes.length).exceptionJump = _
          simp)
      (by show j ∉ (addEdge (pushNode s) s.currentNode s.nodes.length).breakJumps
          simpa using hjb)
      (by show j ∉ (addEdge (pushNode s) s.currentNode s.nodes.length).continueJumps
          simpa using hjc)]
    rw [nodeAt_withCur, entries_addEdge_of_ne _ _ _ j (by omega),
      nodeAt_pushNode, if_neg (by omega)]
  · intro j hj hcur
    have hj2 : j < s2.nodes.length := by omega
    have hcur2 : j ≠ s2.currentNode := by
      rcases st2.cur_evo with hc | hc
      · rw [hc]
        show j ≠ s.nodes.length
        omega
      · rw [hlenC] at hc
        omega
    have hcur7 : j ≠ s7.currentNode := by
      rcases st7.cur_evo with hc | hc
      · rw [hc]
        show j ≠ (pushNode s2).nodes.length
        rw [length_pushNode]
        omega
      · rw [hlen6] at hc
        omega
    show (nodeAt (if s7.unreachable = true then s7
      else addEdge s7 s7.currentNode s.nodes.length) j).exits = _
    have h8j : (nodeAt (if s7.unreachable = true then s7
        else addEdge s7 s7.currentNode s.nodes.length) j).exits
        = (nodeAt s7 j).exits := by
      split
      · rfl
      · exact exits_addEdge_of_ne _ _ _ j hcur7
    rw [h8j]
    rw [st7.exits_stable j (by rw [hlen6]; omega)
      (by show j ≠ (pushNode s2).nodes.length
          rw [length_pushNode]
          omega)]
    rw [nodeAt_withJumps,
      exits_addEdge_of_ne _ _ _ j hcur2,
      exits_addEdge_of_ne _ _ _ j hcur2,
      nodeAt_pushNode, length_pushNode, if_neg (by omega),
      nodeAt_pushNode, if_neg (by omega)]
    rw [st2.exits_stable j (by rw [hlenC]; omega)
      (by show j ≠ s.nodes.length; omega)]
    rw [nodeAt_withCur, exits_addEdge_of_ne _ _ _ j hcur,
      nodeAt_pushNode, if_neg (by omega)]
  · intro j hj hcur
    have hj2 : j < s2.nodes.length := by omega
    have hcur2 : j ≠ s2.currentNode := by
      rcases st2.cur_evo with hc | hc
      · rw [hc]
        show j ≠ s.nodes.length
        omega
      · rw [hlenC] at hc
        omega
    show (nodeAt (if s7.unreachable = true then s7
      else addEdge s7 s7.currentNode s.nodes.length) j).block = _
    have h8j : (nodeAt (if s7.unreachable = true then s7
        else addEdge s7 s7.currentNode s.nodes.length) j).block
        = (nodeAt s7 j).block := by
      split
      · rfl
      · exact block_addEdge _ _ _ j
    rw [h8j]
    rw [st7.block_stable j (by rw [hlen6]; omega)
      (by show j ≠ (pushNode s2).nodes.length
          rw [length_pushNode]
          omega)]
    rw [nodeAt_withJumps, block_addEdge, block_addEdge,
      nodeAt_pushNode, length_pushNode, if_neg (by omega),
      nodeAt_pushNode, if_neg (by omega)]
    rw [st2.block_stable j (by rw [hlenC]; omega)
      (by show j ≠ s.nodes.length; omega)]
    rw [nodeAt_withCur, block_addEdge, nodeAt_pushNode, if_neg (by omega)]
  · intro p hp
    have hp7 : p ∈ s7.placeholders := by
      rw [← hphITE]
      exact hp
    rcases pOrigin p hp7 with hin | ⟨hl, hr⟩
    · exact Or.inl hin
    · refine Or.inr ⟨?_, by omega⟩
      rcases hl with hx | hx
      · rw [hx, length_pushNode]
        exact Or.inr (by omega)
      · exact Or.inr (by omega)

theorem placeholderCore (s : CFGState) (h : Inv s) :
    Inv ({ pushNode s with placeholders := s.placeholders ++ [(s.currentNode, s.nodes.length)], currentNode := s.nodes.length }) ∧
      Steps s ({ pushNode s with placeholders := s.placeholders ++ [(s.currentNode, s.nodes.length)], currentNode := s.nodes.length }) := by
  have base := h.pushNode
  obtain ⟨hb, hsym, hclt, hrlt, helt, hbjlt, hcjlt, hcr, hce, hcb, hcc, hcp⟩ := base
  constructor
  · refine ⟨hb, hsym, ?_, hrlt, helt, hbjlt, hcjlt, ?_, ?_, ?_, ?_, ?_⟩
    · show s.nodes.length < (pushNode s).nodes.length
      rw [length_pushNode]
      omega
    · show s.nodes.length ≠ s.returnJump
      have := h.rj_lt
      omega
    · show s.nodes.length ≠ s.exceptionJump
      have := h.ej_lt
      omega
    · show s.nodes.length ∉ s.breakJumps
      intro hmem
      have := h.bj_lt _ hmem
      omega
    · show s.nodes.length ∉ s.continueJumps
      intro hmem
      have := h.cj_lt _ hmem
      omega
    · intro p hp
      rcases List.mem_append.mp hp with hold | hnew
      · have hc := h.cuts p hold
        refine ⟨?_, ?_, ?_, hc.b_ne_rj, hc.b_ne_ej, hc.a_ne_rj, hc.a_ne_ej,
          hc.b_nin_bj, hc.b_nin_cj, hc.a_nin_bj, hc.a_nin_cj, ?_, ?_, ?_⟩
        · show p.1 < (pushNode s).nodes.length
          rw [length_pushNode]
          have := hc.b_lt
          omega
        · show p.2 < (pushNode s).nodes.length
          rw [length_pushNode]
          have := hc.a_lt
          omega
        · show p.1 ≠ s.nodes.length
          have := hc.b_lt
          omega
        · show (nodeAt (pushNode s) p.2).entries = []
          rw [nodeAt_pushNode, if_neg (by have := hc.a_lt; omega)]
          exact hc.a_entries
        · show p.2 ∉ (nodeAt (pushNode s) p.1).exits
          rw [nodeAt_pushNode, if_neg (by have := hc.b_lt; omega)]
          exact hc.no_edge_ba
        · show p.1 ∉ (nodeAt (pushNode s) p.2).exits
          rw [nodeAt_pushNode, if_neg (by have := hc.a_lt; omega)]
          exact hc.no_edge_ab
      · have hpe : p = (s.currentNode, s.nodes.length) := by simpa using hnew
        subst hpe
        refine ⟨?_, ?_, ?_, ?_, ?_, ?_, ?_, ?_, ?_, ?_, ?_, ?_, ?_, ?_⟩
        · show s.currentNode < (pushNode s).nodes.length
          rw [length_pushNode]
          have := h.cur_lt
          omega
        · show s.nodes.length < (pushNode s).nodes.length
          rw [length_pushNode]
          omega
        · show s.currentNode ≠ s.nodes.length
          have := h.cur_lt
          omega
        · exact h.cur_ne_rj
        · exact h.cur_ne_ej
        · show s.nodes.length ≠ s.returnJump
          have := h.rj_lt
          omega
        · show s.nodes.length ≠ s.exceptionJump
          have := h.ej_lt
          omega
        · exact h.cur_nin_bj
        · exact h.cur_nin_cj
        · show s.nodes.length ∉ s.breakJumps
          intro hmem
          have := h.bj_lt _ hmem
          omega
        · show s.nodes.length ∉ s.continueJumps
          intro hmem
          have := h.cj_lt _ hmem
          omega
        · show (nodeAt (pushNode s) s.nodes.length).entries = []
          rw [nodeAt_pushNode, if_pos rfl]
        · show s.nodes.length ∉ (nodeAt (pushNode s) s.currentNode).exits
          rw [nodeAt_pushNode, if_neg (by have := h.cur_lt; omega)]
          intro hmem
          have := (h.bounded s.currentNode h.cur_lt).2 _ hmem
          omega
        · show s.currentNode ∉ (nodeAt (pushNode s) s.nodes.length).exits
          rw [nodeAt_pushNode, if_pos rfl]
          simp
  · refine ⟨?_, rfl, rfl, rfl, rfl, Or.inr ?_, ?_, ?_, ?_, ?_⟩
    · show s.nodes.length ≤ (pushNode s).nodes.length
      rw [length_pushNode]
      omega
    · show s.nodes.length ≤ s.nodes.length
      omega
    · intro j hj _ _ _ _
      show (nodeAt (pushNode s) j).entries = _
      rw [nodeAt_pushNode, if_neg (by omega)]
    · intro j hj _
      show (nodeAt (pushNode s) j).exits = _
      rw [nodeAt_pushNode, if_neg (by omega)]
    · intro j hj _
      show (nodeAt (pushNode s) j).block = _
      rw [nodeAt_pushNode, if_neg (by omega)]
    · intro p hp
      rcases List.mem_append.mp hp with hold | hnew
      · exact Or.inl hold
      · have hpe : p = (s.currentNode, s.nodes.length) := by simpa using hnew
        subst hpe
        exact Or.inr ⟨Or.inl rfl, le_refl _⟩

mutual

theorem visitExpr_master : ∀ (e : Expr) (s : CFGState), Inv s →
    Inv (visitExpr s e) ∧ Steps s (visitExpr s e)
  | .atom i, s, h => by
    simp only [visitExpr]
    exact ⟨h.updCur _, steps_updCur s _⟩
  | .binop i .other l r, s, h => by
    obtain ⟨h1, st1⟩ := visitExpr_master l s h
    obtain ⟨h2, st2⟩ := visitExpr_master r _ h1
    simp only [visitExpr]
    exact ⟨h2.updCur _, st1.trans (st2.trans (steps_updCur _ _))⟩
  | .binop i .logicalAnd l r, s, h => by
    obtain ⟨h1, st1⟩ := visitExpr_master l s h
    obtain ⟨h5, st5⟩ := visitExpr_master r _ (scPrefixInv _ h1)
    simp only [visitExpr]
    exact scCore s _ _ i h1 st1 h5 st5
  | .binop i .logicalOr l r, s, h => by
    obtain ⟨h1, st1⟩ := visitExpr_master l s h
    obtain ⟨h5, st5⟩ := visitExpr_master r _ (scPrefixInv _ h1)
    simp only [visitExpr]
    exact scCore s _ _ i h1 st1 h5 st5
  | .call i .normal args, s, h => by
    obtain ⟨ha, sta⟩ := visitExprList_master args s h
    simp only [visitExpr]
    exact ⟨ha.updCur _, sta.trans (steps_updCur _ _)⟩
  | .call i .canFail args, s, h => by
    obtain ⟨ha, sta⟩ := visitExprList_master args s h
    obtain ⟨hc, stc⟩ := canFailCore (appendExpr (visitExprList s args) i) (ha.updCur _)
    simp only [visitExpr]
    exact ⟨hc, sta.trans ((steps_updCur _ _).trans stc)⟩
  | .call i .reverting args, s, h => by
    obtain ⟨ha, sta⟩ := visitExprList_master args s h
    have h1 : Inv (appendExpr (visitExprList s args) i) := ha.updCur _
    obtain ⟨hd, std⟩ := divergeEdgeCore _ h1 _ (Or.inr (Or.inl rfl))
    simp only [visitExpr]
    exact ⟨hd, sta.trans ((steps_updCur _ _).trans std)⟩

theorem visitExprList_master : ∀ (l : List Expr) (s : CFGState), Inv s →
    Inv (visitExprList s l) ∧ Steps s (visitExprList s l)
  | [], s, h => ⟨h, steps_refl s⟩
  | e :: es, s, h => by
    obtain ⟨h1, st1⟩ := visitExpr_master e s h
    obtain ⟨h2, st2⟩ := visitExprList_master es _ h1
    simp only [visitExprList]
    exact ⟨h2, st1.trans st2⟩

end

theorem visitStmt_master : ∀ (st : Stmt) (s : CFGState), Inv s →
    Inv (visitStmt s st) ∧ Steps s (visitStmt s st) := by
  intro st
  induction st with
  | skip =>
    intro s h
    simp only [visitStmt]
    exact ⟨h, steps_refl s⟩
  | seq a b iha ihb =>
    intro s h
    obtain ⟨h1, st1⟩ := iha s h
    obtain ⟨h2, st2⟩ := ihb _ h1
    simp only [visitStmt]
    exact ⟨h2, st1.trans st2⟩
  | exprStmt e =>
    intro s h
    simp only [visitStmt]
    exact visitExpr_master e s h
  | varDecl i iv =>
    intro s h
    cases iv with
    | none =>
      simp only [visitStmt]
      exact ⟨h.updCur _, steps_updCur s _⟩
    | some e =>
      obtain ⟨h1, st1⟩ := visitExpr_master e s h
      simp only [visitStmt]
      exact ⟨h1.updCur _, st1.trans (steps_updCur _ _)⟩
  | inlineAsm i =>
    intro s h
    simp only [visitStmt]
    exact ⟨h.updCur _, steps_updCur s _⟩
  | ret i v =>
    intro s h
    cases v with
    | none =>
      simp only [visitStmt]
      exact retCore s h i
    | some e =>
      obtain ⟨h1, st1⟩ := visitExpr_master e s h
      obtain ⟨h2, st2⟩ := retCore _ h1 i
      simp only [visitStmt]
      exact ⟨h2, st1.trans st2⟩
  | breakStmt =>
    intro s h
    cases hb : s.breakJumps with
    | nil =>
      simp only [visitStmt, hb]
      exact ⟨h.report _ _, steps_report s _ _⟩
    | cons t ts =>
      simp only [visitStmt, hb]
      exact divergeEdgeCore s h t
        (Or.inr (Or.inr (Or.inl (by rw [hb]; exact List.mem_cons_self _ _))))
  | continueStmt =>
    intro s h
    cases hc : s.continueJumps with
    | nil =>
      simp only [visitStmt, hc]
      exact ⟨h.report _ _, steps_report s _ _⟩
    | cons t ts =>
      simp only [visitStmt, hc]
      exact divergeEdgeCore s h t
        (Or.inr (Or.inr (Or.inr (by rw [hc]; exact List.mem_cons_self _ _))))
  | throwStmt =>
    intro s h
    simp only [visitStmt]
    exact divergeEdgeCore s h _ (Or.inr (Or.inl rfl))
  | ifStmt c t iht =>
    intro s h
    obtain ⟨h1, st1⟩ := visitExpr_master c s h
    obtain ⟨h5, st5⟩ := iht _ (scPrefixInv _ h1)
    simp only [visitStmt]
    exact ifCore s _ _ h1 st1 h5 st5
  | ifElseStmt c t f iht ihf =>
    intro s h
    obtain ⟨h1, st1⟩ := visitExpr_master c s h
    obtain ⟨h6, st6⟩ := iht _ (ifElsePrefixInv _ h1)
    obtain ⟨h8, st8⟩ := ihf _ (ifElseMidInv _ _ h1 h6 st6)
    simp only [visitStmt]
    exact ifElseCore s _ _ _ h1 st1 h6 st6 h8 st8
  | whileStmt c b ihb =>
    intro s h
    obtain ⟨h2, st2⟩ := visitExpr_master c _ (whileStartInv s h)
    have hph2 : (visitExpr ({ addEdge (pushNode s) s.currentNode s.nodes.length with currentNode := s.nodes.length }) c).placeholders = s.placeholders := by
      rw [visitExpr_ph]
      simp
    obtain ⟨h7, st7⟩ := ihb _ (whileMidInv s _ h h2 st2 hph2)
    simp only [visitStmt]
    exact whileCore s _ _ h h2 st2 hph2 h7 st7
  | placeholder =>
    intro s h
    simp only [visitStmt]
    exact placeholderCore s h

theorem nodeExt (a b : CFGNode) (h1 : a.entries = b.entries)
    (h2 : a.exits = b.exits) (h3 : a.block = b.block) : a = b := by
  cases a
  cases b
  congr 1

theorem arenaWF_pushNode (hA : ArenaWF s) : ArenaWF (pushNode s) := by
  obtain ⟨hb, hs⟩ := hA
  constructor
  · intro i hi
    rw [length_pushNode] at hi
    rw [nodeAt_pushNode]
    split
    · simp
    · rename_i hne
      have hi2 : i < s.nodes.length := by omega
      exact ⟨fun j hj => by have := (hb i hi2).1 j hj; rw [length_pushNode]; omega,
             fun j hj => by have := (hb i hi2).2 j hj; rw [length_pushNode]; omega⟩
  · intro i hi j hj
    rw [length_pushNode] at hi hj
    rw [nodeAt_pushNode, nodeAt_pushNode]
    by_cases h1 : i = s.nodes.length <;> by_cases h2 : j = s.nodes.length
    · subst h1
      rw [if_pos rfl, if_pos h2]
      simp
    · subst h1
      rw [if_pos rfl, if_neg h2]
      have hj2 : j < s.nodes.length := by omega
      constructor
      · intro hx
        simp at hx
      · intro hx
        exact absurd ((hb j hj2).1 _ hx) (by omega)
    · subst h2
      rw [if_neg h1, if_pos rfl]
      have hi2 : i < s.nodes.length := by omega
      constructor
      · intro hx
        exact absurd ((hb i hi2).2 _ hx) (by omega)
      · intro hx
        simp at hx
    · rw [if_neg h1, if_neg h2]
      exact hs i (by omega) j (by omega)

theorem runSubprogram_master (s : CFGState) (body : Stmt) (hA : ArenaWF s) :
    Inv (runSubprogram s body).2 ∧
    s.nodes.length + 3 ≤ (runSubprogram s body).2.nodes.length ∧
    (∀ i, i < s.nodes.length → nodeAt (runSubprogram s body).2 i = nodeAt s i) ∧
    (runSubprogram s body).1.entry = s.nodes.length ∧
    (runSubprogram s body).1.exit = s.nodes.length + 1 ∧
    (runSubprogram s body).1.exception = s.nodes.length + 2 ∧
    (nodeAt (runSubprogram s body).2 s.nodes.length).entries = [] ∧
    (nodeAt (runSubprogram s body).2 (s.nodes.length + 1)).exits = [] ∧
    (nodeAt (runSubprogram s body).2 (s.nodes.length + 2)).exits = [] ∧
    (runSubprogram s body).2.placeholders.length = countPlaceholders body := by
  have hA3 : ArenaWF (pushNode (pushNode (pushNode s))) :=
    arenaWF_pushNode (arenaWF_pushNode (arenaWF_pushNode hA))
  have hInv4 : Inv ({ pushNode (pushNode (pushNode s)) with
      returnJump := (pushNode s).nodes.length,
      exceptionJump := (pushNode (pushNode s)).nodes.length,
      breakJumps := [], continueJumps := [],
      currentNode := s.nodes.length, unreachable := false,
      placeholders := [] }) := by
    refine ⟨hA3.1, hA3.2, ?_, ?_, ?_, ?_, ?_, ?_, ?_, ?_, ?_, ?_⟩
    · show s.nodes.length < (pushNode (pushNode (pushNode s))).nodes.length
      simp only [length_pushNode]
      omega
    · show (pushNode s).nodes.length < (pushNode (pushNode (pushNode s))).nodes.length
      simp only [length_pushNode]
      omega
    · show (pushNode (pushNode s)).nodes.length <
        (pushNode (pushNode (pushNode s))).nodes.length
      simp only [length_pushNode]
      omega
    · intro t ht
      exact absurd ht (List.not_mem_nil t)
    · intro t ht
      exact absurd ht (List.not_mem_nil t)
    · show s.nodes.length ≠ (pushNode s).nodes.length
      rw [length_pushNode]
      omega
    · show s.nodes.length ≠ (pushNode (pushNode s)).nodes.length
      simp only [length_pushNode]
      omega
    · exact List.not_mem_nil _
    · exact List.not_mem_nil _
    · intro p hp
      exact absurd hp (List.not_mem_nil p)
  obtain ⟨h5, st5⟩ := visitStmt_master body _ hInv4
  have hlen4 : ({ pushNode (pushNode (pushNode s)) with returnJump := (pushNode s).nodes.length, exceptionJump := (pushNode (pushNode s)).nodes.length, breakJumps := [], continueJumps := [], currentNode := s.nodes.length, unreachable := false, placeholders := [] } : CFGState).nodes.length = s.nodes.length + 3 := by
    simp [length_pushNode]
  have hlen5 : s.nodes.length + 3 ≤ (visitStmt ({ pushNode (pushNode (pushNode s)) with returnJump := (pushNode s).nodes.length, exceptionJump := (pushNode (pushNode s)).nodes.length, breakJumps := [], continueJumps := [], currentNode := s.nodes.length, unreachable := false, placeholders := [] }) body).nodes.length := by
    have h := st5.len_le
    rwa [hlen4] at h
  have hrj5 : (visitStmt ({ pushNode (pushNode (pushNode s)) with returnJump := (pushNode s).nodes.length, exceptionJump := (pushNode (pushNode s)).nodes.length, breakJumps := [], continueJumps := [], currentNode := s.nodes.length, unreachable := false, placeholders := [] }) body).returnJump = (pushNode s).nodes.length := by
    simpa using st5.rj_eq
  have hej5 : (visitStmt ({ pushNode (pushNode (pushNode s)) with returnJump := (pushNode s).nodes.length, exceptionJump := (pushNode (pushNode s)).nodes.length, breakJumps := [], continueJumps := [], currentNode := s.nodes.length, unreachable := false, placeholders := [] }) body).exceptionJump = (pushNode (pushNode s)).nodes.length := by
    simpa using st5.ej_eq
  have hcur5 : (visitStmt ({ pushNode (pushNode (pushNode s)) with returnJump := (pushNode s).nodes.length, exceptionJump := (pushNode (pushNode s)).nodes.length, breakJumps := [], continueJumps := [], currentNode := s.nodes.length, unreachable := false, placeholders := [] }) body).currentNode = s.nodes.length ∨ s.nodes.length + 3 ≤ (visitStmt ({ pushNode (pushNode (pushNode s)) with returnJump := (pushNode s).nodes.length, exceptionJump := (pushNode (pushNode s)).nodes.length, breakJumps := [], continueJumps := [], currentNode := s.nodes.length, unreachable := false, placeholders := [] }) body).currentNode := by
    have h := st5.cur_evo
    rw [hlen4] at h
    simpa using h
  have hold : ∀ i, i < s.nodes.length → nodeAt (visitStmt ({ pushNode (pushNode (pushNode s)) with returnJump := (pushNode s).nodes.length, exceptionJump := (pushNode (pushNode s)).nodes.length, breakJumps := [], continueJumps := [], currentNode := s.nodes.length, unreachable := false, placeholders := [] }) body) i = nodeAt s i := by
    intro i hi
    refine nodeExt _ _ ?_ ?_ ?_
    · rw [st5.entries_stable i (by rw [hlen4]; omega)
        (by show i ≠ (pushNode s).nodes.length; rw [length_pushNode]; omega)
        (by show i ≠ (pushNode (pushNode s)).nodes.length
            simp only [length_pushNode]; omega)
        (List.not_mem_nil i) (List.not_mem_nil i)]
      rw [nodeAt_withReset, nodeAt_pushNode,
        if_neg (by simp only [length_pushNode]; omega),
        nodeAt_pushNode, if_neg (by simp only [length_pushNode]; omega),
        nodeAt_pushNode, if_neg (by omega)]
    · rw [st5.exits_stable i (by rw [hlen4]; omega)
        (by show i ≠ s.nodes.length; omega)]
      rw [nodeAt_withReset, nodeAt_pushNode,
        if_neg (by simp only [length_pushNode]; omega),
        nodeAt_pushNode, if_neg (by simp only [length_pushNode]; omega),
        nodeAt_pushNode, if_neg (by omega)]
    · rw [st5.block_stable i (by rw [hlen4]; omega)
        (by show i ≠ s.nodes.length; omega)]
      rw [nodeAt_withReset, nodeAt_pushNode,
        if_neg (by simp only [length_pushNode]; omega),
        nodeAt_pushNode, if_neg (by simp only [length_pushNode]; omega),
        nodeAt_pushNode, if_neg (by omega)]
  have hen5 : (nodeAt (visitStmt ({ pushNode (pushNode (pushNode s)) with returnJump := (pushNode s).nodes.length, exceptionJump := (pushNode (pushNode s)).nodes.length, breakJumps := [], continueJumps := [], currentNode := s.nodes.length, unreachable := false, placeholders := [] }) body) s.nodes.length).entries = [] := by
    rw [st5.entries_stable s.nodes.length (by rw [hlen4]; omega)
      (by show s.nodes.length ≠ (pushNode s).nodes.length
          rw [length_pushNode]; omega)
      (by show s.nodes.length ≠ (pushNode (pushNode s)).nodes.length
          simp only [length_pushNode]; omega)
      (List.not_mem_nil _) (List.not_mem_nil _)]
    rw [nodeAt_withReset, nodeAt_pushNode,
      if_neg (by simp only [length_pushNode]; omega),
      nodeAt_pushNode, if_neg (by simp only [length_pushNode]; omega),
      nodeAt_pushNode, if_pos rfl]
  have hex5 : (nodeAt (visitStmt ({ pushNode (pushNode (pushNode s)) with returnJump := (pushNode s).nodes.length, exceptionJump := (pushNode (pushNode s)).nodes.length, breakJumps := [], continueJumps := [], currentNode := s.nodes.length, unreachable := false, placeholders := [] }) body) (s.nodes.length + 1)).exits = [] := by
    rw [st5.exits_stable (s.nodes.length + 1) (by rw [hlen4]; omega)
      (by show s.nodes.length + 1 ≠ s.nodes.length; omega)]
    rw [nodeAt_withReset, nodeAt_pushNode,
      if_neg (by simp only [length_pushNode]; omega),
      nodeAt_pushNode, if_pos (by rw [length_pushNode])]
  have hexc5 : (nodeAt (visitStmt ({ pushNode (pushNode (pushNode s)) with returnJump := (pushNode s).nodes.length, exceptionJump := (pushNode (pushNode s)).nodes.length, breakJumps := [], continueJumps := [], currentNode := s.nodes.length, unreachable := false, placeholders := [] }) body) (s.nodes.length + 2)).exits = [] := by
    rw [st5.exits_stable (s.nodes.length + 2) (by rw [hlen4]; omega)
      (by show s.nodes.length + 2 ≠ s.nodes.length; omega)]
    rw [nodeAt_withReset, nodeAt_pushNode,
      if_pos (by simp only [length_pushNode])]
  have hph5 : (visitStmt ({ pushNode (pushNode (pushNode s)) with returnJump := (pushNode s).nodes.length, exceptionJump := (pushNode (pushNode s)).nodes.length, breakJumps := [], continueJumps := [], currentNode := s.nodes.length, unreachable := false, placeholders := [] }) body).placeholders.length = countPlaceholders body := by
    have h := visitStmt_ph_len body ({ pushNode (pushNode (pushNode s)) with returnJump := (pushNode s).nodes.length, exceptionJump := (pushNode (pushNode s)).nodes.length, breakJumps := [], continueJumps := [], currentNode := s.nodes.length, unreachable := false, placeholders := [] })
    simpa using h
  have hrun : runSubprogram s body = (⟨s.nodes.length, (pushNode s).nodes.length, (pushNode (pushNode s)).nodes.length⟩, if (visitStmt ({ pushNode (pushNode (pushNode s)) with returnJump := (pushNode s).nodes.length, exceptionJump := (pushNode (pushNode s)).nodes.length, breakJumps := [], continueJumps := [], currentNode := s.nodes.length, unreachable := false, placeholders := [] }) body).unreachable = true then visitStmt ({ pushNode (pushNode (pushNode s)) with returnJump := (pushNode s).nodes.length, exceptionJump := (pushNode (pushNode s)).nodes.length, breakJumps := [], continueJumps := [], currentNode := s.nodes.length, unreachable := false, placeholders := [] }) body else addEdge (visitStmt ({ pushNode (pushNode (pushNode s)) with returnJump := (pushNode s).nodes.length, exceptionJump := (pushNode (pushNode s)).nodes.length, breakJumps := [], continueJumps := [], currentNode := s.nodes.length, unreachable := false, placeholders := [] }) body) (visitStmt ({ pushNode (pushNode (pushNode s)) with returnJump := (pushNode s).nodes.length, exceptionJump := (pushNode (pushNode s)).nodes.length, breakJumps := [], continueJumps := [], currentNode := s.nodes.length, unreachable := false, placeholders := [] }) body).currentNode ((pushNode s).nodes.length)) := rfl
  rw [hrun]
  clear hrun hInv4 hlen4 hA3 hA st5
  revert h5 hlen5 hrj5 hej5 hcur5 hold hen5 hex5 hexc5 hph5
  generalize visitStmt ({ pushNode (pushNode (pushNode s)) with returnJump := (pushNode s).nodes.length, exceptionJump := (pushNode (pushNode s)).nodes.length, breakJumps := [], continueJumps := [], currentNode := s.nodes.length, unreachable := false, placeholders := [] }) body = t
  intro h5 hlen5 hrj5 hej5 hcur5 hold hen5 hex5 hexc5 hph5
  have hl1 : (pushNode s).nodes.length = s.nodes.length + 1 := by rw [length_pushNode]
  have hl2 : (pushNode (pushNode s)).nodes.length = s.nodes.length + 2 := by
    rw [length_pushNode, length_pushNode]
  rw [hl1] at hrj5
  rw [hl2] at hej5
  rw [hl1, hl2]
  refine ⟨?_, ?_, ?_, rfl, rfl, rfl, ?_, ?_, ?_, ?_⟩
  · show Inv (if t.unreachable = true then t else addEdge t t.currentNode (s.nodes.length + 1))
    split
    · exact h5
    · refine h5.addEdge h5.cur_lt (by omega) ?_ ?_
      · intro p hp
        exact fun hx => (h5.cuts p hp).b_ne_cur hx.symm
      · intro p hp
        have hc := h5.cuts p hp
        refine ⟨fun hx => hc.b_ne_rj ?_, fun hx => hc.a_ne_rj ?_⟩
        · rw [hrj5, ← hx]
        · rw [hrj5, ← hx]
  · show s.nodes.length + 3 ≤ (if t.unreachable = true then t else addEdge t t.currentNode (s.nodes.length + 1)).nodes.length
    split
    · exact hlen5
    · rw [length_addEdge]
      exact hlen5
  · show ∀ i, i < s.nodes.length → nodeAt (if t.unreachable = true then t else addEdge t t.currentNode (s.nodes.length + 1)) i = nodeAt s i
    intro i hi
    split
    · exact hold i hi
    · refine nodeExt _ _ ?_ ?_ ?_
      · rw [entries_addEdge_of_ne _ _ _ i (by omega), hold i hi]
      · have hne : i ≠ t.currentNode := by
          rcases hcur5 with hc | hc <;> omega
        rw [exits_addEdge_of_ne _ _ _ i hne, hold i hi]
      · rw [block_addEdge, hold i hi]
  · show (nodeAt (if t.unreachable = true then t else addEdge t t.currentNode (s.nodes.length + 1)) s.nodes.length).entries = []
    split
    · exact hen5
    · rw [entries_addEdge_of_ne _ _ _ _ (by omega)]
      exact hen5
  · show (nodeAt (if t.unreachable = true then t else addEdge t t.currentNode (s.nodes.length + 1)) (s.nodes.length + 1)).exits = []
    split
    · exact hex5
    · rw [exits_addEdge_of_ne _ _ _ _ ?_]
      · exact hex5
      · intro hx
        refine h5.cur_ne_rj ?_
        rw [hrj5, ← hx]
  · show (nodeAt (if t.unreachable = true then t else addEdge t t.currentNode (s.nodes.length + 1)) (s.nodes.length + 2)).exits = []
    split
    · exact hexc5
    · rw [exits_addEdge_of_ne _ _ _ _ ?_]
      · exact hexc5
      · intro hx
        refine h5.cur_ne_ej ?_
        rw [hej5, ← hx]
  · show (if t.unreachable = true then t else addEdge t t.currentNode (s.nodes.length + 1)).placeholders.length = countPlaceholders body
    split
    · exact hph5
    · rw [addEdge_placeholders]
      exact hph5


theorem runDefs_nil (s : CFGState) : runDefs s [] = ([], [], s) := rfl

theorem runDefs_fun (s : CFGState) (i : Nat) (b : Stmt) (ds : List Definition) :
    runDefs s (Definition.functionDef i b :: ds) =
      ((i, (runSubprogram s b).1) :: (runDefs (runSubprogram s b).2 ds).1,
       (runDefs (runSubprogram s b).2 ds).2.1,
       (runDefs (runSubprogram s b).2 ds).2.2) := rfl

theorem runDefs_mod (s : CFGState) (i : Nat) (b : Stmt) (ds : List Definition) :
    runDefs s (Definition.modifierDef i b :: ds) =
      ((runDefs (runSubprogram s b).2 ds).1,
       (i, ⟨(runSubprogram s b).1, (runSubprogram s b).2.placeholders⟩) ::
         (runDefs (runSubprogram s b).2 ds).2.1,
       (runDefs (runSubprogram s b).2 ds).2.2) := rfl

theorem runDefs_fun_fst (s : CFGState) (i : Nat) (b : Stmt) (ds : List Definition) :
    (runDefs s (Definition.functionDef i b :: ds)).1 =
      (i, (runSubprogram s b).1) :: (runDefs (runSubprogram s b).2 ds).1 := rfl

theorem runDefs_fun_mid (s : CFGState) (i : Nat) (b : Stmt) (ds : List Definition) :
    (runDefs s (Definition.functionDef i b :: ds)).2.1 =
      (runDefs (runSubprogram s b).2 ds).2.1 := rfl

theorem runDefs_fun_snd (s : CFGState) (i : Nat) (b : Stmt) (ds : List Definition) :
    (runDefs s (Definition.functionDef i b :: ds)).2.2 =
      (runDefs (runSubprogram s b).2 ds).2.2 := rfl

theorem runDefs_mod_fst (s : CFGState) (i : Nat) (b : Stmt) (ds : List Definition) :
    (runDefs s (Definition.modifierDef i b :: ds)).1 =
      (runDefs (runSubprogram s b).2 ds).1 := rfl

theorem runDefs_mod_mid (s : CFGState) (i : Nat) (b : Stmt) (ds : List Definition) :
    (runDefs s (Definition.modifierDef i b :: ds)).2.1 =
      (i, ⟨(runSubprogram s b).1, (runSubprogram s b).2.placeholders⟩) ::
        (runDefs (runSubprogram s b).2 ds).2.1 := rfl

theorem runDefs_mod_snd (s : CFGState) (i : Nat) (b : Stmt) (ds : List Definition) :
    (runDefs s (Definition.modifierDef i b :: ds)).2.2 =
      (runDefs (runSubprogram s b).2 ds).2.2 := rfl

theorem arenaWF_initial : ArenaWF initialState := by
  have h0 : initialState.nodes.length = 0 := rfl
  constructor
  · intro i hi
    rw [h0] at hi
    exact absurd hi (Nat.not_lt_zero i)
  · intro i hi
    rw [h0] at hi
    exact absurd hi (Nat.not_lt_zero i)

theorem runDefs_master : ∀ (ds : List Definition) (s : CFGState), ArenaWF s →
    ArenaWF (runDefs s ds).2.2 ∧
    s.nodes.length ≤ (runDefs s ds).2.2.nodes.length ∧
    (∀ i, i < s.nodes.length → nodeAt (runDefs s ds).2.2 i = nodeAt s i) ∧
    (∀ f ∈ (runDefs s ds).1, FlowOK (runDefs s ds).2.2 f.2) ∧
    (∀ m ∈ (runDefs s ds).2.1, FlowOK (runDefs s ds).2.2 m.2.toFunctionFlow) := by
  intro ds
  induction ds with
  | nil =>
    intro s hA
    rw [runDefs_nil]
    refine ⟨hA, Nat.le_refl _, fun i _ => rfl, ?_, ?_⟩
    · intro f hf
      exact absurd hf (List.not_mem_nil f)
    · intro m hm
      exact absurd hm (List.not_mem_nil m)
  | cons d ds ih =>
    cases d with
    | functionDef n b =>
      intro s hA
      obtain ⟨hInv, hlen, hold, hent, hexi, hexc, henE, hexE, hexcE, hph⟩ :=
        runSubprogram_master s b hA
      obtain ⟨ihA, ihlen, ihold, ihf, ihm⟩ :=
        ih (runSubprogram s b).2 ⟨hInv.bounded, hInv.symm⟩
      rw [runDefs_fun_fst, runDefs_fun_mid, runDefs_fun_snd]
      refine ⟨ihA, by omega, ?_, ?_, ihm⟩
      · intro i hi
        rw [ihold i (by omega)]
        exact hold i hi
      · intro f hf
        rcases List.mem_cons.mp hf with hf | hf
        · subst hf
          refine ⟨?_, ?_, ?_, ?_, ?_, ?_⟩
          · show (runSubprogram s b).1.entry < _
            rw [hent]
            omega
          · show (runSubprogram s b).1.exit < _
            rw [hexi]
            omega
          · show (runSubprogram s b).1.exception < _
            rw [hexc]
            omega
          · show (nodeAt _ (runSubprogram s b).1.entry).entries = []
            rw [hent, ihold _ (by omega)]
            exact henE
          · show (nodeAt _ (runSubprogram s b).1.exit).exits = []
            rw [hexi, ihold _ (by omega)]
            exact hexE
          · show (nodeAt _ (runSubprogram s b).1.exception).exits = []
            rw [hexc, ihold _ (by omega)]
            exact hexcE
        · exact ihf f hf
    | modifierDef n b =>
      intro s hA
      obtain ⟨hInv, hlen, hold, hent, hexi, hexc, henE, hexE, hexcE, hph⟩ :=
        runSubprogram_master s b hA
      obtain ⟨ihA, ihlen, ihold, ihf, ihm⟩ :=
        ih (runSubprogram s b).2 ⟨hInv.bounded, hInv.symm⟩
      rw [runDefs_mod_fst, runDefs_mod_mid, runDefs_mod_snd]
      refine ⟨ihA, by omega, ?_, ihf, ?_⟩
      · intro i hi
        rw [ihold i (by omega)]
        exact hold i hi
      · intro m hm
        rcases List.mem_cons.mp hm with hm | hm
        · subst hm
          refine ⟨?_, ?_, ?_, ?_, ?_, ?_⟩
          · show (runSubprogram s b).1.entry < _
            rw [hent]
            omega
          · show (runSubprogram s b).1.exit < _
            rw [hexi]
            omega
          · show (runSubprogram s b).1.exception < _
            rw [hexc]
            omega
          · show (nodeAt _ (runSubprogram s b).1.entry).entries = []
            rw [hent, ihold _ (by omega)]
            exact henE
          · show (nodeAt _ (runSubprogram s b).1.exit).exits = []
            rw [hexi, ihold _ (by omega)]
            exact hexE
          · show (nodeAt _ (runSubprogram s b).1.exception).exits = []
            rw [hexc, ihold _ (by omega)]
            exact hexcE
        · exact ihm m hm


/-- C1: Edge symmetry: for every pair of CFG nodes A and B in the graph after
any construction run, B is a member of A.exits if and only if A is a member of
B.entries; every edge added via addEdge is recorded symmetrically in both the
source's exits list and the target's entries list, so no one-sided edge ever
exists. -/
theorem c1_edge_symmetry (root : List Definition) (i j : Nat)
    (hi : i < (constructFlow root).2.state.nodes.length)
    (hj : j < (constructFlow root).2.state.nodes.length) :
    (j ∈ (nodeAt (constructFlow root).2.state i).exits ↔
      i ∈ (nodeAt (constructFlow root).2.state j).entries) ∧
    (∀ (s : CFGState) (f t : Nat), f < s.nodes.length → t < s.nodes.length →
      t ∈ (nodeAt (addEdge s f t) f).exits ∧
      f ∈ (nodeAt (addEdge s f t) t).entries) := by
  constructor
  · have h := (runDefs_master root initialState arenaWF_initial).1
    have hs : (constructFlow root).2.state = (runDefs initialState root).2.2 := rfl
    rw [hs] at hi hj ⊢
    exact h.2 i hi j hj
  · intro s f t hf ht
    constructor
    · rw [exits_addEdge s f t hf f, if_pos rfl]
      exact List.mem_append_right _ (List.mem_singleton.mpr rfl)
    · rw [entries_addEdge s f t ht t, if_pos rfl]
      exact List.mem_append_right _ (List.mem_singleton.mpr rfl)

theorem c1_edge_symmetry_witness :
    (1 ∈ (nodeAt (constructFlow [Definition.functionDef 0
        (Stmt.exprStmt (Expr.atom 1))]).2.state 0).exits ↔
      0 ∈ (nodeAt (constructFlow [Definition.functionDef 0
        (Stmt.exprStmt (Expr.atom 1))]).2.state 1).entries) :=
  (c1_edge_symmetry [Definition.functionDef 0 (Stmt.exprStmt (Expr.atom 1))]
    0 1 (by decide) (by decide)).1

/-- C2: Anchor shape: for every FunctionFlow and ModifierFlow produced by a
construction run, the entry anchor node has an empty entries list, the exit
anchor node has an empty exits list, and the exception anchor node has an
empty exits list. -/
theorem c2_anchor_shape (root : List Definition) :
    (∀ f ∈ (constructFlow root).2.functionFlows,
      (nodeAt (constructFlow root).2.state f.2.entry).entries = [] ∧
      (nodeAt (constructFlow root).2.state f.2.exit).exits = [] ∧
      (nodeAt (constructFlow root).2.state f.2.exception).exits = []) ∧
    (∀ m ∈ (constructFlow root).2.modifierFlows,
      (nodeAt (constructFlow root).2.state m.2.entry).entries = [] ∧
      (nodeAt (constructFlow root).2.state m.2.exit).exits = [] ∧
      (nodeAt (constructFlow root).2.state m.2.exception).exits = []) := by
  obtain ⟨hA, hlen, hold, hf, hm⟩ := runDefs_master root initialState arenaWF_initial
  constructor
  · intro f hfm
    have h := hf f hfm
    exact ⟨h.2.2.2.1, h.2.2.2.2.1, h.2.2.2.2.2⟩
  · intro m hmm
    have h := hm m hmm
    exact ⟨h.2.2.2.1, h.2.2.2.2.1, h.2.2.2.2.2⟩

theorem c2_anchor_shape_witness :
    (nodeAt (constructFlow [Definition.modifierDef 0 Stmt.placeholder]).2.state 0).entries = [] ∧
    (nodeAt (constructFlow [Definition.modifierDef 0 Stmt.placeholder]).2.state 1).exits = [] ∧
    (nodeAt (constructFlow [Definition.modifierDef 0 Stmt.placeholder]).2.state 2).exits = [] :=
  (c2_anchor_shape [Definition.modifierDef 0 Stmt.placeholder]).2
    ⟨0, ⟨⟨0, 1, 2⟩, [(0, 3)]⟩⟩ (by decide)

/-- C3: Total-divergence propagation: in the flow of `c3Body`
(`if (a) return; else revert();` followed by a further statement), the
synthesized merge node (node 5) has zero entries, the exit anchor has exactly
one entry (from the return branch, node 3), the exception anchor has exactly
one entry (from the revert branch, node 4), and the statement lexically
following the conditional is recorded into node 5, which has zero entries. -/
theorem c3_total_divergence :
    (nodeAt (constructFunctionFlow c3Body).2 5).entries = [] ∧
    (nodeAt (constructFunctionFlow c3Body).2
      (constructFunctionFlow c3Body).1.exit).entries = [3] ∧
    (nodeAt (constructFunctionFlow c3Body).2
      (constructFunctionFlow c3Body).1.exception).entries = [4] ∧
    (nodeAt (constructFunctionFlow c3Body).2 5).block.expressions = [3] := by
  decide

/-- C4: Placeholder non-connection: for every modifier body containing exactly
one placeholder statement, the resulting ModifierFlow records exactly one
placeholder cut, and the two nodes of every recorded cut have no edge between
them in either direction; visiting a placeholder continues with currentNode
set to the fresh after-node and appends the cut at the end of the list, so
cuts appear in source encounter order (illustrated on the two-placeholder
body `c4Body2`). -/
theorem c4_placeholder_cut (body : Stmt) (h1 : countPlaceholders body = 1) :
    ((constructModifierFlow body).1.placeholders.length = 1 ∧
     ∀ p ∈ (constructModifierFlow body).1.placeholders,
       p.2 ∉ (nodeAt (constructModifierFlow body).2 p.1).exits ∧
       p.1 ∉ (nodeAt (constructModifierFlow body).2 p.2).exits) ∧
    (∀ s : CFGState,
      (visitStmt s Stmt.placeholder).currentNode = s.nodes.length ∧
      (visitStmt s Stmt.placeholder).placeholders =
        s.placeholders ++ [(s.currentNode, s.nodes.length)]) ∧
    (constructModifierFlow c4Body2).1.placeholders = [(0, 3), (3, 4)] := by
  obtain ⟨hInv, hlen, hold, hent, hexi, hexc, henE, hexE, hexcE, hph⟩ :=
    runSubprogram_master initialState body arenaWF_initial
  refine ⟨⟨?_, ?_⟩, ?_, by decide⟩
  · show (runSubprogram initialState body).2.placeholders.length = 1
    rw [hph, h1]
  · intro p hp
    have hc := hInv.cuts p hp
    exact ⟨hc.no_edge_ba, hc.no_edge_ab⟩
  · intro s
    exact ⟨(visitStmt_placeholder_eq s).2.1, (visitStmt_placeholder_eq s).1⟩

theorem c4_placeholder_cut_witness :
    countPlaceholders Stmt.placeholder = 1 ∧
    (constructModifierFlow Stmt.placeholder).1.placeholders.length = 1 :=
  ⟨by decide, (c4_placeholder_cut Stmt.placeholder (by decide)).1.1⟩

/-- C5: constructFlow return value: for every AST root, constructFlow returns
false if and only if at least one diagnostic of error severity was reported
during the call, and returns true otherwise; in either case the graph data
and the lookup tables hold exactly what the traversal produced. -/
theorem c5_constructFlow_result (root : List Definition) :
    ((constructFlow root).1 = false ↔
      ∃ d ∈ (constructFlow root).2.state.diagnostics,
        d.severity = Severity.error) ∧
    (constructFlow root).2.functionFlows = (runDefs initialState root).1 ∧
    (constructFlow root).2.modifierFlows = (runDefs initialState root).2.1 ∧
    (constructFlow root).2.state = (runDefs initialState root).2.2 := by
  refine ⟨?_, rfl, rfl, rfl⟩
  show ((!((runDefs initialState root).2.2.diagnostics.any
      (fun d => d.severity == Severity.error))) = false) ↔
    ∃ d ∈ (runDefs initialState root).2.2.diagnostics,
      d.severity = Severity.error
  simp [List.any_eq_true]

/-- C6: Break routing in loops: in the flow of `c6Body`
(`while (cond) { if (x) break; stmtA; }`), the loop-exit node (node 4) has
exactly two entries — the false-condition edge from the fork (node 3) and the
break edge (node 6) — the node holding stmtA (node 7) has exactly one entry
(the false branch of the inner if, node 5), and after the whole loop construct
the builder's currentNode is the loop-exit node. -/
theorem c6_break_routing :
    (constructFunctionFlow c6Body).2.currentNode = 4 ∧
    (nodeAt (constructFunctionFlow c6Body).2 4).entries = [3, 6] ∧
    (nodeAt (constructFunctionFlow c6Body).2 7).entries = [5] ∧
    (nodeAt (constructFunctionFlow c6Body).2 7).block.expressions = [3] := by
  decide

/-- C7: Short-circuit exposure: in the flow of `c7Body` (`a && f()`), the call
`f()` is recorded on node 3, which is reachable only along the
evaluate-right-operand edge out of the fork (its entry list is exactly the
fork node 0), the fork's exits are the right-operand node and the merge node,
and the merge node (node 4) has exactly two entries: the skip edge from the
fork and the edge from the right-operand node. -/
theorem c7_short_circuit :
    (nodeAt (constructFunctionFlow c7Body).2 3).block.expressions = [2] ∧
    (nodeAt (constructFunctionFlow c7Body).2 3).entries = [0] ∧
    (nodeAt (constructFunctionFlow c7Body).2 0).exits = [3, 4] ∧
    (nodeAt (constructFunctionFlow c7Body).2 4).entries = [0, 3] := by
  decide

theorem canFailFanout (A : CFGState) (hn : A.currentNode < A.nodes.length) (hej : A.exceptionJump < A.nodes.length) :
    (nodeAt { addEdge (addEdge (pushNode A) A.currentNode A.nodes.length) A.currentNode (addEdge (pushNode A) A.currentNode A.nodes.length).exceptionJump with currentNode := A.nodes.length } A.currentNode).exits = (nodeAt A A.currentNode).exits ++ [A.nodes.length, A.exceptionJump] ∧
    ({ addEdge (addEdge (pushNode A) A.currentNode A.nodes.length) A.currentNode (addEdge (pushNode A) A.currentNode A.nodes.length).exceptionJump with currentNode := A.nodes.length } : CFGState).currentNode = A.nodes.length ∧
    (nodeAt { addEdge (addEdge (pushNode A) A.currentNode A.nodes.length) A.currentNode (addEdge (pushNode A) A.currentNode A.nodes.length).exceptionJump with currentNode := A.nodes.length } A.nodes.length).entries = [A.currentNode] := by
  have hej2 : (addEdge (pushNode A) A.currentNode A.nodes.length).exceptionJump
      = A.exceptionJump := by simp
  refine ⟨?_, rfl, ?_⟩
  · rw [nodeAt_withCur, hej2]
    rw [exits_addEdge (addEdge (pushNode A) A.currentNode A.nodes.length)
      A.currentNode A.exceptionJump (by rw [length_addEdge, length_pushNode]; omega)
      A.currentNode]
    rw [if_pos rfl]
    rw [exits_addEdge (pushNode A) A.currentNode A.nodes.length
      (by rw [length_pushNode]; omega) A.currentNode]
    rw [if_pos rfl]
    rw [nodeAt_pushNode, if_neg (by omega), List.append_assoc]
    rfl
  · rw [nodeAt_withCur, hej2]
    rw [entries_addEdge_of_ne (addEdge (pushNode A) A.currentNode A.nodes.length)
      A.currentNode A.exceptionJump A.nodes.length (by omega)]
    rw [entries_addEdge (pushNode A) A.currentNode A.nodes.length
      (by rw [length_pushNode]; omega) A.nodes.length]
    rw [if_pos rfl]
    rw [nodeAt_pushNode, if_pos rfl]
    rfl

theorem c8State_inv : Inv c8State := by
  have hN : ∀ j, nodeAt c8State j = ({} : CFGNode) := by
    intro j
    match j with
    | 0 => rfl
    | 1 => rfl
    | 2 => rfl
    | _ + 3 => rfl
  refine ⟨?_, ?_, by decide, by decide, by decide, by decide, by decide,
    by decide, by decide, by decide, by decide, ?_⟩
  · intro j hj
    constructor
    · intro k hk
      rw [hN j] at hk
      exact absurd hk (List.not_mem_nil k)
    · intro k hk
      rw [hN j] at hk
      exact absurd hk (List.not_mem_nil k)
  · intro a ha b hb
    rw [hN a, hN b]
    constructor
    · intro hx
      exact absurd hx (List.not_mem_nil b)
    · intro hx
      exact absurd hx (List.not_mem_nil a)
  · intro p hp
    exact absurd hp (List.not_mem_nil p)

/-- C8: Call-failure fan-out: for every builder state satisfying the
preserved invariant and every call expression with an implicit failure path
(kind canFail, any callee identity, any argument list), the node into which
the call is recorded gains exactly two additional exits from the call — one
to the fresh normal-continuation node, one to the enclosing subprogram's
exception anchor — the continuation node becomes the current node and is
entered only from the call node, and the call really is recorded into that
node (its expression appended to the node's block); concretely, in the flow
of `c8Body` the call node 0 has exactly the exits [3, 2]: the continuation
node 3 and the exception anchor 2. -/
theorem c8_call_failure_fanout (s : CFGState) (i : Nat) (args : List Expr)
    (h : Inv s) :
    (nodeAt (visitExpr s (Expr.call i CallKind.canFail args))
        (appendExpr (visitExprList s args) i).currentNode).exits =
      (nodeAt (appendExpr (visitExprList s args) i)
        (appendExpr (visitExprList s args) i).currentNode).exits ++
        [(appendExpr (visitExprList s args) i).nodes.length, s.exceptionJump] ∧
    (visitExpr s (Expr.call i CallKind.canFail args)).currentNode =
      (appendExpr (visitExprList s args) i).nodes.length ∧
    (nodeAt (visitExpr s (Expr.call i CallKind.canFail args))
        (appendExpr (visitExprList s args) i).nodes.length).entries =
      [(appendExpr (visitExprList s args) i).currentNode] ∧
    (nodeAt (appendExpr (visitExprList s args) i)
        (visitExprList s args).currentNode).block.expressions =
      (nodeAt (visitExprList s args)
        (visitExprList s args).currentNode).block.expressions ++ [i] ∧
    (constructFunctionFlow c8Body).1.exception = 2 ∧
    (nodeAt (constructFunctionFlow c8Body).2 0).block.expressions = [6, 4] ∧
    (nodeAt (constructFunctionFlow c8Body).2 0).exits = [3, 2] := by
  obtain ⟨hLI, hLS⟩ := visitExprList_master args s h
  have hAI : Inv (appendExpr (visitExprList s args) i) :=
    hLI.updCur (fun b => { b with expressions := b.expressions ++ [i] })
  have hAs : (appendExpr (visitExprList s args) i).exceptionJump
      = s.exceptionJump := by
    show (updCur (visitExprList s args)
      (fun b => { b with expressions := b.expressions ++ [i] })).exceptionJump
      = s.exceptionJump
    rw [updCur_exceptionJump]
    exact hLS.ej_eq
  have hfan := canFailFanout (appendExpr (visitExprList s args) i)
    hAI.cur_lt hAI.ej_lt
  rw [hAs] at hfan
  refine ⟨?_, ?_, ?_, ?_, by decide, by decide, by decide⟩
  · simp only [visitExpr]
    exact hfan.1
  · simp only [visitExpr]
  · simp only [visitExpr]
    exact hfan.2.2
  · show (nodeAt (updCur (visitExprList s args)
      (fun b => { b with expressions := b.expressions ++ [i] }))
      (visitExprList s args).currentNode).block.expressions = _
    rw [block_updCur_self (visitExprList s args) _ hLI.cur_lt]

theorem c8_call_failure_fanout_witness :
    (nodeAt (visitExpr c8State (Expr.call 4 CallKind.canFail []))
        (appendExpr (visitExprList c8State []) 4).currentNode).exits =
      (nodeAt (appendExpr (visitExprList c8State []) 4)
        (appendExpr (visitExprList c8State []) 4).currentNode).exits ++
        [(appendExpr (visitExprList c8State []) 4).nodes.length,
         c8State.exceptionJump] ∧
    (visitExpr c8State (Expr.call 4 CallKind.canFail [])).currentNode =
      (appendExpr (visitExprList c8State []) 4).nodes.length :=
  ⟨(c8_call_failure_fanout c8State 4 [] c8State_inv).1,
   (c8_call_failure_fanout c8State 4 [] c8State_inv).2.1⟩

/-- C9: Break/continue outside a loop: when a break or continue statement is
visited while the corresponding jump-target stack is empty, the builder only
reports a diagnostic through the diagnostic collaborator — the state is
otherwise unchanged, so no edge is contributed and the traversal continues;
the aggregate success flag of constructFlow is the sole pass/fail signal, as
shown by a stray break making constructFlow return false with one diagnostic
while a well-formed body yields true. -/
theorem c9_jump_outside_loop :
    (∀ s : CFGState, s.breakJumps = [] →
      visitStmt s Stmt.breakStmt = report s Severity.error 1) ∧
    (∀ s : CFGState, s.continueJumps = [] →
      visitStmt s Stmt.continueStmt = report s Severity.error 2) ∧
    (constructFlow [Definition.functionDef 0 Stmt.breakStmt]).1 = false ∧
    (constructFlow [Definition.functionDef 0
      Stmt.breakStmt]).2.state.diagnostics.length = 1 ∧
    (constructFlow [Definition.functionDef 0 Stmt.skip]).1 = true := by
  refine ⟨?_, ?_, by decide, by decide, by decide⟩
  · intro s h
    show (match s.breakJumps with
      | [] => report s .error 1
      | t :: _ => diverge (addEdge s s.currentNode t)) = _
    rw [h]
  · intro s h
    show (match s.continueJumps with
      | [] => report s .error 2
      | t :: _ => diverge (addEdge s s.currentNode t)) = _
    rw [h]

theorem c9_jump_outside_loop_witness :
    visitStmt initialState Stmt.breakStmt = report initialState Severity.error 1 :=
  c9_jump_outside_loop.1 initialState rfl

/-- C10: Fresh-node default state: every node produced by newNode starts with
an empty entries list, an empty exits list, and an empty ControlFlowBlock
whose variableDeclarations, expressions and inlineAssemblyStatements are empty
and whose returnStatement is the null reference; node creation leaves every
existing node untouched, and a block's returnStatement becomes non-null only
through an actual return statement: any traversal of a return-free statement
preserves every node's returnStatement. -/
theorem c10_fresh_node_default (s : CFGState) :
    (nodeAt (newNode s).2 (newNode s).1).entries = [] ∧
    (nodeAt (newNode s).2 (newNode s).1).exits = [] ∧
    (nodeAt (newNode s).2 (newNode s).1).block.variableDeclarations = [] ∧
    (nodeAt (newNode s).2 (newNode s).1).block.expressions = [] ∧
    (nodeAt (newNode s).2 (newNode s).1).block.inlineAssemblyStatements = [] ∧
    (nodeAt (newNode s).2 (newNode s).1).block.returnStatement = none ∧
    (∀ i, i < s.nodes.length → nodeAt (newNode s).2 i = nodeAt s i) ∧
    (∀ (st : Stmt) (s0 : CFGState) (i : Nat), containsRet st = false →
      (nodeAt (visitStmt s0 st) i).block.returnStatement =
        (nodeAt s0 i).block.returnStatement) := by
  have hnew : nodeAt (newNode s).2 (newNode s).1 = ({} : CFGNode) := by
    show nodeAt (pushNode s) s.nodes.length = ({} : CFGNode)
    rw [nodeAt_pushNode, if_pos rfl]
  refine ⟨by rw [hnew], by rw [hnew], by rw [hnew], by rw [hnew], by rw [hnew],
    by rw [hnew], ?_, ?_⟩
  · intro i hi
    show nodeAt (pushNode s) i = nodeAt s i
    rw [nodeAt_pushNode, if_neg (by omega)]
  · intro st s0 i h
    exact visitStmt_retStmt st s0 i h

theorem c10_fresh_node_default_witness :
    (nodeAt (newNode initialState).2 (newNode initialState).1).entries = [] ∧
    (nodeAt (visitStmt initialState Stmt.skip) 0).block.returnStatement =
      (nodeAt initialState 0).block.returnStatement :=
  ⟨(c10_fresh_node_default initialState).1,
   (c10_fresh_node_default initialState).2.2.2.2.2.2.2 Stmt.skip initialState 0 rfl⟩

end ControlFlow
